import Mathlib

/-!
# gocommands `bput`: bundle-upload orchestration

A shallow embedding of `cmd/subcmd/bput.go`.  The receiver `bput *BputCommand`
is threaded explicitly: every method takes the command value and returns the
updated one.  Collaborators that live outside the file (the iRODS client, the
bundle transfer manager, the terminal prompt, the hashing helper, helpers of
package `commons`) are described by a `World` of responses, so every theorem
holds for every behaviour of these collaborators.  Every collaborator call is
appended to `BputCommand.trace`, in program order.

Modelling conventions:
* a path is the list of its components (a cleaned path); `path.Join(p, name)`
  is `p ++ [name]` for a single-component `name`;
* the remote catalog is a list of `Entry` rows keyed by `Path`; `Stat`
  answers with the row at a path, `List` with the rows one component below,
  `RemoveFile` deletes the row at a path and a recursive `RemoveDir` the rows
  at and below it; any of these calls may instead fail (`World.StatErr` and
  its companions), and a failed call changes nothing;
* `updatedPathMap` is kept as its key set, since `bput.go` only tests keys;
* a recursive method takes a recursion budget and returns
  `Return.exhausted` when the budget runs out;
* the local file tree is read through `World.OsStat` and `World.ReadDir`;
  a directory listing is the list of its entry names, in the order
  `os.ReadDir` returns them;
* a nil pointer dereference ends a run in a `panic` result;
* `Process` is `ProcessSetup` (everything up to the start of the bundle
  transfer manager) followed by `ProcessTransfer` (the walk, `Wait`, and the
  two deletion phases); when `Wait` returns, the catalog is what the transfer
  made of it (`World.Uploaded`); the deferred `Release` calls and the child
  processes of `RunWithRetry` are not modelled;
* time stamps (`time.Now()`), log lines and terminal output are not
  modelled.

The file also embeds `commons/encrypt.go`, the `EncryptionManager`.  There a Go
`string` and a `[]byte` are lists of bytes, the local disk is a list of files,
and what the file takes from outside (the constants `aesPadding` and `aesIV`,
`base62`, AES-CBC, `openpgp`, `os`) is a `Library`; `Library.Lawful` states
the contract of these libraries that the round trips rest on.
-/

set_option autoImplicit false

namespace Bput

/-- A cleaned path, given by its components. -/
abbrev Path := List String

/-- Go `error` values that can flow through `bput.go`. -/
inductive Err where
  /-- Go `irodsclient_types.NewFileNotFoundError(path)` -/
  | FileNotFound (path : Path)
  /-- Go `commons.NewNotFileError(path)` -/
  | NotFile (path : Path)
  /-- Go `commons.NewNotDirError(path)` -/
  | NotDir (path : Path)
  /-- any other error value produced by a collaborator -/
  | Remote (code : Nat)
  /-- an error of package `os` for which `os.IsNotExist` holds -/
  | NotExist (path : Path)
  /-- Go `xerrors.Errorf(msg, path)` without a wrapped cause -/
  | Errorf (msg : String) (path : Path)
  /-- Go `xerrors.Errorf(msg + ": %w", path, cause)` -/
  | Wrap (msg : String) (path : Path) (cause : Err)
  deriving DecidableEq, Repr

/-- Go `irodsclient_types.IsFileNotFoundError`: looks through the `%w` chain. -/
def IsFileNotFoundError : Err → Bool
  | .FileNotFound _ => true
  | .Wrap _ _ cause => IsFileNotFoundError cause
  | _ => false

/-- Go `os.IsNotExist` -/
def IsNotExist : Err → Bool
  | .NotExist _ => true
  | _ => false

/-- Go `irodsclient_fs.Entry`, restricted to the fields `bput.go` reads.
`IsDir` stands for `Type == DirectoryEntry`. -/
structure Entry where
  IsDir : Bool
  Path : List String
  Size : Int
  CheckSumAlgorithm : String
  CheckSum : List Nat
  deriving DecidableEq, Repr

/-- Go `Entry.Name`: the last component of the entry path. -/
def Entry.Name (e : Entry) : String := e.Path.getLast?.getD ""

/-- Go `fs.FileInfo` of a local source, restricted to what `bput.go` reads. -/
structure FileInfo where
  Name : String
  Size : Int
  IsDir : Bool
  deriving DecidableEq, Repr

/-- Go `commons.TransferMethod` -/
inductive TransferMethod where
  | TransferMethodPut
  | TransferMethodDelete
  deriving DecidableEq, Repr

/-- Go `commons.TransferReportFile` (without `StartAt` / `EndAt`). -/
structure TransferReportFile where
  Method : TransferMethod
  SourcePath : Path := []
  SourceSize : Int := 0
  SourceChecksum : String := ""
  DestPath : Path := []
  DestSize : Int := 0
  DestChecksum : String := ""
  ChecksumAlgorithm : String := ""
  Error : Option Err := none
  Notes : List String := []
  deriving DecidableEq, Repr

/-- One collaborator call, as recorded in the trace. -/
inductive Event where
  | getTargetPath (source : Path)
  | markPathMap (path : Path)
  | stat (path : Path)
  | list (path : Path)
  | makeDir (path : Path) (recurse : Bool)
  | removeDir (path : Path) (recurse : Bool) (force : Bool)
  | removeFile (path : Path) (force : Bool)
  | inputYN (question : String) (path : Path)
  | hashLocalFile (source : Path) (algorithm : String)
  | schedule (sourceStat : FileInfo) (source : Path)
  | addFile (report : TransferReportFile)
  | isSafeStagingDir (path : Path)
  | isSameResourceServer (target : Path) (staging : Path)
  | osStat (path : Path)
  | osReadDir (path : Path)
  | osRemove (path : Path)
  | osRemoveAll (path : Path)
  | doneScheduling
  | wait
  | call (name : String)
  deriving DecidableEq, Repr

/-- Responses of everything `bput.go` calls but does not define. -/
structure World where
  /-- Go `commons.MakeIRODSPath(cwd, home, zone, ·)` -/
  MakeIRODSPath : String → Path
  /-- Go `commons.GetDefaultStagingDir` -/
  GetDefaultStagingDir : Path → Path
  /-- Go `commons.IsSafeStagingDir`: `none` is a nil error -/
  IsSafeStagingDir : Path → Option Err
  /-- Go `commons.IsSameResourceServer(filesystem, target, staging)` -/
  IsSameResourceServer : Path → Path → Except Err Bool
  /-- Go `commons.MarkPathMap`, as a function on the key set -/
  MarkPathMap : List Path → Path → List Path
  /-- Go `bundleTransferManager.GetTargetPath` -/
  GetTargetPath : Path → Except Err Path
  /-- Go `bundleTransferManager.Schedule`: `none` is a nil error -/
  Schedule : FileInfo → Path → Option Err
  /-- Go `irodsclient_util.HashLocalFile` -/
  HashLocalFile : Path → String → Except Err (List Nat)
  /-- Go `commons.InputYN`: the answer to the n-th prompt of the run -/
  InputYN : Nat → Bool
  /-- failures of the storage backend, per call and path (`none`: the call
  goes through) -/
  StatErr : Path → Option Err
  ListErr : Path → Option Err
  MakeDirErr : Path → Option Err
  RemoveDirErr : Path → Option Err
  RemoveFileErr : Path → Option Err
  /-- Go `commons.MakeLocalPath` -/
  MakeLocalPath : String → Path
  /-- the local file that a path argument of `os.Stat`, `os.Remove` or
  `os.RemoveAll` names -/
  OsPath : String → Path
  /-- Go `os.Stat` on the local tree -/
  OsStat : Path → Except Err FileInfo
  /-- Go `os.ReadDir` on the local tree: the entry names, in listing order -/
  ReadDir : Path → Except Err (List String)
  /-- Go `os.Remove` and `os.RemoveAll`: `none` is a nil error -/
  OsRemove : Path → Option Err
  OsRemoveAll : Path → Option Err
  /-- Go `flag.ProcessCommonFlags(command)`: the `cont` flag or an error -/
  ProcessCommonFlags : Except Err Bool
  /-- Go `commons.InputMissingFields()` -/
  InputMissingFields : Option Err
  /-- Go `commons.RunWithRetry(retryNumber, retryIntervalSeconds)` -/
  RunWithRetry : Option Err
  /-- Go `commons.GetIRODSFSClientAdvanced(...)` -/
  GetIRODSFSClientAdvanced : Option Err
  /-- Go `commons.NewTransferReportManager(...)` -/
  NewTransferReportManager : Option Err
  /-- Go `commons.CleanUpOldIRODSBundles(filesystem, stagingDirPath, false, true)` -/
  CleanUpOldIRODSBundles : Option Path → Option Err
  /-- Go `commons.GetCommonRootLocalDirPath(sourcePaths)` -/
  GetCommonRootLocalDirPath : List String → Except Err Path
  /-- Go `bundleTransferManager.Wait()`: `none` is a nil error -/
  Wait : Option Err
  /-- the remote catalog once the bundle transfer manager is done with the
  scheduled entries -/
  Uploaded : List Entry → List Entry

/-- The receiver `*BputCommand`: flag values, the remote catalog behind
`filesystem`, `updatedPathMap` (its key set), and the trace of calls. -/
structure BputCommand where
  Force : Bool
  DifferentialTransfer : Bool
  NoHash : Bool
  Sync : Bool
  Delete : Bool
  IRODSTempPath : String
  targetPath : String
  filesystem : List Entry
  updatedPathMap : List Path
  asked : Nat
  trace : List Event
  /-- `bundleTransferFlagValues.ClearOld` -/
  ClearOld : Bool
  /-- `retryFlagValues.RetryNumber` -/
  RetryNumber : Int
  /-- `retryFlagValues.RetryChild` -/
  RetryChild : Bool
  /-- `postTransferFlagValues.DeleteOnSuccess` -/
  DeleteOnSuccess : Bool
  /-- `bput.sourcePaths` -/
  sourcePaths : List String

/-- What a method returning `error` can do: return nil, return an error, or
(in the model only) use up its recursion budget. -/
inductive Return where
  | nil
  | error (err : Err)
  | exhausted
  deriving DecidableEq, Repr

/-- Append one call to the trace. -/
def BputCommand.log (bput : BputCommand) (ev : Event) : BputCommand :=
  { bput with trace := bput.trace ++ [ev] }

/-! ## The storage backend -/

/-- The catalog row at `path`, if any. -/
def fsStat (fs : List Entry) (path : Path) : Option Entry :=
  fs.find? (fun e => decide (e.Path = path))

/-- The rows directly inside collection `path`. -/
def fsList (fs : List Entry) (path : Path) : List Entry :=
  fs.filter (fun e => decide (e.Path = path ++ [e.Name]))

/-- The catalog without the data object at `path`. -/
def fsRemoveFile (fs : List Entry) (path : Path) : List Entry :=
  fs.filter (fun e => !decide (e.Path = path))

/-- The catalog without the collection at `path` and everything beneath it. -/
def fsRemoveDir (fs : List Entry) (path : Path) : List Entry :=
  fs.filter (fun e => !path.isPrefixOf e.Path)

/-- The catalog with a collection at `path` (and, for `recurse`, at every
missing ancestor). -/
def fsMakeDir (fs : List Entry) (path : Path) (recurse : Bool) : List Entry :=
  let wanted := if recurse then (path.inits.filter (fun p => !p.isEmpty)) else [path]
  fs ++ (wanted.filter (fun p => (fsStat fs p).isNone)).map
    (fun p => { IsDir := true, Path := p, Size := 0, CheckSumAlgorithm := "", CheckSum := [] })

/-- What `filesystem.Stat(path)` answers on catalog `fs`: the backend failure
if there is one, the row at `path`, or a file-not-found error. -/
def statResult (w : World) (fs : List Entry) (path : Path) : Except Err Entry :=
  match w.StatErr path with
  | some err => .error err
  | none =>
    match fsStat fs path with
    | some entry => .ok entry
    | none => .error (.FileNotFound path)

/-- Go `filesystem.Stat(path)` -/
def FileSystem.Stat (w : World) (bput : BputCommand) (path : Path) :
    Except Err Entry × BputCommand :=
  (statResult w bput.filesystem path, bput.log (.stat path))

/-- Go `filesystem.List(path)` -/
def FileSystem.List (w : World) (bput : BputCommand) (path : Path) :
    Except Err (List Entry) × BputCommand :=
  let bput := bput.log (.list path)
  match w.ListErr path with
  | some err => (.error err, bput)
  | none => (.ok (fsList bput.filesystem path), bput)

/-- Go `filesystem.MakeDir(path, recurse)` -/
def FileSystem.MakeDir (w : World) (bput : BputCommand) (path : Path) (recurse : Bool) :
    Option Err × BputCommand :=
  let bput := bput.log (.makeDir path recurse)
  match w.MakeDirErr path with
  | some err => (some err, bput)
  | none => (none, { bput with filesystem := fsMakeDir bput.filesystem path recurse })

/-- Go `filesystem.RemoveDir(path, recurse, force)`; `bput.go` always passes
`recurse = true`. -/
def FileSystem.RemoveDir (w : World) (bput : BputCommand) (path : Path)
    (recurse : Bool) (force : Bool) : Option Err × BputCommand :=
  let bput := bput.log (.removeDir path recurse force)
  match w.RemoveDirErr path with
  | some err => (some err, bput)
  | none => (none, { bput with filesystem := fsRemoveDir bput.filesystem path })

/-- Go `filesystem.RemoveFile(path, force)` -/
def FileSystem.RemoveFile (w : World) (bput : BputCommand) (path : Path) (force : Bool) :
    Option Err × BputCommand :=
  let bput := bput.log (.removeFile path force)
  match w.RemoveFileErr path with
  | some err => (some err, bput)
  | none => (none, { bput with filesystem := fsRemoveFile bput.filesystem path })

/-- Go `transferReportManager.AddFile(reportFile)` -/
def AddFile (bput : BputCommand) (reportFile : TransferReportFile) : BputCommand :=
  bput.log (.addFile reportFile)

/-- Go `commons.InputYN(question about path)` -/
def InputYN (w : World) (bput : BputCommand) (question : String) (path : Path) :
    Bool × BputCommand :=
  (w.InputYN bput.asked, { bput.log (.inputYN question path) with asked := bput.asked + 1 })

/-! ## `deleteExtra` -/

/-- The `for _, entry := range entries` loop of `deleteExtraInternal`: run
`body` on each path in turn and stop at the first result that is not nil. -/
def forEachPath (body : BputCommand → Path → Return × BputCommand) :
    BputCommand → List Path → Return × BputCommand
  | bput, [] => (.nil, bput)
  | bput, newTargetPath :: rest =>
    match body bput newTargetPath with
    | (.nil, bput) => forEachPath body bput rest
    | (r, bput) => (r, bput)

/-- Go `BputCommand.deleteExtraInternal`; the first argument bounds the recursion
depth. -/
def deleteExtraInternal (w : World) : Nat → BputCommand → Path → Return × BputCommand
  | 0, bput, _ => (.exhausted, bput)
  | fuel + 1, bput, targetPath =>
    match FileSystem.Stat w bput targetPath with
    | (.error err, bput) => (.error (.Wrap "failed to stat" targetPath err), bput)
    | (.ok targetEntry, bput) =>
      if !targetEntry.IsDir then
        -- file
        if targetPath ∉ bput.updatedPathMap then
          -- extra file
          match FileSystem.RemoveFile w bput targetPath true with
          | (removeErr, bput) =>
            let bput := AddFile bput
              { Method := .TransferMethodDelete, SourcePath := targetPath,
                Error := removeErr, Notes := ["extra", "put"] }
            match removeErr with
            | some err => (.error err, bput)
            | none => (.nil, bput)
        else (.nil, bput)
      else if targetPath ∉ bput.updatedPathMap then
        -- extra dir
        match FileSystem.RemoveDir w bput targetPath true true with
        | (removeErr, bput) =>
          let bput := AddFile bput
            { Method := .TransferMethodDelete, SourcePath := targetPath,
              Error := removeErr, Notes := ["extra", "put", "dir"] }
          match removeErr with
          | some err => (.error err, bput)
          | none => (.nil, bput)
      else
        -- non extra dir: scan recursively
        match FileSystem.List w bput targetPath with
        | (.error err, bput) => (.error (.Wrap "failed to list a directory" targetPath err), bput)
        | (.ok entries, bput) =>
          forEachPath (deleteExtraInternal w fuel) bput
            (entries.map (fun entry => targetPath ++ [entry.Name]))

/-- Go `BputCommand.deleteExtra` -/
def deleteExtra (w : World) (fuel : Nat) (bput : BputCommand) (targetPath : String) :
    Return × BputCommand :=
  let targetPath := w.MakeIRODSPath targetPath
  deleteExtraInternal w fuel bput targetPath

/-! ## `getStagingDir` -/

/-- Go `commons.IsSafeStagingDir(stagingPath)` -/
def IsSafeStagingDir (w : World) (bput : BputCommand) (stagingPath : Path) :
    Option Err × BputCommand :=
  (w.IsSafeStagingDir stagingPath, bput.log (.isSafeStagingDir stagingPath))

/-- Go `commons.IsSameResourceServer(bput.filesystem, targetPath, stagingPath)` -/
def IsSameResourceServer (w : World) (bput : BputCommand) (targetPath stagingPath : Path) :
    Except Err Bool × BputCommand :=
  (w.IsSameResourceServer targetPath stagingPath,
    bput.log (.isSameResourceServer targetPath stagingPath))

/-- What `getStagingDir` can do: return `(path, err)`, where `none` stands for
the empty string, or stop in a run-time panic (a nil pointer dereference). -/
inductive StagingReturn where
  | ret (stagingPath : Option Path) (err : Option Err)
  | panic
  deriving DecidableEq, Repr

/-- Lines 301-345 of `getStagingDir`: the user-supplied branch from
`if !tempEntry.IsDir()` on.  `tempEntry` is the pointer returned by `Stat`,
`none` when it is nil. -/
def getStagingDirUser (w : World) (bput : BputCommand) (targetPath stagingPath : Path)
    (createdDir : Bool) (tempEntry : Option Entry) : StagingReturn × BputCommand :=
  match tempEntry with
  | none => (.panic, bput)
  | some tempEntry =>
    if !tempEntry.IsDir then
      (.ret none (some (.Errorf "staging path is a file" stagingPath)), bput)
    else
      -- is it safe?
      match IsSafeStagingDir w bput stagingPath with
      | (some err, bput) =>
        let bput := if createdDir then (FileSystem.RemoveDir w bput stagingPath true true).2 else bput
        (.ret none (some (.Wrap "staging path is not safe" stagingPath err)), bput)
      | (none, bput) =>
        match IsSameResourceServer w bput targetPath stagingPath with
        | (.error _, bput) =>
          let bput := if createdDir then (FileSystem.RemoveDir w bput stagingPath true true).2 else bput
          let stagingPath := w.GetDefaultStagingDir targetPath
          (.ret (some stagingPath) none, bput)
        | (.ok ok, bput) =>
          if !ok then
            let bput := if createdDir then (FileSystem.RemoveDir w bput stagingPath true true).2 else bput
            let stagingPath := w.GetDefaultStagingDir targetPath
            (.ret (some stagingPath) none, bput)
          else
            (.ret (some stagingPath) none, bput)

/-- Go `BputCommand.getStagingDir` -/
def getStagingDir (w : World) (bput : BputCommand) (targetPath : String) :
    StagingReturn × BputCommand :=
  let targetPath := w.MakeIRODSPath targetPath
  if bput.IRODSTempPath.length > 0 then
    let stagingPath := w.MakeIRODSPath bput.IRODSTempPath
    match FileSystem.Stat w bput stagingPath with
    | (.error err, bput) =>
      if IsFileNotFoundError err then
        -- not exist
        match FileSystem.MakeDir w bput stagingPath true with
        | (some err, bput) =>
          (.ret none (some (.Wrap "failed to make a collection" stagingPath err)), bput)
        | (none, bput) => getStagingDirUser w bput targetPath stagingPath true none
      else
        (.ret none (some (.Wrap "failed to stat" stagingPath err)), bput)
    | (.ok tempEntry, bput) =>
      getStagingDirUser w bput targetPath stagingPath false (some tempEntry)
  else
    -- use default staging dir
    let stagingPath := w.GetDefaultStagingDir targetPath
    match IsSafeStagingDir w bput stagingPath with
    | (some err, bput) => (.ret none (some (.Wrap "staging path is not safe" stagingPath err)), bput)
    | (none, bput) =>
      -- may not exist
      match FileSystem.MakeDir w bput stagingPath true with
      | (some err, bput) =>
        (.ret none (some (.Wrap "failed to make a collection" stagingPath err)), bput)
      | (none, bput) => (.ret (some stagingPath) none, bput)

/-! ## `putFile` -/

/-- Go `encoding/hex`: one hexadecimal digit. -/
def hexDigit (n : Nat) : Char := "0123456789abcdef".toList.getD n '0'

/-- Go `hex.EncodeToString` on a list of bytes. -/
def hexEncodeToString (bytes : List Nat) : String :=
  String.mk ((bytes.map (fun b => [hexDigit (b / 16 % 16), hexDigit (b % 16)])).flatten)

/-- Go `bundleTransferManager.GetTargetPath(sourcePath)` -/
def GetTargetPath (w : World) (bput : BputCommand) (sourcePath : Path) :
    Except Err Path × BputCommand :=
  (w.GetTargetPath sourcePath, bput.log (.getTargetPath sourcePath))

/-- Go `commons.MarkPathMap(bput.updatedPathMap, targetPath)` -/
def MarkPathMap (w : World) (bput : BputCommand) (targetPath : Path) : BputCommand :=
  { bput.log (.markPathMap targetPath) with
    updatedPathMap := w.MarkPathMap bput.updatedPathMap targetPath }

/-- Go `irodsclient_util.HashLocalFile(sourcePath, algorithm)` -/
def HashLocalFile (w : World) (bput : BputCommand) (sourcePath : Path) (algorithm : String) :
    Except Err (List Nat) × BputCommand :=
  (w.HashLocalFile sourcePath algorithm, bput.log (.hashLocalFile sourcePath algorithm))

/-- Go `bundleTransferManager.Schedule(sourceStat, sourcePath)` -/
def Schedule (w : World) (bput : BputCommand) (sourceStat : FileInfo) (sourcePath : Path) :
    Option Err × BputCommand :=
  (w.Schedule sourceStat sourcePath, bput.log (.schedule sourceStat sourcePath))

/-- Go `BputCommand.schedulePut` -/
def schedulePut (w : World) (bput : BputCommand) (sourceStat : FileInfo) (sourcePath : Path) :
    Return × BputCommand :=
  match Schedule w bput sourceStat sourcePath with
  | (some err, bput) => (.error (.Wrap "failed to schedule a file" sourcePath err), bput)
  | (none, bput) => (.nil, bput)

/-- Lines 484-574 of `putFile`: what happens once the target is known to exist
and the collection check is behind. -/
def putFileTransfer (w : World) (bput : BputCommand) (sourceStat : FileInfo)
    (sourcePath targetPath : Path) (targetEntry : Entry) : Return × BputCommand :=
  if bput.DifferentialTransfer then
    if bput.NoHash then
      if targetEntry.Size = sourceStat.Size then
        -- skip
        let bput := AddFile bput
          { Method := .TransferMethodPut, SourcePath := sourcePath,
            SourceSize := sourceStat.Size, DestPath := targetEntry.Path,
            DestSize := targetEntry.Size,
            ChecksumAlgorithm := targetEntry.CheckSumAlgorithm,
            Notes := ["differential", "no_hash", "same file size", "skip"] }
        (.nil, bput)
      else schedulePut w bput sourceStat sourcePath
    else
      if targetEntry.Size = sourceStat.Size then
        -- compare hash
        if targetEntry.CheckSum.length > 0 then
          match HashLocalFile w bput sourcePath targetEntry.CheckSumAlgorithm with
          | (.error err, bput) => (.error (.Wrap "failed to get hash" sourcePath err), bput)
          | (.ok localChecksum, bput) =>
            if localChecksum = targetEntry.CheckSum then
              -- skip
              let bput := AddFile bput
                { Method := .TransferMethodPut, SourcePath := sourcePath,
                  SourceSize := sourceStat.Size,
                  SourceChecksum := hexEncodeToString localChecksum,
                  DestPath := targetEntry.Path, DestSize := targetEntry.Size,
                  DestChecksum := hexEncodeToString targetEntry.CheckSum,
                  ChecksumAlgorithm := targetEntry.CheckSumAlgorithm,
                  Notes := ["differential", "same checksum", "skip"] }
              (.nil, bput)
            else schedulePut w bput sourceStat sourcePath
        else schedulePut w bput sourceStat sourcePath
      else schedulePut w bput sourceStat sourcePath
  else
    if !bput.Force then
      -- ask
      match InputYN w bput "file already exists. Overwrite?" targetPath with
      | (overwrite, bput) =>
        if !overwrite then
          -- skip
          let bput := AddFile bput
            { Method := .TransferMethodPut, SourcePath := sourcePath,
              SourceSize := sourceStat.Size, DestPath := targetEntry.Path,
              DestSize := targetEntry.Size,
              DestChecksum := hexEncodeToString targetEntry.CheckSum,
              ChecksumAlgorithm := targetEntry.CheckSumAlgorithm,
              Notes := ["no_overwrite", "skip"] }
          (.nil, bput)
        else schedulePut w bput sourceStat sourcePath
    else schedulePut w bput sourceStat sourcePath

/-- Lines 437-453 (and 458-474) of `putFile`: remove the collection in the
way, report it, and go on unless the removal failed. -/
def putFileReplaceDir (w : World) (bput : BputCommand) (sourceStat : FileInfo)
    (sourcePath targetPath : Path) (targetEntry : Entry) : Return × BputCommand :=
  match FileSystem.RemoveDir w bput targetPath true true with
  | (removeErr, bput) =>
    let bput := AddFile bput
      { Method := .TransferMethodDelete, SourcePath := targetPath,
        Error := removeErr, Notes := ["overwrite", "put", "dir"] }
    match removeErr with
    | some err => (.error err, bput)
    | none => putFileTransfer w bput sourceStat sourcePath targetPath targetEntry

/-- Go `BputCommand.putFile` -/
def putFile (w : World) (bput : BputCommand) (sourceStat : FileInfo) (sourcePath : Path) :
    Return × BputCommand :=
  match GetTargetPath w bput sourcePath with
  | (.error err, bput) =>
    (.error (.Wrap "failed to get target path for source" sourcePath err), bput)
  | (.ok targetPath, bput) =>
    let bput := MarkPathMap w bput targetPath
    match FileSystem.Stat w bput targetPath with
    | (.error err, bput) =>
      if IsFileNotFoundError err then
        -- target does not exist
        schedulePut w bput sourceStat sourcePath
      else (.error (.Wrap "failed to stat" targetPath err), bput)
    | (.ok targetEntry, bput) =>
      -- target exists; target must be a file
      if targetEntry.IsDir then
        if bput.Sync then
          -- if it is sync, remove
          if bput.Force then
            putFileReplaceDir w bput sourceStat sourcePath targetPath targetEntry
          else
            -- ask
            match InputYN w bput "overwriting a file, but directory exists. Overwrite?"
                targetPath with
            | (overwrite, bput) =>
              if overwrite then
                putFileReplaceDir w bput sourceStat sourcePath targetPath targetEntry
              else (.error (.NotFile targetPath), bput)
        else (.error (.NotFile targetPath), bput)
      else putFileTransfer w bput sourceStat sourcePath targetPath targetEntry

/-! ## `putDir` and `bputOne` -/

/-- Go `os.Stat(path)` -/
def OsStat (w : World) (bput : BputCommand) (path : Path) : Except Err FileInfo × BputCommand :=
  (w.OsStat path, bput.log (.osStat path))

/-- Go `os.ReadDir(path)` -/
def ReadDir (w : World) (bput : BputCommand) (path : Path) :
    Except Err (List String) × BputCommand :=
  (w.ReadDir path, bput.log (.osReadDir path))

/-- The body of the loop at lines 667-692 of `putDir`, for the entry at
`entryPath`; `putDir` is the recursive call. -/
def putDirEntry (w : World) (putDir : BputCommand → FileInfo → Path → Return × BputCommand)
    (bput : BputCommand) (entryPath : Path) : Return × BputCommand :=
  match OsStat w bput entryPath with
  | (.error err, bput) =>
    if IsNotExist err then (.error (.FileNotFound entryPath), bput)
    else (.error (.Wrap "failed to stat" entryPath err), bput)
  | (.ok entryStat, bput) =>
    if entryStat.IsDir then
      -- dir
      putDir bput entryStat entryPath
    else
      -- file
      putFile w bput entryStat entryPath

/-- Lines 661-694 of `putDir`: read the source directory and walk its entries
in listing order. -/
def putDirChildren (w : World) (putDir : BputCommand → FileInfo → Path → Return × BputCommand)
    (bput : BputCommand) (sourcePath : Path) : Return × BputCommand :=
  match ReadDir w bput sourcePath with
  | (.error err, bput) => (.error (.Wrap "failed to read a directory" sourcePath err), bput)
  | (.ok entries, bput) =>
    forEachPath (putDirEntry w putDir) bput (entries.map (fun name => sourcePath ++ [name]))

/-- Lines 613-629 (and 634-650) of `putDir`: remove the data object in the
way, report it, and go on with the children unless the removal failed. -/
def putDirReplaceFile (w : World)
    (putDir : BputCommand → FileInfo → Path → Return × BputCommand)
    (bput : BputCommand) (sourcePath targetPath : Path) : Return × BputCommand :=
  match FileSystem.RemoveFile w bput targetPath true with
  | (removeErr, bput) =>
    let bput := AddFile bput
      { Method := .TransferMethodDelete, SourcePath := targetPath,
        Error := removeErr, Notes := ["overwrite", "put"] }
    match removeErr with
    | some err => (.error err, bput)
    | none => putDirChildren w putDir bput sourcePath

/-- Go `BputCommand.putDir`; the first argument bounds the recursion depth. -/
def putDir (w : World) : Nat → BputCommand → FileInfo → Path → Return × BputCommand
  | 0, bput, _, _ => (.exhausted, bput)
  | fuel + 1, bput, _, sourcePath =>
    match GetTargetPath w bput sourcePath with
    | (.error err, bput) =>
      (.error (.Wrap "failed to get target path for source" sourcePath err), bput)
    | (.ok targetPath, bput) =>
      let bput := MarkPathMap w bput targetPath
      match FileSystem.Stat w bput targetPath with
      | (.error err, bput) =>
        if IsFileNotFoundError err then
          -- target does not exist
          match FileSystem.MakeDir w bput targetPath true with
          | (some err, bput) =>
            (.error (.Wrap "failed to make a collection" targetPath err), bput)
          | (none, bput) =>
            let bput := AddFile bput
              { Method := .TransferMethodPut, SourcePath := sourcePath,
                DestPath := targetPath, Notes := ["directory"] }
            putDirChildren w (putDir w fuel) bput sourcePath
        else (.error (.Wrap "failed to stat" targetPath err), bput)
      | (.ok targetEntry, bput) =>
        -- target exists
        if !targetEntry.IsDir then
          if bput.Sync then
            -- if it is sync, remove
            if bput.Force then
              putDirReplaceFile w (putDir w fuel) bput sourcePath targetPath
            else
              -- ask
              match InputYN w bput "overwriting a directory, but file exists. Overwrite?"
                  targetPath with
              | (overwrite, bput) =>
                if overwrite then
                  putDirReplaceFile w (putDir w fuel) bput sourcePath targetPath
                else (.error (.NotDir targetPath), bput)
          else (.error (.NotDir targetPath), bput)
        else putDirChildren w (putDir w fuel) bput sourcePath

/-- Go `BputCommand.bputOne` -/
def bputOne (w : World) (fuel : Nat) (bput : BputCommand) (sourcePath : String) :
    Return × BputCommand :=
  let sourcePath := w.MakeLocalPath sourcePath
  match OsStat w bput sourcePath with
  | (.error err, bput) =>
    if IsNotExist err then (.error (.FileNotFound sourcePath), bput)
    else (.error (.Wrap "failed to stat" sourcePath err), bput)
  | (.ok sourceStat, bput) =>
    if sourceStat.IsDir then
      -- dir
      putDir w fuel bput sourceStat sourcePath
    else
      -- file
      putFile w bput sourceStat sourcePath

/-! ## `Process` -/

/-- Go `BputCommand.ensureTargetIsDir` -/
def ensureTargetIsDir (w : World) (bput : BputCommand) (targetPath : String) :
    Option Err × BputCommand :=
  let targetPath := w.MakeIRODSPath targetPath
  match FileSystem.Stat w bput targetPath with
  | (.error err, bput) => (some (.Wrap "failed to stat" targetPath err), bput)
  | (.ok targetEntry, bput) =>
    if !targetEntry.IsDir then (some (.NotDir targetPath), bput) else (none, bput)

/-- Go `BputCommand.deleteOnSuccess` -/
def deleteOnSuccess (w : World) (bput : BputCommand) (sourcePath : String) :
    Option Err × BputCommand :=
  match OsStat w bput (w.OsPath sourcePath) with
  | (.error err, bput) => (some (.Wrap "failed to stat" (w.OsPath sourcePath) err), bput)
  | (.ok sourceStat, bput) =>
    if sourceStat.IsDir then
      (w.OsRemoveAll (w.OsPath sourcePath), bput.log (.osRemoveAll (w.OsPath sourcePath)))
    else (w.OsRemove (w.OsPath sourcePath), bput.log (.osRemove (w.OsPath sourcePath)))

/-- Go `bundleTransferManager.Wait()`: when it returns, the catalog is what the
transfer made of it. -/
def Wait (w : World) (bput : BputCommand) : Option Err × BputCommand :=
  (w.Wait, { bput.log .wait with filesystem := w.Uploaded bput.filesystem })

/-- Lines 214-219 of `Process`: walk the sources in order and stop at the
first that fails.  `targetPath` is `bput.targetPath`. -/
def bputSources (w : World) (fuel : Nat) (targetPath : String) :
    BputCommand → List String → Return × BputCommand
  | bput, [] => (.nil, bput)
  | bput, sourcePath :: rest =>
    match bputOne w fuel bput sourcePath with
    | (.nil, bput) => bputSources w fuel targetPath bput rest
    | (.error err, bput) =>
      (.error (.Wrap "failed to bundle-put" [sourcePath, targetPath] err), bput)
    | (.exhausted, bput) => (.exhausted, bput)

/-- Lines 229-236 of `Process`: delete the sources in order and stop at the
first deletion that fails. -/
def deleteSources (w : World) : BputCommand → List String → Option Err × BputCommand
  | bput, [] => (none, bput)
  | bput, sourcePath :: rest =>
    match deleteOnSuccess w bput sourcePath with
    | (some err, bput) => (some (.Wrap "failed to delete source" [sourcePath] err), bput)
    | (none, bput) => deleteSources w bput rest

/-- The command once the walker is through and `Wait` has been called. -/
def afterWait (w : World) (walked : BputCommand) : BputCommand :=
  (Wait w (walked.log .doneScheduling)).2

/-- Lines 227-237 of `Process`, run on the command `waited` that `Wait` left. -/
def deleteOnSuccessPhase (w : World) (bput waited : BputCommand) : Option Err × BputCommand :=
  if bput.DeleteOnSuccess then deleteSources w waited bput.sourcePaths else (none, waited)

/-- Lines 213-249 of `Process`: walk the sources, wait for the transfer, then
delete the sources and the extra remote entries if asked to.  Flag values and
paths are read from `bput`; no method writes them. -/
def ProcessTransfer (w : World) (fuel : Nat) (bput : BputCommand) : Return × BputCommand :=
  -- run
  match bputSources w fuel bput.targetPath bput bput.sourcePaths with
  | (.nil, walked) =>
    match Wait w (walked.log .doneScheduling) with
    | (some err, waited) => (.error (.Wrap "failed to bundle-put" [] err), waited)
    | (none, waited) =>
      -- delete on success
      match deleteOnSuccessPhase w bput waited with
      | (some err, deleted) => (.error err, deleted)
      | (none, deleted) =>
        -- delete extra
        if bput.Delete then
          match deleteExtra w fuel deleted bput.targetPath with
          | (.nil, final) => (.nil, final)
          | (.error err, final) => (.error (.Wrap "failed to delete extra files" [] err), final)
          | (.exhausted, final) => (.exhausted, final)
        else (.nil, deleted)
  | (r, walked) => (r, walked)

/-- What `Process` can do: return, or stop in a run-time panic. -/
inductive ProcessReturn where
  | returned (r : Return)
  | panic
  deriving DecidableEq, Repr

/-- Lines 130-211 of `Process`: everything up to the start of the bundle
transfer manager.  The first component is `some r` when `Process` returns or
panics before the walk starts.  The deferred `Release` calls are not
modelled. -/
def ProcessSetup (w : World) (bput : BputCommand) : Option ProcessReturn × BputCommand :=
  let bput := bput.log (.call "flag.ProcessCommonFlags")
  match w.ProcessCommonFlags with
  | .error err =>
    (some (.returned (.error (.Wrap "failed to process common flags" [] err))), bput)
  | .ok cont =>
    if !cont then (some (.returned .nil), bput)
    else
      -- handle local flags
      let bput := bput.log (.call "commons.InputMissingFields")
      match w.InputMissingFields with
      | some err =>
        (some (.returned (.error (.Wrap "failed to input missing fields" [] err))), bput)
      | none =>
        -- delete local bundles before entering to retry
        let bput :=
          if bput.ClearOld then bput.log (.call "commons.CleanUpOldLocalBundles") else bput
        -- handle retry
        if bput.RetryNumber > 0 && !bput.RetryChild then
          let bput := bput.log (.call "commons.RunWithRetry")
          match w.RunWithRetry with
          | some err => (some (.returned (.error (.Wrap "failed to run with retry" [] err))), bput)
          | none => (some (.returned .nil), bput)
        else
          -- Create a file system
          let bput := bput.log (.call "commons.GetIRODSFSClientAdvanced")
          match w.GetIRODSFSClientAdvanced with
          | some err =>
            (some (.returned (.error (.Wrap "failed to get iRODS FS Client" [] err))), bput)
          | none =>
            -- transfer report
            let bput := bput.log (.call "commons.NewTransferReportManager")
            match w.NewTransferReportManager with
            | some err =>
              (some (.returned
                (.error (.Wrap "failed to create transfer report manager" [] err))), bput)
            | none =>
              -- target must be a dir
              match ensureTargetIsDir w bput bput.targetPath with
              | (some err, bput) => (some (.returned (.error err)), bput)
              | (none, bput) =>
                -- get staging path
                match getStagingDir w bput bput.targetPath with
                | (.panic, bput) => (some .panic, bput)
                | (.ret _ (some err), bput) => (some (.returned (.error err)), bput)
                | (.ret stagingDirPath none, bput) =>
                  -- clear old irods bundles
                  match (if bput.ClearOld then
                      (w.CleanUpOldIRODSBundles stagingDirPath,
                        bput.log (.call "commons.CleanUpOldIRODSBundles"))
                    else (none, bput)) with
                  | (some err, bput) =>
                    (some (.returned (.error
                      (.Wrap "failed to clean up old irods bundle files" [] err))), bput)
                  | (none, bput) =>
                    -- bundle root path
                    let bput := bput.log (.call "commons.GetCommonRootLocalDirPath")
                    match w.GetCommonRootLocalDirPath bput.sourcePaths with
                    | .error err =>
                      (some (.returned (.error
                        (.Wrap "failed to get a common root directory for source paths" []
                          err))), bput)
                    | .ok _ =>
                      -- bundle transfer manager
                      let bput := bput.log (.call "commons.NewBundleTransferManager")
                      (none, bput.log (.call "bundleTransferManager.Start"))

/-- Go `BputCommand.Process`; the first argument bounds the recursion depth of
the walker and of the reconciler. -/
def Process (w : World) (fuel : Nat) (bput : BputCommand) : ProcessReturn × BputCommand :=
  match ProcessSetup w bput with
  | (some r, bput) => (r, bput)
  | (none, bput) =>
    match ProcessTransfer w fuel bput with
    | (r, bput) => (.returned r, bput)

/-! ## Reading a trace -/

/-- The path a remove call (`RemoveFile` or `RemoveDir`) is issued on. -/
def Event.removeTarget : Event → Option Path
  | .removeDir path _ _ => some path
  | .removeFile path _ => some path
  | _ => none

/-- The report record an `AddFile` call appends. -/
def Event.report : Event → Option TransferReportFile
  | .addFile r => some r
  | _ => none

/-- Is the event a `Schedule` call? -/
def Event.isSchedule : Event → Bool
  | .schedule _ _ => true
  | _ => false

/-- Is the event a `HashLocalFile` call? -/
def Event.isHash : Event → Bool
  | .hashLocalFile _ _ => true
  | _ => false

/-- Is the event an `InputYN` prompt? -/
def Event.isPrompt : Event → Bool
  | .inputYN _ _ => true
  | _ => false

/-- The paths of the remove calls of a trace, in order. -/
def removeCalls (tr : List Event) : List Path := tr.filterMap Event.removeTarget

/-- The report records of a trace, in order. -/
def reports (tr : List Event) : List TransferReportFile := tr.filterMap Event.report

/-- Does the remove call `ev`, when it goes through, delete the row `e`?
`RemoveFile` deletes the row at its path, a recursive `RemoveDir` the rows at
and below its path. -/
def Event.removes (ev : Event) (e : Entry) : Bool :=
  match ev with
  | .removeFile path _ => decide (e.Path = path)
  | .removeDir path _ _ => path.isPrefixOf e.Path
  | _ => false

/-- The report record `deleteExtraInternal` appends after a remove call that
went through (lines 739-749 and 766-776). -/
def Event.extraReport : Event → Option TransferReportFile
  | .removeFile path _ =>
    some { Method := .TransferMethodDelete, SourcePath := path, Error := none,
           Notes := ["extra", "put"] }
  | .removeDir path _ _ =>
    some { Method := .TransferMethodDelete, SourcePath := path, Error := none,
           Notes := ["extra", "put", "dir"] }
  | _ => none

/-- A remove call fits the catalog `fs`: `RemoveFile(path, force = true)` is
issued on a data object of `fs`, `RemoveDir(path, recurse = true, force =
true)` on a collection of `fs`. -/
def Event.fitsCatalog (fs : List Entry) : Event → Prop
  | .removeFile path force => force = true ∧ ∃ e ∈ fs, e.Path = path ∧ e.IsDir = false
  | .removeDir path recurse force =>
    recurse = true ∧ force = true ∧ ∃ e ∈ fs, e.Path = path ∧ e.IsDir = true
  | _ => True

/-- The entry at `q` is a first extra below `p`: `q` is at or below `p`, is a
row of the catalog, is not touched, and every proper ancestor of `q` from `p`
down is a touched collection of the catalog. -/
def FirstExtra (fs : List Entry) (touched : List Path) (p q : Path) : Prop :=
  p <+: q ∧ q ∉ touched ∧ (∃ e ∈ fs, e.Path = q) ∧
  ∀ a, p <+: a → a <+: q → a ≠ q → a ∈ touched ∧ ∃ e ∈ fs, e.Path = a ∧ e.IsDir = true

/-- A reconciliation pass over the start paths `starts` that took the command
from `bput` to `bput'` and made the calls `evs`. -/
structure Pass (bput : BputCommand) (starts : List Path) (evs : List Event)
    (bput' : BputCommand) : Prop where
  trace : bput'.trace = bput.trace ++ evs
  touched : bput'.updatedPathMap = bput.updatedPathMap
  catalog : bput'.filesystem = bput.filesystem.filter (fun e => !evs.any (fun ev => ev.removes e))
  calls : ∀ q, q ∈ removeCalls evs ↔
    ∃ c ∈ starts, FirstExtra bput.filesystem bput.updatedPathMap c q
  nodup : (removeCalls evs).Nodup
  kinds : ∀ ev ∈ evs, ev.fitsCatalog bput.filesystem
  records : reports evs = evs.filterMap Event.extraReport

/-- What holds of every call of `deleteExtraInternal` over the start paths
`starts`, however it ends: the trace grows by `evs`, the touched set is not
written, no row is added, and every remove call is on an untouched path at or
below a start path. -/
structure Sound (bput : BputCommand) (starts : List Path) (evs : List Event)
    (bput' : BputCommand) : Prop where
  trace : bput'.trace = bput.trace ++ evs
  touched : bput'.updatedPathMap = bput.updatedPathMap
  rows : ∀ e ∈ bput'.filesystem, e ∈ bput.filesystem
  calls : ∀ q ∈ removeCalls evs, (∃ c ∈ starts, c <+: q) ∧ q ∉ bput.updatedPathMap

/-- The calls made between command state `bput` and the later state `bput'`. -/
def newCalls (bput bput' : BputCommand) : List Event := bput'.trace.drop bput.trace.length

/-- What `schedulePut` returns: nil, or the wrapped `Schedule` error. -/
def scheduleReturn (w : World) (sourceStat : FileInfo) (sourcePath : Path) : Return :=
  match w.Schedule sourceStat sourcePath with
  | some err => .error (.Wrap "failed to schedule a file" sourcePath err)
  | none => .nil

/-- The error a remove call runs into, if the world makes it fail. -/
def Event.removeFailure (w : World) : Event → Option Err
  | .removeFile path _ => w.RemoveFileErr path
  | .removeDir path _ _ => w.RemoveDirErr path
  | _ => none

/-- A run that made the calls `evs` and returned `r` is fail-fast: a remove
call that fails is followed by the `AddFile` of a `Delete` record with its
error and by nothing else, and its error is what the run returns. -/
def FailFast (w : World) (evs : List Event) (r : Return) : Prop :=
  ∀ pre ev post err, evs = pre ++ ev :: post → ev.removeFailure w = some err →
    r = .error err ∧
    ∃ rec, post = [.addFile rec] ∧ rec.Method = .TransferMethodDelete ∧
      rec.Error = some err ∧ ev.removeTarget = some rec.SourcePath

/-- Modelled from the spec: `commons.MarkPathMap`, which is not among the
sources.  The spec says of every visited destination path that it "is inserted
into TouchedPathSet"; so a world follows the spec when marking a path gives a
key set that holds this path and every key that was there before. -/
def MarkPathMapInserts (w : World) : Prop :=
  ∀ m p, p ∈ w.MarkPathMap m p ∧ ∀ q ∈ m, q ∈ w.MarkPathMap m p

/-- Command `b` is a later state of command `a` in a walk: the trace of `a` is
a prefix of the trace of `b`, and, when `MarkPathMap` inserts, every touched
path of `a` is a touched path of `b`. -/
structure Grows (w : World) (a b : BputCommand) : Prop where
  trace : a.trace <+: b.trace
  marks : MarkPathMapInserts w → ∀ q ∈ a.updatedPathMap, q ∈ b.updatedPathMap

/-- The command after the first three calls of `putFile` and `putDir`:
`GetTargetPath`, `MarkPathMap` and `Stat`. -/
def afterStat (w : World) (bput : BputCommand) (sourcePath targetPath : Path) : BputCommand :=
  (MarkPathMap w (bput.log (.getTargetPath sourcePath)) targetPath).log (.stat targetPath)

/-- The command after `putDir` has created the collection that was missing at
its destination and reported it (lines 588-603), starting from the command
after `Stat`. -/
def putDirCreated (w : World) (bput : BputCommand) (sourcePath targetPath : Path) :
    BputCommand :=
  AddFile (FileSystem.MakeDir w (afterStat w bput sourcePath targetPath) targetPath true).2
    { Method := .TransferMethodPut, SourcePath := sourcePath,
      DestPath := targetPath, Notes := ["directory"] }

/-- The command after `putDir` has removed the data object in the way of its
collection and reported the removal (lines 613-625 and 634-646), starting from
the command after `Stat`: with force the removal comes at once, without it the
prompt comes first. -/
def putDirRemoved (w : World) (bput : BputCommand) (sourcePath targetPath : Path) :
    BputCommand :=
  let asked :=
    if bput.Force then afterStat w bput sourcePath targetPath
    else (InputYN w (afterStat w bput sourcePath targetPath)
      "overwriting a directory, but file exists. Overwrite?" targetPath).2
  AddFile (FileSystem.RemoveFile w asked targetPath true).2
    { Method := .TransferMethodDelete, SourcePath := targetPath,
      Error := w.RemoveFileErr targetPath, Notes := ["overwrite", "put"] }

/-- Is the event a call that only the phases after `Wait` make: `List` on a
collection (`deleteExtraInternal`), `os.Remove` or `os.RemoveAll`
(`deleteOnSuccess`)? -/
def Event.reconciles : Event → Bool
  | .list _ => true
  | .osRemove _ => true
  | .osRemoveAll _ => true
  | _ => false

/-- Command `b` is command `a` after calls none of which lists a collection or
removes a local source. -/
def WalkOnly (a b : BputCommand) : Prop :=
  b.trace = a.trace ++ newCalls a b ∧ ∀ ev ∈ newCalls a b, ev.reconciles = false

/-- Lines 214-219 of `Process` on the command `s0` that the setup left: the
walk over the sources. -/
def walkPhase (w : World) (fuel : Nat) (s0 : BputCommand) : Return × BputCommand :=
  bputSources w fuel s0.targetPath s0 s0.sourcePaths

/-- Lines 227-237 of `Process` after a walk that returned nil and a `Wait`
that was called on its command: the deletion of the local sources. -/
def deletePhase (w : World) (fuel : Nat) (s0 : BputCommand) : Option Err × BputCommand :=
  deleteOnSuccessPhase w s0 (afterWait w (walkPhase w fuel s0).2)

/-- The hashing rule of `putFile` for a run that made the calls `evs` and
returned `r`, with `targetEntry` the entry `Stat` returned and `diff`, `noHash`
the differential-transfer and no-hash flags: a `HashLocalFile` call is made
only with differential transfer on, no-hash off, equal sizes and a non-empty
destination checksum, and it is on the source with the destination's
algorithm; if it fails, the run returns that error, wrapped, and has not
called `Schedule`. -/
def HashRule (w : World) (diff noHash : Bool) (sourceStat : FileInfo) (sourcePath : Path)
    (targetEntry : Entry) (evs : List Event) (r : Return) : Prop :=
  (∀ ev ∈ evs, ev.isHash = true →
    diff = true ∧ noHash = false ∧ targetEntry.Size = sourceStat.Size ∧
    0 < targetEntry.CheckSum.length ∧
    ev = .hashLocalFile sourcePath targetEntry.CheckSumAlgorithm) ∧
  (∀ err, w.HashLocalFile sourcePath targetEntry.CheckSumAlgorithm = .error err →
    (∃ ev ∈ evs, ev.isHash = true) →
    r = .error (.Wrap "failed to get hash" sourcePath err) ∧
    ∀ ev ∈ evs, ev.isSchedule = false)

/-! ## Example runs -/

/-- A collection row. -/
def collection (path : Path) : Entry :=
  { IsDir := true, Path := path, Size := 0, CheckSumAlgorithm := "", CheckSum := [] }

/-- A data-object row. -/
def dataObject (path : Path) (size : Int) (algorithm : String) (checksum : List Nat) : Entry :=
  { IsDir := false, Path := path, Size := size, CheckSumAlgorithm := algorithm,
    CheckSum := checksum }

/-- A world in which no backend call fails, every prompt is answered "no",
the target of local `p` is `/t/p`, and a staging path is safe from depth 3.
The local tree is a file `f` and a directory `d` with the files `B`, `C` and
`E`, listed in this order. -/
def quietWorld : World where
  MakeIRODSPath := fun s =>
    if s = "/t" then ["t"]
    else if s = "/zone" then ["zone"]
    else if s = "/zone/home/u/data" then ["zone", "home", "u", "data"]
    else if s = "/zone/home/u/stage" then ["zone", "home", "u", "stage"]
    else if s = "/zone/home/u/fresh" then ["zone", "home", "u", "fresh"]
    else [s]
  GetDefaultStagingDir := fun p => p ++ [".gocmd_staging"]
  IsSafeStagingDir := fun p =>
    if p.length < 3 then some (.Errorf "staging path is not safe" p) else none
  IsSameResourceServer := fun _ _ => .ok false
  MarkPathMap := fun m p => p :: m
  GetTargetPath := fun p => .ok ("t" :: p)
  Schedule := fun _ _ => none
  HashLocalFile := fun p _ => if p = ["B"] then .ok [1, 2, 3] else .ok [9]
  InputYN := fun _ => false
  StatErr := fun _ => none
  ListErr := fun _ => none
  MakeDirErr := fun _ => none
  RemoveDirErr := fun _ => none
  RemoveFileErr := fun _ => none
  MakeLocalPath := fun s => [s]
  OsPath := fun s => [s]
  OsStat := fun p =>
    if p = ["d"] then .ok { Name := "d", Size := 0, IsDir := true }
    else if p = ["d", "B"] then .ok { Name := "B", Size := 2, IsDir := false }
    else if p = ["d", "C"] then .ok { Name := "C", Size := 4, IsDir := false }
    else if p = ["d", "E"] then .ok { Name := "E", Size := 6, IsDir := false }
    else if p = ["f"] then .ok { Name := "f", Size := 1, IsDir := false }
    else .error (.NotExist p)
  ReadDir := fun p => if p = ["d"] then .ok ["B", "C", "E"] else .error (.Remote 20)
  OsRemove := fun _ => none
  OsRemoveAll := fun _ => none
  ProcessCommonFlags := .ok true
  InputMissingFields := none
  RunWithRetry := none
  GetIRODSFSClientAdvanced := none
  NewTransferReportManager := none
  CleanUpOldIRODSBundles := fun _ => none
  GetCommonRootLocalDirPath := fun _ => .ok []
  Wait := none
  Uploaded := fun fs => fs

/-- A command with every flag off, target `/t`, and a remote tree
`/t/{A/{x}, B, C/{y}}` of which `/t`, `/t/A` and `/t/A/x` are touched. -/
def plainCommand : BputCommand where
  Force := false
  DifferentialTransfer := false
  NoHash := false
  Sync := false
  Delete := true
  IRODSTempPath := ""
  targetPath := "/t"
  filesystem :=
    [collection ["t"], collection ["t", "A"], dataObject ["t", "A", "x"] 1 "" [],
      dataObject ["t", "B"] 2 "SHA-256" [1, 2, 3], collection ["t", "C"],
      dataObject ["t", "C", "y"] 3 "" []]
  updatedPathMap := [["t"], ["t", "A"], ["t", "A", "x"]]
  asked := 0
  trace := []
  ClearOld := false
  RetryNumber := 0
  RetryChild := false
  DeleteOnSuccess := false
  sourcePaths := ["d"]

/-- A command whose user staging path `/zone/home/u/stage` is an existing
collection; the remote tree is `/zone/home/u/{data, stage}`. -/
def stagingCommand : BputCommand where
  Force := false
  DifferentialTransfer := false
  NoHash := false
  Sync := false
  Delete := false
  IRODSTempPath := "/zone/home/u/stage"
  targetPath := "/zone"
  filesystem :=
    [collection ["zone"], collection ["zone", "home"], collection ["zone", "home", "u"],
      collection ["zone", "home", "u", "data"], collection ["zone", "home", "u", "stage"]]
  updatedPathMap := []
  asked := 0
  trace := []
  ClearOld := false
  RetryNumber := 0
  RetryChild := false
  DeleteOnSuccess := false
  sourcePaths := []

/-- The local file `B`, two bytes long. -/
def sourceB : FileInfo := { Name := "B", Size := 2, IsDir := false }

/-- The local file `B` after it grew to five bytes. -/
def sourceBGrown : FileInfo := { Name := "B", Size := 5, IsDir := false }

/-- The local file `A/x`, one byte long. -/
def sourceX : FileInfo := { Name := "x", Size := 1, IsDir := false }

/-- A local file `new` with no remote counterpart. -/
def sourceNew : FileInfo := { Name := "new", Size := 7, IsDir := false }

/-- The local file `C`, empty; its destination `/t/C` is a collection. -/
def sourceEmptyC : FileInfo := { Name := "C", Size := 0, IsDir := false }

/-- The local file `C`, four bytes long; its destination `/t/C` is a
collection. -/
def sourceC : FileInfo := { Name := "C", Size := 4, IsDir := false }

/-- The local directory `d`. -/
def sourceD : FileInfo := { Name := "d", Size := 0, IsDir := true }

/-- The plain command with a remote tree in which `/t/d` is a collection that
holds the data object `/t/d/B` and the collection `/t/d/C`. -/
def walkCommand : BputCommand :=
  { plainCommand with
    filesystem := plainCommand.filesystem ++
      [collection ["t", "d"], dataObject ["t", "d", "B"] 2 "SHA-256" [1, 2, 3],
        collection ["t", "d", "C"]] }

/-- The plain command with sync and force set and a remote tree in which
`/t/d` is a data object. -/
def clashCommand : BputCommand :=
  { plainCommand with
    Sync := true
    Force := true
    filesystem := plainCommand.filesystem ++ [dataObject ["t", "d"] 9 "" []] }

/-- The quiet world with every staging path safe and a bundle transfer whose
`Wait` fails. -/
def stallWorld : World :=
  { quietWorld with
    IsSafeStagingDir := fun _ => none
    Wait := some (.Remote 5) }

/-- The staging command on a remote tree in which the user staging path
`/zone/home/u/stage` is a data object. -/
def fileStagingCommand : BputCommand :=
  { stagingCommand with
    filesystem :=
      [collection ["zone"], collection ["zone", "home"], collection ["zone", "home", "u"],
        collection ["zone", "home", "u", "data"],
        dataObject ["zone", "home", "u", "stage"] 5 "" []] }

/-- The staging command without a user staging path. -/
def defaultStagingCommand : BputCommand :=
  { stagingCommand with IRODSTempPath := "" }

/-- The quiet world with a hashing helper that fails on every file. -/
def hashFailWorld : World :=
  { quietWorld with HashLocalFile := fun _ _ => .error (.Remote 7) }

/-- The plain command with differential transfer on (hashing enabled). -/
def diffCommand : BputCommand :=
  { plainCommand with DifferentialTransfer := true }

/-! ## `commons/encrypt.go`: the `EncryptionManager` -/

/-- A Go `byte`. -/
abbrev Byte := Fin 256

/-- Go conversion `byte(n)`. -/
def toByte (n : Nat) : Byte := ⟨n % 256, Nat.mod_lt n (by decide)⟩

/-- What a function of `encrypt.go` can do: return `(value, err)`, where `none`
is a nil error, or stop in a run-time panic (a slice bound out of range, or a
panic raised by `crypto/cipher`). -/
inductive Outcome (α : Type) where
  | ret (value : α) (err : Option Err)
  | panic
  deriving DecidableEq, Repr

/-- What `encrypt.go` takes from outside the file: two constants of package
`commons` that are declared elsewhere, and the libraries `base62`,
`crypto/aes` with `crypto/cipher`, `openpgp`, `os` and `io`.  A Go `string` and
a `[]byte` are both lists of bytes. -/
structure Library where
  /-- Go constant `aesPadding` -/
  aesPadding : List Byte
  /-- Go constant `aesIV` -/
  aesIV : List Byte
  /-- Go `base62.EncodeToString` -/
  EncodeToString : List Byte → List Byte
  /-- Go `base62.DecodeString`: the bytes and the error it returns -/
  DecodeString : List Byte → List Byte × Option Err
  /-- the bytes that `CryptBlocks` of
  `cipher.NewCBCEncrypter(aes.NewCipher(key), iv)` writes for `src` -/
  cbcEncrypt : (key iv src : List Byte) → List Byte
  /-- the bytes that `CryptBlocks` of
  `cipher.NewCBCDecrypter(aes.NewCipher(key), iv)` writes for `src` -/
  cbcDecrypt : (key iv src : List Byte) → List Byte
  /-- Go `os.Open(path)` failing although the file exists -/
  OpenErr : String → Option Err
  /-- Go `os.OpenFile(path, O_WRONLY|O_CREATE|O_TRUNC, 0666)` failing -/
  CreateErr : String → Option Err
  /-- Go `openpgp.SymmetricallyEncrypt` failing to set up its writer -/
  SymmetricallyEncryptErr : (passphrase : List Byte) → Option Err
  /-- the whole message that the writer of `openpgp.SymmetricallyEncrypt` has
  written once `plaintext` was copied into it and it was closed -/
  SymmetricallyEncrypt : (passphrase plaintext : List Byte) → List Byte
  /-- Go `io.Copy` into the encrypting writer failing -/
  EncryptCopyErr : (plaintext : List Byte) → Option Err
  /-- what is on disk of a message whose writing stopped on an error -/
  tornMessage : (passphrase plaintext : List Byte) → List Byte
  /-- Go `openpgp.ReadMessage(src, nil, prompt, config)`; `prompt n` is what the
  prompt function answers at its call number `n`.  On success: the bytes that
  `io.Copy` reads from `UnverifiedBody`, and the error that ends the copy. -/
  ReadMessage : (src : List Byte) → (prompt : Nat → Except Err (List Byte)) →
    Except Err (List Byte × Option Err)

/-- Go `EncryptionMode` -/
inductive EncryptionMode where
  | EncryptionModeWinSCP
  | EncryptionModePGP
  | EncryptionModeUnknown
  deriving DecidableEq, Repr

/-- Go `EncryptionManager` -/
structure EncryptionManager where
  mode : EncryptionMode
  encryptFilename : Bool
  password : List Byte
  deriving DecidableEq, Repr

/-- Go `NewEncryptionManager` -/
def NewEncryptionManager (mode : EncryptionMode) (encryptFilename : Bool)
    (password : List Byte) : EncryptionManager :=
  { mode := mode, encryptFilename := encryptFilename, password := password }

/-- Go constant `PgpEncryptedFileExt`, the bytes of `".pgp.enc"`. -/
def PgpEncryptedFileExt : List Byte := [46, 112, 103, 112, 46, 101, 110, 99]

/-- Go `strings.TrimSuffix` -/
def TrimSuffix (s suffix : List Byte) : List Byte :=
  if suffix.isSuffixOf s then s.take (s.length - suffix.length) else s

/-- Go `binary.LittleEndian.PutUint32(dest, v)`: the four bytes written. -/
def PutUint32 (v : Nat) : List Byte :=
  [toByte v, toByte (v / 256), toByte (v / 65536), toByte (v / 16777216)]

/-- Go `binary.LittleEndian.Uint32(b)` on a slice of four bytes. -/
def Uint32 (b : List Byte) : Nat :=
  (b.getD 0 0).val + 256 * (b.getD 1 0).val + 65536 * (b.getD 2 0).val
    + 16777216 * (b.getD 3 0).val

/-- Go `aes.NewCipher(key)`: it fails unless the key has 16, 24 or 32 bytes. -/
def aesNewCipher (key : List Byte) : Option Err :=
  if key.length = 16 ∨ key.length = 24 ∨ key.length = 32 then none
  else some (.Errorf "crypto/aes: invalid key size" [])

/-- Go `EncryptionManager.padAesKey`; `none` is the panic of `paddedKey[:16]`
on a string shorter than 16 bytes. -/
def EncryptionManager.padAesKey (lib : Library) (key : List Byte) : Option (List Byte) :=
  -- AES key must be 16bytes len
  let paddedKey := key ++ lib.aesPadding
  if paddedKey.length < 16 then none else some (paddedKey.take 16)

/-- Go `EncryptionManager.padPkcs7` -/
def EncryptionManager.padPkcs7 (data : List Byte) (blocksize : Nat) : List Byte :=
  let n := blocksize - (data.length % blocksize)
  data ++ List.replicate n (toByte n)

/-- Go `EncryptionManager.encryptAES`.  `cipher.NewCBCEncrypter` panics when
the IV has not the block size of 16 bytes; `uint32(len(data))` keeps the low
32 bits of the length. -/
def EncryptionManager.encryptAES (lib : Library) (manager : EncryptionManager)
    (data : List Byte) : Outcome (List Byte) :=
  match EncryptionManager.padAesKey lib manager.password with
  | none => .panic
  | some key =>
    match aesNewCipher key with
    | some err => .ret [] (some (.Wrap "failed to create AES cipher" [] err))
    | none =>
      if lib.aesIV.length ≠ 16 then .panic
      else
        let contentLength := data.length % 4294967296
        let padData := EncryptionManager.padPkcs7 data 16
        -- add size header
        .ret (PutUint32 contentLength ++ lib.cbcEncrypt key lib.aesIV padData) none

/-- Go `EncryptionManager.decryptAES`.  The panics are those of Go: `data[4:]`
on fewer than four bytes, `CryptBlocks` on an input that is not a whole number
of blocks, and `dest[:contentLength]` beyond the `len(data) - 4` bytes of
`dest`. -/
def EncryptionManager.decryptAES (lib : Library) (manager : EncryptionManager)
    (data : List Byte) : Outcome (List Byte) :=
  match EncryptionManager.padAesKey lib manager.password with
  | none => .panic
  | some key =>
    match aesNewCipher key with
    | some err => .ret [] (some (.Wrap "failed to create AES cipher" [] err))
    | none =>
      if lib.aesIV.length ≠ 16 then .panic
      else if data.length < 4 then .panic
      else
        let contentLength := Uint32 (data.take 4)
        let src := data.drop 4
        if src.length % 16 ≠ 0 then .panic
        else
          let dest := lib.cbcDecrypt key lib.aesIV src
          if contentLength > src.length then .panic
          else .ret (dest.take contentLength) none

/-- Go `EncryptionManager.encryptFilenameWinSCP` -/
def EncryptionManager.encryptFilenameWinSCP (filename : List Byte) : Outcome (List Byte) :=
  .ret filename none

/-- Go `EncryptionManager.decryptFilenameWinSCP` -/
def EncryptionManager.decryptFilenameWinSCP (filename : List Byte) : Outcome (List Byte) :=
  .ret filename none

/-- Go `EncryptionManager.encryptFilenamePGP`.  Line 131 builds an error value
and drops it: the function goes on with the bytes `encryptAES` returned. -/
def EncryptionManager.encryptFilenamePGP (lib : Library) (manager : EncryptionManager)
    (filename : List Byte) : Outcome (List Byte) :=
  if !manager.encryptFilename then .ret filename none
  else
    match EncryptionManager.encryptAES lib manager filename with
    | .panic => .panic
    | .ret encryptedFilename _ =>
      let b64EncodedFilename := lib.EncodeToString encryptedFilename
      let newFilename := b64EncodedFilename ++ PgpEncryptedFileExt
      .ret newFilename none

/-- Go `EncryptionManager.decryptFilenamePGP`.  Lines 150 and 155 build error
values and drop them: the function goes on with the bytes `DecodeString` and
`decryptAES` returned. -/
def EncryptionManager.decryptFilenamePGP (lib : Library) (manager : EncryptionManager)
    (filename : List Byte) : Outcome (List Byte) :=
  if !manager.encryptFilename then .ret filename none
  else
    -- trim file ext
    let filename := TrimSuffix filename PgpEncryptedFileExt
    match lib.DecodeString filename with
    | (encryptedFilename, _) =>
      match EncryptionManager.decryptAES lib manager encryptedFilename with
      | .panic => .panic
      | .ret decryptedFilename _ => .ret decryptedFilename none

/-- Go `EncryptionManager.EncryptFilename` -/
def EncryptionManager.EncryptFilename (lib : Library) (manager : EncryptionManager)
    (filename : List Byte) : Outcome (List Byte) :=
  match manager.mode with
  | .EncryptionModeWinSCP => EncryptionManager.encryptFilenameWinSCP filename
  | .EncryptionModePGP => EncryptionManager.encryptFilenamePGP lib manager filename
  | _ => EncryptionManager.encryptFilenameWinSCP filename

/-- Go `EncryptionManager.DecryptFilename` -/
def EncryptionManager.DecryptFilename (lib : Library) (manager : EncryptionManager)
    (filename : List Byte) : Outcome (List Byte) :=
  match manager.mode with
  | .EncryptionModeWinSCP => EncryptionManager.decryptFilenameWinSCP filename
  | .EncryptionModePGP => EncryptionManager.decryptFilenamePGP lib manager filename
  | _ => EncryptionManager.decryptFilenameWinSCP filename

/-- Go `testEncryptFilenameWithPassword`, lines 83-91: encrypt the name, stop
on an error, and decrypt what came out. -/
def filenameRoundTrip (lib : Library) (manager : EncryptionManager) (filename : List Byte) :
    Outcome (List Byte) :=
  match EncryptionManager.EncryptFilename lib manager filename with
  | .panic => .panic
  | .ret _ (some err) => .ret [] (some err)
  | .ret encFilename none => EncryptionManager.DecryptFilename lib manager encFilename

/-- The local disk: the files by path, with their bytes. -/
abbrev Disk := List (String × List Byte)

/-- The bytes of the file at `path`, if there is one. -/
def Disk.read (disk : Disk) (path : String) : Option (List Byte) :=
  disk.lookup path

/-- The disk with `content` as the file at `path`. -/
def Disk.write (disk : Disk) (path : String) (content : List Byte) : Disk :=
  (path, content) :: disk.filter (fun f => !(f.1 == path))

/-- Go `os.Open(path)`: it fails when the library says so or when there is
no such file. -/
def osOpen (lib : Library) (disk : Disk) (path : String) : Option Err :=
  match lib.OpenErr path with
  | some err => some err
  | none => if (Disk.read disk path).isNone then some (.NotExist [path]) else none

/-- Go `EncryptionManager.encryptFileWinSCP` -/
def EncryptionManager.encryptFileWinSCP (disk : Disk) : Option Err × Disk :=
  (none, disk)

/-- Go `EncryptionManager.decryptFileWinSCP` -/
def EncryptionManager.decryptFileWinSCP (disk : Disk) : Option Err × Disk :=
  (none, disk)

/-- Go `EncryptionManager.encryptFilePGP`.  `os.OpenFile` with `O_TRUNC`
empties the target before anything is read from the source; the deferred
`writeHandle.Close()` runs before the target is closed, so on a nil return the
target holds the whole message. -/
def EncryptionManager.encryptFilePGP (lib : Library) (manager : EncryptionManager)
    (disk : Disk) (source target : String) : Option Err × Disk :=
  match osOpen lib disk source with
  | some err => (some (.Wrap "failed to open file" [source] err), disk)
  | none =>
    match lib.CreateErr target with
    | some err => (some (.Wrap "failed to create file" [target] err), disk)
    | none =>
      let disk := Disk.write disk target []
      match lib.SymmetricallyEncryptErr manager.password with
      | some err => (some (.Wrap "failed to create a encrypt writer for" [target] err), disk)
      | none =>
        let plaintext := (Disk.read disk source).getD []
        match lib.EncryptCopyErr plaintext with
        | some err =>
          (some (.Wrap "failed to encrypt data" [] err),
            Disk.write disk target (lib.tornMessage manager.password plaintext))
        | none =>
          (none, Disk.write disk target (lib.SymmetricallyEncrypt manager.password plaintext))

/-- Go `EncryptionManager.decryptFilePGP`.  The prompt function answers with
the password at its first call and with an error from then on. -/
def EncryptionManager.decryptFilePGP (lib : Library) (manager : EncryptionManager)
    (disk : Disk) (source target : String) : Option Err × Disk :=
  match osOpen lib disk source with
  | some err => (some (.Wrap "failed to open file" [source] err), disk)
  | none =>
    match lib.CreateErr target with
    | some err => (some (.Wrap "failed to create file" [target] err), disk)
    | none =>
      let disk := Disk.write disk target []
      let prompt : Nat → Except Err (List Byte) := fun n =>
        if n = 0 then .ok manager.password else .error (.Errorf "decryption failed" [])
      match lib.ReadMessage ((Disk.read disk source).getD []) prompt with
      | .error err => (some (.Wrap "failed to decrypt for" [source] err), disk)
      | .ok (body, copyErr) =>
        let disk := Disk.write disk target body
        match copyErr with
        | some err => (some (.Wrap "failed to decrypt data" [] err), disk)
        | none => (none, disk)

/-- Go `EncryptionManager.EncryptFile`.  Its result is an `error` only; the Go
doc comment speaks of a returned file path, which the function does not
have. -/
def EncryptionManager.EncryptFile (lib : Library) (manager : EncryptionManager)
    (disk : Disk) (source target : String) : Option Err × Disk :=
  match manager.mode with
  | .EncryptionModeWinSCP => EncryptionManager.encryptFileWinSCP disk
  | .EncryptionModePGP => EncryptionManager.encryptFilePGP lib manager disk source target
  | _ => EncryptionManager.encryptFileWinSCP disk

/-- Go `EncryptionManager.DecryptFile`.  Its result is an `error` only; the Go
doc comment speaks of a returned file path, which the function does not
have. -/
def EncryptionManager.DecryptFile (lib : Library) (manager : EncryptionManager)
    (disk : Disk) (source target : String) : Option Err × Disk :=
  match manager.mode with
  | .EncryptionModeWinSCP => EncryptionManager.decryptFileWinSCP disk
  | .EncryptionModePGP => EncryptionManager.decryptFilePGP lib manager disk source target
  | _ => EncryptionManager.decryptFileWinSCP disk

/-- The contract of the libraries that the round trips rest on: `base62`
decodes what it encoded, a CBC encrypter writes as many bytes as it reads, a
CBC decrypter with the same 16-byte key and IV gives back whole blocks, and
`openpgp.ReadMessage` gives back, without an error, the plaintext of a message
of `openpgp.SymmetricallyEncrypt` when the first answer of the prompt is its
passphrase. -/
structure Library.Lawful (lib : Library) : Prop where
  base62 : ∀ b, lib.DecodeString (lib.EncodeToString b) = (b, none)
  cbcLength : ∀ key iv src, (lib.cbcEncrypt key iv src).length = src.length
  cbc : ∀ key iv src, key.length = 16 → iv.length = 16 → src.length % 16 = 0 →
    lib.cbcDecrypt key iv (lib.cbcEncrypt key iv src) = src
  pgp : ∀ passphrase plaintext prompt, prompt 0 = .ok passphrase →
    lib.ReadMessage (lib.SymmetricallyEncrypt passphrase plaintext) prompt =
      .ok (plaintext, none)

/-- The file system that the file round trip needs: `source` can be opened,
`enc` and `dec` can be created, `enc` can be opened once it exists, and the
encrypting writer is set up and fed without an error. -/
structure Library.Works (lib : Library) (manager : EncryptionManager)
    (source enc dec : String) (content : List Byte) : Prop where
  openSource : lib.OpenErr source = none
  createEnc : lib.CreateErr enc = none
  openEnc : lib.OpenErr enc = none
  createDec : lib.CreateErr dec = none
  writer : lib.SymmetricallyEncryptErr manager.password = none
  copy : lib.EncryptCopyErr content = none

/-! ### Example runs of the `EncryptionManager` -/

/-- For the example runs, in place of `base62.EncodeToString`: two symbols
from `'0'` to `'?'` per byte. -/
def pairEncode : List Byte → List Byte
  | [] => []
  | b :: rest => toByte (48 + b.val / 16) :: toByte (48 + b.val % 16) :: pairEncode rest

/-- For the example runs, in place of `base62.DecodeString`: the inverse of
`pairEncode`, with an error and no bytes on any other input. -/
def pairDecode : List Byte → List Byte × Option Err
  | [] => ([], none)
  | [_] => ([], some (.Errorf "base62: corrupt input" []))
  | hi :: lo :: rest =>
    if 48 ≤ hi.val ∧ hi.val < 64 ∧ 48 ≤ lo.val ∧ lo.val < 64 then
      match pairDecode rest with
      | (bytes, none) => (toByte ((hi.val - 48) * 16 + (lo.val - 48)) :: bytes, none)
      | (_, some err) => ([], some err)
    else ([], some (.Errorf "base62: corrupt input" []))

/-- A library for the example runs: 16-byte constants, `pairEncode` in place
of base62, a rotation of every byte in place of AES-CBC and of the PGP message
format, and a file system that never fails.  It satisfies `Library.Lawful`. -/
def exampleLibrary : Library where
  aesPadding := List.replicate 16 55
  aesIV := List.replicate 16 52
  EncodeToString := pairEncode
  DecodeString := pairDecode
  cbcEncrypt := fun _ _ src => src.map (fun b => toByte (b.val + 1))
  cbcDecrypt := fun _ _ src => src.map (fun b => toByte (b.val + 255))
  OpenErr := fun _ => none
  CreateErr := fun _ => none
  SymmetricallyEncryptErr := fun _ => none
  SymmetricallyEncrypt := fun _ plaintext => plaintext.map (fun b => toByte (b.val + 1))
  EncryptCopyErr := fun _ => none
  tornMessage := fun _ _ => []
  ReadMessage := fun src prompt =>
    match prompt 0 with
    | .ok _ => .ok (src.map (fun b => toByte (b.val + 255)), none)
    | .error err => .error err

/-- A PGP-mode manager with filename encryption on and the password `pw`. -/
def exampleManager : EncryptionManager :=
  NewEncryptionManager .EncryptionModePGP true [112, 119]

/-- The PGP-mode manager of the tests: filename encryption off. -/
def plainNameManager : EncryptionManager :=
  NewEncryptionManager .EncryptionModePGP false [112, 119]

/-- A disk with the one file `f.bin`. -/
def exampleDisk : Disk := [("f.bin", [1, 2, 3, 255])]

/-! ## Theorems -/

/-! ### `deleteExtra`: paths and catalog rows -/

theorem child_below {p a q : Path} {n : String} (hpa : p <+: a) (haq : a <+: q)
    (hcq : p ++ [n] <+: q) (hne : a ≠ p) : p ++ [n] <+: a := by
  apply List.prefix_of_prefix_length_le hcq haq
  obtain ⟨t, rfl⟩ := hpa
  cases t with
  | nil => simp at hne
  | cons x t => simp

theorem sibling_eq {p q : Path} {n m : String} (h1 : p ++ [n] <+: q) (h2 : p ++ [m] <+: q) :
    n = m := by
  have h := (List.prefix_of_prefix_length_le h1 h2 (by simp)).eq_of_length (by simp)
  simpa using h

theorem fsStat_some {fs : List Entry} {p : Path} {e : Entry} (h : fsStat fs p = some e) :
    e ∈ fs ∧ e.Path = p := by
  unfold fsStat at h
  exact ⟨List.mem_of_find?_eq_some h, by simpa using List.find?_some h⟩

theorem statResult_ok {w : World} {fs : List Entry} {p : Path} {e : Entry}
    (h : statResult w fs p = .ok e) : e ∈ fs ∧ e.Path = p := by
  unfold statResult at h
  cases hE : w.StatErr p with
  | some err => simp [hE] at h
  | none =>
    cases hF : fsStat fs p with
    | none => simp [hE, hF] at h
    | some e' =>
      simp [hE, hF] at h
      subst h
      exact fsStat_some hF

theorem row_unique {fs : List Entry} (hnd : (fs.map Entry.Path).Nodup) {e e' : Entry}
    (he : e ∈ fs) (he' : e' ∈ fs) (h : e.Path = e'.Path) : e = e' :=
  List.inj_on_of_nodup_map hnd he he' h

theorem filter_paths_nodup {fs : List Entry} (hnd : (fs.map Entry.Path).Nodup)
    (f : Entry → Bool) : ((fs.filter f).map Entry.Path).Nodup :=
  List.Nodup.sublist ((List.filter_sublist fs).map Entry.Path) hnd

theorem name_of_path {e : Entry} {p : Path} {n : String} (h : e.Path = p ++ [n]) :
    e.Name = n := by
  simp [Entry.Name, h]

theorem mem_fsList {fs : List Entry} {p : Path} {e : Entry} :
    e ∈ fsList fs p ↔ e ∈ fs ∧ e.Path = p ++ [e.Name] := by
  simp [fsList]

/-- The paths the loop of `deleteExtraInternal` visits are the paths of the
listed rows. -/
theorem fsList_paths (fs : List Entry) (p : Path) :
    (fsList fs p).map (fun entry => p ++ [entry.Name]) = (fsList fs p).map Entry.Path := by
  apply List.map_congr_left
  intro e he
  exact ((mem_fsList.mp he).2).symm

theorem fsList_paths_nodup {fs : List Entry} (hnd : (fs.map Entry.Path).Nodup) (p : Path) :
    ((fsList fs p).map (fun entry => p ++ [entry.Name])).Nodup := by
  rw [fsList_paths]
  exact filter_paths_nodup hnd _

theorem mem_removeCalls {evs : List Event} {q : Path} :
    q ∈ removeCalls evs ↔ ∃ ev ∈ evs, ev.removeTarget = some q := by
  simp [removeCalls, List.mem_filterMap]

theorem removes_target {ev : Event} {e : Entry} (h : ev.removes e = true) :
    ∃ q, ev.removeTarget = some q ∧ q <+: e.Path := by
  cases ev <;> simp [Event.removes, Event.removeTarget] at h ⊢
  · exact h
  · exact h ▸ List.prefix_refl _

theorem fitsCatalog_mono {fs fs' : List Entry} (hsub : ∀ e ∈ fs', e ∈ fs) {ev : Event}
    (h : ev.fitsCatalog fs') : ev.fitsCatalog fs := by
  cases ev <;> simp only [Event.fitsCatalog] at h ⊢
  · obtain ⟨h1, h2, e, he, h3⟩ := h
    exact ⟨h1, h2, e, hsub e he, h3⟩
  · obtain ⟨h1, e, he, h3⟩ := h
    exact ⟨h1, e, hsub e he, h3⟩

theorem firstExtra_frame {fs fs' : List Entry} {touched : List Path} {c q : Path}
    (hsub : ∀ e, c <+: e.Path → (e ∈ fs' ↔ e ∈ fs)) :
    FirstExtra fs' touched c q ↔ FirstExtra fs touched c q := by
  unfold FirstExtra
  constructor
  · rintro ⟨h1, h2, ⟨e, he, hq⟩, h4⟩
    refine ⟨h1, h2, ⟨e, (hsub e (hq ▸ h1)).mp he, hq⟩, fun a ha haq hne => ?_⟩
    obtain ⟨hT, e', he', hp, hd⟩ := h4 a ha haq hne
    exact ⟨hT, e', (hsub e' (hp ▸ ha)).mp he', hp, hd⟩
  · rintro ⟨h1, h2, ⟨e, he, hq⟩, h4⟩
    refine ⟨h1, h2, ⟨e, (hsub e (hq ▸ h1)).mpr he, hq⟩, fun a ha haq hne => ?_⟩
    obtain ⟨hT, e', he', hp, hd⟩ := h4 a ha haq hne
    exact ⟨hT, e', (hsub e' (hp ▸ ha)).mpr he', hp, hd⟩

/-- A pass below `c` leaves the rows below a sibling of `c` alone. -/
theorem Pass.sibling_rows {s s1 : BputCommand} {evs : List Event} {p : Path} {n m : String}
    (h1 : Pass s [p ++ [n]] evs s1) (hnm : m ≠ n) (e : Entry) (he : p ++ [m] <+: e.Path) :
    e ∈ s1.filesystem ↔ e ∈ s.filesystem := by
  rw [h1.catalog, List.mem_filter]
  constructor
  · exact fun h => h.1
  · intro hmem
    refine ⟨hmem, ?_⟩
    simp only [Bool.not_eq_true', List.any_eq_false]
    intro ev hev hrem
    obtain ⟨q, hq, hqe⟩ := removes_target hrem
    obtain ⟨c, hc, hfe⟩ := (h1.calls q).mp (mem_removeCalls.mpr ⟨ev, hev, hq⟩)
    simp only [List.mem_singleton] at hc
    subst hc
    exact hnm (sibling_eq he (hfe.1.trans hqe))

/-- Two passes in a row, the first below `p ++ [n]`, the second below other
children of `p`, make one pass. -/
theorem Pass.chain {s s1 s' : BputCommand} {evs1 evs2 : List Event} {p : Path} {n : String}
    {rest : List Path}
    (h1 : Pass s [p ++ [n]] evs1 s1) (h2 : Pass s1 rest evs2 s')
    (hrest : ∀ c ∈ rest, ∃ m, c = p ++ [m] ∧ m ≠ n) :
    Pass s ((p ++ [n]) :: rest) (evs1 ++ evs2) s' := by
  have hframe : ∀ c ∈ rest, ∀ q,
      FirstExtra s1.filesystem s1.updatedPathMap c q ↔
        FirstExtra s.filesystem s.updatedPathMap c q := by
    intro c hc q
    obtain ⟨m, rfl, hm⟩ := hrest c hc
    rw [h1.touched]
    exact firstExtra_frame (fun e he => h1.sibling_rows hm e he)
  refine ⟨?_, ?_, ?_, ?_, ?_, ?_, ?_⟩
  · rw [h2.trace, h1.trace, List.append_assoc]
  · rw [h2.touched, h1.touched]
  · rw [h2.catalog, h1.catalog, List.filter_filter]
    congr 1
    funext e
    simp only [List.any_append, Bool.not_or, Bool.and_comm]
  · intro q
    simp only [removeCalls, List.filterMap_append, List.mem_append, List.mem_cons,
      exists_eq_or_imp]
    have e1 := h1.calls q
    have e2 := h2.calls q
    simp only [removeCalls, List.mem_singleton, exists_eq_left] at e1 e2
    rw [e1, e2]
    constructor
    · rintro (h | ⟨c, hc, h⟩)
      · exact Or.inl h
      · exact Or.inr ⟨c, hc, (hframe c hc q).mp h⟩
    · rintro (h | ⟨c, hc, h⟩)
      · exact Or.inl h
      · exact Or.inr ⟨c, hc, (hframe c hc q).mpr h⟩
  · simp only [removeCalls, List.filterMap_append]
    rw [List.nodup_append]
    refine ⟨h1.nodup, h2.nodup, ?_⟩
    intro q hq1 hq2
    obtain ⟨c1, hc1, hf1⟩ := (h1.calls q).mp hq1
    obtain ⟨c2, hc2, hf2⟩ := (h2.calls q).mp hq2
    simp only [List.mem_singleton] at hc1
    subst hc1
    obtain ⟨m, rfl, hm⟩ := hrest c2 hc2
    exact hm (sibling_eq hf2.1 hf1.1)
  · intro ev hev
    rcases List.mem_append.mp hev with h | h
    · exact h1.kinds ev h
    · refine fitsCatalog_mono ?_ (h2.kinds ev h)
      intro e he
      rw [h1.catalog] at he
      exact (List.mem_filter.mp he).1
  · simp only [reports, List.filterMap_append]
    have r1 := h1.records
    have r2 := h2.records
    simp only [reports] at r1 r2
    rw [r1, r2]

/-- The pass that does nothing. -/
theorem Pass.nothing (s : BputCommand) : Pass s [] [] s := by
  refine ⟨by simp, rfl, by simp, ?_, by simp [removeCalls], ?_, by simp [reports]⟩
  · intro q
    simp [removeCalls]
  · intro ev hev
    simp at hev

/-! ### `deleteExtra`: which entries are first extras -/

theorem firstExtra_untouched {fs : List Entry} {touched : List Path} {p q : Path} {e : Entry}
    (he : e ∈ fs) (hp : e.Path = p) (hT : p ∉ touched) :
    FirstExtra fs touched p q ↔ q = p := by
  constructor
  · intro h
    by_contra hne
    exact hT (h.2.2.2 p (List.prefix_refl p) h.1 (Ne.symm hne)).1
  · rintro rfl
    refine ⟨List.prefix_refl _, hT, ⟨e, he, hp⟩, fun a ha haq hne => ?_⟩
    exact absurd (haq.eq_of_length_le ha.length_le) hne

theorem firstExtra_touched_file {fs : List Entry} {touched : List Path} {p q : Path}
    {e : Entry} (hnd : (fs.map Entry.Path).Nodup) (he : e ∈ fs) (hp : e.Path = p)
    (hd : e.IsDir = false) (hT : p ∈ touched) : ¬ FirstExtra fs touched p q := by
  intro h
  have hne : p ≠ q := fun hpq => h.2.1 (hpq ▸ hT)
  obtain ⟨_, e', he', hp', hd'⟩ := h.2.2.2 p (List.prefix_refl p) h.1 hne
  have := row_unique hnd he he' (hp.trans hp'.symm)
  subst this
  simp [hd] at hd'

theorem firstExtra_touched_dir {fs : List Entry} {touched : List Path} {p q : Path}
    {e : Entry} (he : e ∈ fs) (hp : e.Path = p) (hd : e.IsDir = true) (hT : p ∈ touched) :
    FirstExtra fs touched p q ↔
      ∃ c ∈ (fsList fs p).map (fun entry => p ++ [entry.Name]), FirstExtra fs touched c q := by
  constructor
  · intro h
    have hne : q ≠ p := fun hqp => h.2.1 (hqp ▸ hT)
    obtain ⟨t, rfl⟩ := h.1
    cases t with
    | nil => simp at hne
    | cons n t =>
      have hcq : p ++ [n] <+: p ++ n :: t := ⟨t, by simp⟩
      have hrow : ∃ e' ∈ fs, e'.Path = p ++ [n] := by
        by_cases ht : p ++ [n] = p ++ n :: t
        · rw [ht]
          exact h.2.2.1
        · obtain ⟨_, e', he', hp', _⟩ := h.2.2.2 (p ++ [n]) (List.prefix_append p [n]) hcq ht
          exact ⟨e', he', hp'⟩
      obtain ⟨e', he', hp'⟩ := hrow
      have hname : e'.Name = n := name_of_path hp'
      refine ⟨p ++ [n], ?_, hcq, h.2.1, h.2.2.1, fun a hca haq hna => ?_⟩
      · rw [List.mem_map]
        exact ⟨e', mem_fsList.mpr ⟨he', by rw [hname]; exact hp'⟩, by rw [hname]⟩
      · exact h.2.2.2 a ((List.prefix_append p [n]).trans hca) haq hna
  · rintro ⟨c, hc, hfe⟩
    obtain ⟨e', _, rfl⟩ := List.mem_map.mp hc
    refine ⟨(List.prefix_append p [e'.Name]).trans hfe.1, hfe.2.1, hfe.2.2.1,
      fun a hpa haq hna => ?_⟩
    by_cases hap : a = p
    · subst hap
      exact ⟨hT, e, he, hp, hd⟩
    · exact hfe.2.2.2 a (child_below hpa haq hfe.1 hap) haq hna

/-! ### `deleteExtra`: the four ways a call of `deleteExtraInternal` ends well -/

theorem Pass.keptFile {bput s' : BputCommand} {p : Path} {e : Entry}
    (hnd : (bput.filesystem.map Entry.Path).Nodup) (he : e ∈ bput.filesystem)
    (hp : e.Path = p) (hd : e.IsDir = false) (hT : p ∈ bput.updatedPathMap)
    (htr : s'.trace = bput.trace ++ [.stat p])
    (hto : s'.updatedPathMap = bput.updatedPathMap)
    (hfs : s'.filesystem = bput.filesystem) :
    Pass bput [p] [.stat p] s' := by
  refine ⟨htr, hto, ?_, ?_, by simp [removeCalls, Event.removeTarget], ?_,
    by simp [reports, Event.report, Event.extraReport]⟩
  · simp [hfs, Event.removes]
  · intro q
    simp only [removeCalls, List.filterMap_cons, Event.removeTarget, List.filterMap_nil,
      List.not_mem_nil, List.mem_singleton, exists_eq_left, false_iff]
    exact firstExtra_touched_file hnd he hp hd hT
  · intro ev hev
    simp only [List.mem_singleton] at hev
    subst hev
    trivial

theorem Pass.removedFile {bput s' : BputCommand} {p : Path} {e : Entry}
    (he : e ∈ bput.filesystem) (hp : e.Path = p) (hd : e.IsDir = false)
    (hT : p ∉ bput.updatedPathMap)
    (htr : s'.trace = bput.trace ++ [.stat p, .removeFile p true,
      .addFile { Method := .TransferMethodDelete, SourcePath := p, Error := none,
                 Notes := ["extra", "put"] }])
    (hto : s'.updatedPathMap = bput.updatedPathMap)
    (hfs : s'.filesystem = fsRemoveFile bput.filesystem p) :
    Pass bput [p] [.stat p, .removeFile p true,
      .addFile { Method := .TransferMethodDelete, SourcePath := p, Error := none,
                 Notes := ["extra", "put"] }] s' := by
  refine ⟨htr, hto, ?_, ?_, by simp [removeCalls, Event.removeTarget], ?_,
    by simp [reports, Event.report, Event.extraReport]⟩
  · simp [hfs, fsRemoveFile, Event.removes]
  · intro q
    simp only [removeCalls, List.filterMap_cons, Event.removeTarget, List.filterMap_nil,
      List.mem_singleton, exists_eq_left]
    exact (firstExtra_untouched he hp hT).symm
  · intro ev hev
    simp only [List.mem_cons, List.mem_singleton, List.not_mem_nil, or_false] at hev
    rcases hev with rfl | rfl | rfl
    · trivial
    · exact ⟨rfl, e, he, hp, hd⟩
    · trivial

theorem Pass.removedDir {bput s' : BputCommand} {p : Path} {e : Entry}
    (he : e ∈ bput.filesystem) (hp : e.Path = p) (hd : e.IsDir = true)
    (hT : p ∉ bput.updatedPathMap)
    (htr : s'.trace = bput.trace ++ [.stat p, .removeDir p true true,
      .addFile { Method := .TransferMethodDelete, SourcePath := p, Error := none,
                 Notes := ["extra", "put", "dir"] }])
    (hto : s'.updatedPathMap = bput.updatedPathMap)
    (hfs : s'.filesystem = fsRemoveDir bput.filesystem p) :
    Pass bput [p] [.stat p, .removeDir p true true,
      .addFile { Method := .TransferMethodDelete, SourcePath := p, Error := none,
                 Notes := ["extra", "put", "dir"] }] s' := by
  refine ⟨htr, hto, ?_, ?_, by simp [removeCalls, Event.removeTarget], ?_,
    by simp [reports, Event.report, Event.extraReport]⟩
  · simp [hfs, fsRemoveDir, Event.removes]
  · intro q
    simp only [removeCalls, List.filterMap_cons, Event.removeTarget, List.filterMap_nil,
      List.mem_singleton, exists_eq_left]
    exact (firstExtra_untouched he hp hT).symm
  · intro ev hev
    simp only [List.mem_cons, List.mem_singleton, List.not_mem_nil, or_false] at hev
    rcases hev with rfl | rfl | rfl
    · trivial
    · exact ⟨rfl, rfl, e, he, hp, hd⟩
    · trivial

theorem Pass.scanned {bput s s' : BputCommand} {p : Path} {e : Entry} {evs : List Event}
    (he : e ∈ bput.filesystem) (hp : e.Path = p) (hd : e.IsDir = true)
    (hT : p ∈ bput.updatedPathMap)
    (htr : s.trace = bput.trace ++ [.stat p, .list p])
    (hto : s.updatedPathMap = bput.updatedPathMap)
    (hfs : s.filesystem = bput.filesystem)
    (hloop : Pass s ((fsList bput.filesystem p).map (fun entry => p ++ [entry.Name])) evs s') :
    Pass bput [p] ([.stat p, .list p] ++ evs) s' := by
  refine ⟨?_, ?_, ?_, ?_, ?_, ?_, ?_⟩
  · rw [hloop.trace, htr, List.append_assoc]
  · rw [hloop.touched, hto]
  · rw [hloop.catalog, hfs]
    simp [Event.removes]
  · intro q
    have h := hloop.calls q
    rw [hfs, hto] at h
    simp only [removeCalls, List.filterMap_append, List.filterMap_cons, Event.removeTarget,
      List.filterMap_nil, List.nil_append, List.mem_singleton, exists_eq_left]
    simp only [removeCalls] at h
    rw [h]
    exact (firstExtra_touched_dir he hp hd hT).symm
  · have h := hloop.nodup
    simpa [removeCalls, Event.removeTarget] using h
  · intro ev hev
    simp only [List.cons_append, List.nil_append, List.mem_cons] at hev
    rcases hev with rfl | rfl | hev
    · trivial
    · trivial
    · exact hfs ▸ hloop.kinds ev hev
  · have h := hloop.records
    simp only [reports] at h
    simp [reports, Event.report, Event.extraReport, h]

/-! ### `deleteExtra`: the pass -/

/-- The loop over the children of `p`, given what one call does. -/
theorem forEachPath_pass (w : World) (fuel : Nat) (p : Path)
    (ih : ∀ (bput bput' : BputCommand) (c : Path),
      (bput.filesystem.map Entry.Path).Nodup →
      deleteExtraInternal w fuel bput c = (.nil, bput') → ∃ evs, Pass bput [c] evs bput') :
    ∀ (cs : List Path) (bput bput' : BputCommand),
      (bput.filesystem.map Entry.Path).Nodup → cs.Nodup →
      (∀ c ∈ cs, ∃ n, c = p ++ [n]) →
      forEachPath (deleteExtraInternal w fuel) bput cs = (.nil, bput') →
      ∃ evs, Pass bput cs evs bput' := by
  intro cs
  induction cs with
  | nil =>
    intro bput bput' _ _ _ hrun
    simp only [forEachPath, Prod.mk.injEq, true_and] at hrun
    subst hrun
    exact ⟨[], Pass.nothing bput⟩
  | cons c rest ihl =>
    intro bput bput' hnd hcs hform hrun
    obtain ⟨n, rfl⟩ := hform (c) (List.mem_cons_self _ _)
    rw [forEachPath] at hrun
    cases hc : deleteExtraInternal w fuel bput (p ++ [n]) with
    | mk r s1 =>
      rw [hc] at hrun
      cases r with
      | nil =>
        simp only at hrun
        obtain ⟨evs1, h1⟩ := ih bput s1 (p ++ [n]) hnd hc
        have hnd1 : (s1.filesystem.map Entry.Path).Nodup := by
          rw [h1.catalog]
          exact filter_paths_nodup hnd _
        have hcs' := List.nodup_cons.mp hcs
        obtain ⟨evs2, h2⟩ := ihl s1 bput' hnd1 hcs'.2
          (fun c hc => hform c (List.mem_cons_of_mem _ hc)) hrun
        refine ⟨evs1 ++ evs2, Pass.chain h1 h2 ?_⟩
        intro c hcr
        obtain ⟨m, rfl⟩ := hform c (List.mem_cons_of_mem _ hcr)
        refine ⟨m, rfl, ?_⟩
        rintro rfl
        exact hcs'.1 hcr
      | error err => simp at hrun
      | exhausted => simp at hrun

/-- Every call of `deleteExtraInternal` that returns nil is a pass below its
argument. -/
theorem deleteExtraInternal_pass (w : World) :
    ∀ (fuel : Nat) (bput bput' : BputCommand) (p : Path),
      (bput.filesystem.map Entry.Path).Nodup →
      deleteExtraInternal w fuel bput p = (.nil, bput') → ∃ evs, Pass bput [p] evs bput' := by
  intro fuel
  induction fuel with
  | zero =>
    intro bput bput' p _ hrun
    simp [deleteExtraInternal] at hrun
  | succ fuel ih =>
    intro bput bput' p hnd hrun
    rw [deleteExtraInternal] at hrun
    simp only [FileSystem.Stat] at hrun
    cases hS : statResult w bput.filesystem p with
    | error err => simp [hS] at hrun
    | ok e =>
      obtain ⟨he, hp⟩ := statResult_ok hS
      simp only [hS] at hrun
      cases hd : e.IsDir with
      | false =>
        by_cases hT : p ∈ bput.updatedPathMap
        · simp [hd, BputCommand.log, hT] at hrun
          subst hrun
          exact ⟨_, Pass.keptFile hnd he hp hd hT rfl rfl rfl⟩
        · cases hR : w.RemoveFileErr p with
          | some err => simp [hd, BputCommand.log, hT, FileSystem.RemoveFile, hR] at hrun
          | none =>
            simp [hd, BputCommand.log, hT, FileSystem.RemoveFile, hR, AddFile] at hrun
            subst hrun
            exact ⟨_, Pass.removedFile he hp hd hT (by simp) rfl rfl⟩
      | true =>
        by_cases hT : p ∈ bput.updatedPathMap
        · cases hL : w.ListErr p with
          | some err => simp [hd, BputCommand.log, hT, FileSystem.List, hL] at hrun
          | none =>
            simp only [hd, BputCommand.log, hT, FileSystem.List, hL, Bool.not_true,
              Bool.false_eq_true, if_false, not_true_eq_false] at hrun
            obtain ⟨evs, hloop⟩ := forEachPath_pass w fuel p ih _ _ bput' (by exact hnd)
              (fsList_paths_nodup hnd p)
              (fun c hc => by
                obtain ⟨e', _, rfl⟩ := List.mem_map.mp hc
                exact ⟨e'.Name, rfl⟩) hrun
            refine ⟨_, Pass.scanned he hp hd hT ?_ ?_ ?_ hloop⟩
            · simp
            · rfl
            · rfl
        · cases hR : w.RemoveDirErr p with
          | some err => simp [hd, BputCommand.log, hT, FileSystem.RemoveDir, hR] at hrun
          | none =>
            simp [hd, BputCommand.log, hT, FileSystem.RemoveDir, hR, AddFile] at hrun
            subst hrun
            exact ⟨_, Pass.removedDir he hp hd hT (by simp) rfl rfl⟩

/-! ### `deleteExtra`: what holds of every run -/

theorem Sound.unchanged (s : BputCommand) (starts : List Path) : Sound s starts [] s :=
  ⟨by simp, rfl, fun _ h => h, by simp [removeCalls]⟩

theorem Sound.quiet {bput s' : BputCommand} {p : Path} {evs : List Event}
    (htr : s'.trace = bput.trace ++ evs)
    (hto : s'.updatedPathMap = bput.updatedPathMap)
    (hfs : s'.filesystem = bput.filesystem)
    (hev : removeCalls evs = []) : Sound bput [p] evs s' :=
  ⟨htr, hto, fun e h => hfs ▸ h, by simp [hev]⟩

theorem Sound.removal {bput s' : BputCommand} {p : Path} {evs : List Event}
    (hT : p ∉ bput.updatedPathMap)
    (htr : s'.trace = bput.trace ++ evs)
    (hto : s'.updatedPathMap = bput.updatedPathMap)
    (hfs : ∀ e ∈ s'.filesystem, e ∈ bput.filesystem)
    (hev : removeCalls evs = [p]) : Sound bput [p] evs s' := by
  refine ⟨htr, hto, hfs, ?_⟩
  intro q hq
  rw [hev, List.mem_singleton] at hq
  subst hq
  exact ⟨⟨q, List.mem_singleton.mpr rfl, List.prefix_refl q⟩, hT⟩

theorem Sound.sequence {s s1 s' : BputCommand} {c : Path} {rest : List Path}
    {evs1 evs2 : List Event} (h1 : Sound s [c] evs1 s1) (h2 : Sound s1 rest evs2 s') :
    Sound s (c :: rest) (evs1 ++ evs2) s' := by
  refine ⟨?_, ?_, ?_, ?_⟩
  · rw [h2.trace, h1.trace, List.append_assoc]
  · rw [h2.touched, h1.touched]
  · exact fun e he => h1.rows e (h2.rows e he)
  · intro q hq
    simp only [removeCalls, List.filterMap_append, List.mem_append] at hq
    rcases hq with hq | hq
    · obtain ⟨⟨c', hc', hpre⟩, hT⟩ := h1.calls q hq
      rw [List.mem_singleton] at hc'
      subst hc'
      exact ⟨⟨c', List.mem_cons_self _ _, hpre⟩, hT⟩
    · obtain ⟨⟨c', hc', hpre⟩, hT⟩ := h2.calls q hq
      exact ⟨⟨c', List.mem_cons_of_mem _ hc', hpre⟩, h1.touched ▸ hT⟩

theorem forEachPath_sound (w : World) (fuel : Nat)
    (ih : ∀ (bput : BputCommand) (c : Path),
      ∃ evs, Sound bput [c] evs (deleteExtraInternal w fuel bput c).2) :
    ∀ (cs : List Path) (bput : BputCommand),
      ∃ evs, Sound bput cs evs (forEachPath (deleteExtraInternal w fuel) bput cs).2 := by
  intro cs
  induction cs with
  | nil =>
    intro bput
    exact ⟨[], Sound.unchanged bput []⟩
  | cons c rest ihl =>
    intro bput
    obtain ⟨evs1, h1⟩ := ih bput c
    rw [forEachPath]
    cases hc : deleteExtraInternal w fuel bput c with
    | mk r s1 =>
      rw [hc] at h1
      cases r with
      | nil =>
        obtain ⟨evs2, h2⟩ := ihl s1
        exact ⟨evs1 ++ evs2, Sound.sequence h1 h2⟩
      | error err =>
        refine ⟨evs1 ++ [], Sound.sequence h1 (Sound.unchanged s1 rest)⟩
      | exhausted =>
        refine ⟨evs1 ++ [], Sound.sequence h1 (Sound.unchanged s1 rest)⟩

/-- However a call of `deleteExtraInternal` ends, its remove calls are on
untouched paths at or below its argument. -/
theorem deleteExtraInternal_sound (w : World) :
    ∀ (fuel : Nat) (bput : BputCommand) (p : Path),
      ∃ evs, Sound bput [p] evs (deleteExtraInternal w fuel bput p).2 := by
  intro fuel
  induction fuel with
  | zero =>
    intro bput p
    exact ⟨[], Sound.unchanged bput [p]⟩
  | succ fuel ih =>
    intro bput p
    rw [deleteExtraInternal]
    simp only [FileSystem.Stat]
    cases hS : statResult w bput.filesystem p with
    | error err =>
      exact ⟨[.stat p], Sound.quiet rfl rfl rfl rfl⟩
    | ok e =>
      cases hd : e.IsDir with
      | false =>
        by_cases hT : p ∈ bput.updatedPathMap
        · simp only [hd, BputCommand.log, hT, Bool.not_false, if_true, not_true_eq_false,
            if_false]
          exact ⟨[.stat p], Sound.quiet rfl rfl rfl rfl⟩
        · cases hR : w.RemoveFileErr p with
          | some err =>
            simp only [hd, BputCommand.log, hT, FileSystem.RemoveFile, hR, AddFile,
              Bool.not_false, if_true, not_false_eq_true]
            exact ⟨[.stat p, .removeFile p true,
              .addFile
                { Method := .TransferMethodDelete, SourcePath := p,
                  Error := some err, Notes := ["extra", "put"] }],
              Sound.removal hT (by simp) rfl (fun _ h => h) rfl⟩
          | none =>
            simp only [hd, BputCommand.log, hT, FileSystem.RemoveFile, hR, AddFile,
              Bool.not_false, if_true, not_false_eq_true]
            exact ⟨[.stat p, .removeFile p true,
              .addFile
                { Method := .TransferMethodDelete, SourcePath := p,
                  Error := none, Notes := ["extra", "put"] }],
              Sound.removal hT (by simp) rfl
                (fun _ h => (List.mem_filter.mp h).1) rfl⟩
      | true =>
        by_cases hT : p ∈ bput.updatedPathMap
        · cases hL : w.ListErr p with
          | some err =>
            simp only [hd, BputCommand.log, hT, FileSystem.List, hL, Bool.not_true,
              Bool.false_eq_true, if_false, not_true_eq_false]
            exact ⟨[.stat p, .list p], Sound.quiet (by simp) rfl rfl rfl⟩
          | none =>
            simp only [hd, BputCommand.log, hT, FileSystem.List, hL, Bool.not_true,
              Bool.false_eq_true, if_false, not_true_eq_false]
            obtain ⟨evs, hloop⟩ := forEachPath_sound w fuel ih
              ((fsList bput.filesystem p).map (fun entry => p ++ [entry.Name]))
              { bput with trace := bput.trace ++ [.stat p] ++ [.list p] }
            refine ⟨[.stat p, .list p] ++ evs, ?_, ?_, ?_, ?_⟩
            · rw [hloop.trace]
              simp
            · rw [hloop.touched]
            · exact hloop.rows
            · intro q hq
              have hq' : q ∈ removeCalls evs := by
                simpa [removeCalls, Event.removeTarget] using hq
              obtain ⟨⟨c, hc, hpre⟩, hT'⟩ := hloop.calls q hq'
              obtain ⟨e', _, rfl⟩ := List.mem_map.mp hc
              exact ⟨⟨p, List.mem_singleton.mpr rfl,
                (List.prefix_append p [e'.Name]).trans hpre⟩, hT'⟩
        · cases hR : w.RemoveDirErr p with
          | some err =>
            simp only [hd, BputCommand.log, hT, FileSystem.RemoveDir, hR, AddFile,
              Bool.not_true, Bool.false_eq_true, if_false, if_true, not_false_eq_true]
            exact ⟨[.stat p, .removeDir p true true,
              .addFile
                { Method := .TransferMethodDelete, SourcePath := p,
                  Error := some err, Notes := ["extra", "put", "dir"] }],
              Sound.removal hT (by simp) rfl (fun _ h => h) rfl⟩
          | none =>
            simp only [hd, BputCommand.log, hT, FileSystem.RemoveDir, hR, AddFile,
              Bool.not_true, Bool.false_eq_true, if_false, if_true, not_false_eq_true]
            exact ⟨[.stat p, .removeDir p true true,
              .addFile
                { Method := .TransferMethodDelete, SourcePath := p,
                  Error := none, Notes := ["extra", "put", "dir"] }],
              Sound.removal hT (by simp) rfl
                (fun _ h => (List.mem_filter.mp h).1) rfl⟩

/-! ### `deleteExtra`: enough recursion budget -/

theorem forEachPath_finishes (w : World) (fuel : Nat)
    (ih : ∀ (bput : BputCommand) (c : Path), 0 < fuel →
      (∀ e ∈ bput.filesystem, e.Path.length < c.length + fuel) →
      (deleteExtraInternal w fuel bput c).1 ≠ .exhausted) :
    ∀ (cs : List Path) (bput : BputCommand),
      (∀ c ∈ cs, 0 < fuel ∧ ∀ e ∈ bput.filesystem, e.Path.length < c.length + fuel) →
      (forEachPath (deleteExtraInternal w fuel) bput cs).1 ≠ .exhausted := by
  intro cs
  induction cs with
  | nil =>
    intro bput _
    simp [forEachPath]
  | cons c rest ihl =>
    intro bput hcs
    have hc := ih bput c (hcs c (List.mem_cons_self _ _)).1 (hcs c (List.mem_cons_self _ _)).2
    obtain ⟨evs, hs⟩ := deleteExtraInternal_sound w fuel bput c
    rw [forEachPath]
    cases hrun : deleteExtraInternal w fuel bput c with
    | mk r s1 =>
      rw [hrun] at hc hs
      cases r with
      | nil =>
        simp only
        apply ihl s1
        intro c' hc'
        have h := hcs c' (List.mem_cons_of_mem _ hc')
        exact ⟨h.1, fun e he => h.2 e (hs.rows e he)⟩
      | error err => simp
      | exhausted => exact absurd rfl hc

/-- With a recursion budget above the depth of the catalog,
`deleteExtraInternal` returns. -/
theorem deleteExtraInternal_finishes (w : World) :
    ∀ (fuel : Nat) (bput : BputCommand) (p : Path), 0 < fuel →
      (∀ e ∈ bput.filesystem, e.Path.length < p.length + fuel) →
      (deleteExtraInternal w fuel bput p).1 ≠ .exhausted := by
  intro fuel
  induction fuel with
  | zero =>
    intro bput p h _
    exact absurd h (Nat.lt_irrefl 0)
  | succ fuel ih =>
    intro bput p _ hdepth
    rw [deleteExtraInternal]
    simp only [FileSystem.Stat]
    cases hS : statResult w bput.filesystem p with
    | error err => simp
    | ok e =>
      cases hd : e.IsDir with
      | false =>
        by_cases hT : p ∈ bput.updatedPathMap
        · simp [hd, BputCommand.log, hT]
        · cases hR : w.RemoveFileErr p <;>
            simp [hd, BputCommand.log, hT, FileSystem.RemoveFile, hR]
      | true =>
        by_cases hT : p ∈ bput.updatedPathMap
        · cases hL : w.ListErr p with
          | some err => simp [hd, BputCommand.log, hT, FileSystem.List, hL]
          | none =>
            simp only [hd, BputCommand.log, hT, FileSystem.List, hL, Bool.not_true,
              Bool.false_eq_true, if_false, not_true_eq_false]
            apply forEachPath_finishes w fuel ih
            intro c hc
            obtain ⟨e', he', rfl⟩ := List.mem_map.mp hc
            obtain ⟨hmem, hpath⟩ := mem_fsList.mp he'
            have h1 := hdepth e' hmem
            rw [hpath] at h1
            simp only [List.length_append, List.length_singleton] at h1 ⊢
            refine ⟨by omega, fun e he => ?_⟩
            have h2 := hdepth e he
            omega
        · cases hR : w.RemoveDirErr p <;>
            simp [hd, BputCommand.log, hT, FileSystem.RemoveDir, hR]

/-! ### `deleteExtra`: a pass that meets no failure succeeds -/

theorem statResult_of_row {w : World} {fs : List Entry} {p : Path} (hw : w.StatErr p = none)
    (hrow : ∃ e ∈ fs, e.Path = p) : ∃ e, statResult w fs p = .ok e := by
  unfold statResult
  rw [hw]
  cases hF : fsStat fs p with
  | some e => exact ⟨e, rfl⟩
  | none =>
    obtain ⟨e, he, hp⟩ := hrow
    unfold fsStat at hF
    have := List.find?_eq_none.mp hF e he
    simp [hp] at this

theorem forEachPath_succeeds (w : World) (fuel : Nat) (p : Path)
    (ih : ∀ (bput : BputCommand) (c : Path), (bput.filesystem.map Entry.Path).Nodup →
      (∃ e ∈ bput.filesystem, e.Path = c) →
      (∀ e ∈ bput.filesystem, e.Path.length < c.length + fuel) →
      (deleteExtraInternal w fuel bput c).1 = .nil) :
    ∀ (cs : List Path) (bput : BputCommand),
      (bput.filesystem.map Entry.Path).Nodup → cs.Nodup →
      (∀ c ∈ cs, ∃ n, c = p ++ [n]) →
      (∀ c ∈ cs, ∃ e ∈ bput.filesystem, e.Path = c) →
      (∀ c ∈ cs, ∀ e ∈ bput.filesystem, e.Path.length < c.length + fuel) →
      (forEachPath (deleteExtraInternal w fuel) bput cs).1 = .nil := by
  intro cs
  induction cs with
  | nil =>
    intro bput _ _ _ _ _
    rfl
  | cons c rest ihl =>
    intro bput hnd hcs hform hrows hdepth
    obtain ⟨n, rfl⟩ := hform c (List.mem_cons_self _ _)
    have hnil := ih bput (p ++ [n]) hnd (hrows _ (List.mem_cons_self _ _))
      (hdepth _ (List.mem_cons_self _ _))
    rw [forEachPath]
    cases hrun : deleteExtraInternal w fuel bput (p ++ [n]) with
    | mk r s1 =>
      rw [hrun] at hnil
      simp only at hnil
      subst hnil
      simp only
      obtain ⟨evs, hpass⟩ := deleteExtraInternal_pass w fuel bput s1 (p ++ [n]) hnd hrun
      have hcs' := List.nodup_cons.mp hcs
      have hsub : ∀ e ∈ s1.filesystem, e ∈ bput.filesystem := by
        intro e he
        rw [hpass.catalog] at he
        exact (List.mem_filter.mp he).1
      apply ihl s1
      · rw [hpass.catalog]
        exact filter_paths_nodup hnd _
      · exact hcs'.2
      · exact fun c hc => hform c (List.mem_cons_of_mem _ hc)
      · intro c hc
        obtain ⟨m, rfl⟩ := hform c (List.mem_cons_of_mem _ hc)
        have hm : m ≠ n := by
          rintro rfl
          exact hcs'.1 hc
        obtain ⟨e, he, hp⟩ := hrows _ (List.mem_cons_of_mem _ hc)
        exact ⟨e, (hpass.sibling_rows hm e (hp ▸ List.prefix_refl _)).mpr he, hp⟩
      · exact fun c hc e he => hdepth c (List.mem_cons_of_mem _ hc) e (hsub e he)

/-- When no backend call fails, the catalog has one row per path and the
recursion budget is above its depth, `deleteExtraInternal` on an existing
path returns nil. -/
theorem deleteExtraInternal_succeeds (w : World)
    (hw : ∀ q, w.StatErr q = none ∧ w.ListErr q = none ∧ w.RemoveDirErr q = none ∧
      w.RemoveFileErr q = none) :
    ∀ (fuel : Nat) (bput : BputCommand) (p : Path), (bput.filesystem.map Entry.Path).Nodup →
      (∃ e ∈ bput.filesystem, e.Path = p) →
      (∀ e ∈ bput.filesystem, e.Path.length < p.length + fuel) →
      (deleteExtraInternal w fuel bput p).1 = .nil := by
  intro fuel
  induction fuel with
  | zero =>
    intro bput p _ hrow hdepth
    obtain ⟨e, he, hp⟩ := hrow
    have := hdepth e he
    rw [hp] at this
    omega
  | succ fuel ih =>
    intro bput p hnd hrow hdepth
    obtain ⟨e, hS⟩ := statResult_of_row (hw p).1 hrow
    rw [deleteExtraInternal]
    simp only [FileSystem.Stat, hS]
    cases hd : e.IsDir with
    | false =>
      by_cases hT : p ∈ bput.updatedPathMap
      · simp [hd, BputCommand.log, hT]
      · simp [hd, BputCommand.log, hT, FileSystem.RemoveFile, (hw p).2.2.2]
    | true =>
      by_cases hT : p ∈ bput.updatedPathMap
      · simp only [hd, BputCommand.log, hT, FileSystem.List, (hw p).2.1, Bool.not_true,
          Bool.false_eq_true, if_false, not_true_eq_false]
        apply forEachPath_succeeds w fuel p ih
        · exact hnd
        · exact fsList_paths_nodup hnd p
        · intro c hc
          obtain ⟨e', _, rfl⟩ := List.mem_map.mp hc
          exact ⟨e'.Name, rfl⟩
        · intro c hc
          obtain ⟨e', he', rfl⟩ := List.mem_map.mp hc
          obtain ⟨hmem, hpath⟩ := mem_fsList.mp he'
          exact ⟨e', hmem, hpath⟩
        · intro c hc e'' he''
          obtain ⟨e', _, rfl⟩ := List.mem_map.mp hc
          have := hdepth e'' he''
          simp only [List.length_append, List.length_singleton]
          omega
      · simp [hd, BputCommand.log, hT, FileSystem.RemoveDir, (hw p).2.2.1]

/-! ### `deleteExtra`: records of a pass -/

theorem extraReport_paths (evs : List Event) :
    (evs.filterMap Event.extraReport).map (fun r => r.SourcePath) = removeCalls evs := by
  induction evs with
  | nil => rfl
  | cons ev evs ih =>
    cases ev <;> simp_all [removeCalls, Event.extraReport, Event.removeTarget]

theorem extraReport_delete (evs : List Event) :
    ∀ r ∈ evs.filterMap Event.extraReport,
      r.Method = .TransferMethodDelete ∧ r.Error = none := by
  intro r hr
  obtain ⟨ev, _, hev⟩ := List.mem_filterMap.mp hr
  cases ev <;> simp [Event.extraReport] at hev <;> subst hev <;> exact ⟨rfl, rfl⟩

/-- C1, counterexample.  The remote tree is `/t/{A/{x}, B, C/{y}}`.
First run: the touched set holds every entry but the collection `/t/C`; in
particular it holds `/t/C/y`.  The pass succeeds, its only remove call is the
recursive `RemoveDir` of `/t/C`, and the touched entry `/t/C/y` is gone
afterwards.  Second run: the touched set is `{/t/A, /t/B}`.  The pass
succeeds, its only remove call is the recursive `RemoveDir` of `/t`, and the
touched entries `/t/A` and `/t/B` are gone afterwards. -/
theorem deleteExtraInternal_removes_touched_entry :
    ((deleteExtraInternal quietWorld 4
      { plainCommand with
        updatedPathMap := [["t"], ["t", "A"], ["t", "A", "x"], ["t", "B"], ["t", "C", "y"]] }
      ["t"]).1 = .nil ∧
    fsStat plainCommand.filesystem ["t", "C", "y"] = some (dataObject ["t", "C", "y"] 3 "" []) ∧
    removeCalls (deleteExtraInternal quietWorld 4
      { plainCommand with
        updatedPathMap := [["t"], ["t", "A"], ["t", "A", "x"], ["t", "B"], ["t", "C", "y"]] }
      ["t"]).2.trace = [["t", "C"]] ∧
    fsStat (deleteExtraInternal quietWorld 4
      { plainCommand with
        updatedPathMap := [["t"], ["t", "A"], ["t", "A", "x"], ["t", "B"], ["t", "C", "y"]] }
      ["t"]).2.filesystem ["t", "C", "y"] = none) ∧
    ((deleteExtraInternal quietWorld 4
      { plainCommand with updatedPathMap := [["t", "A"], ["t", "B"]] } ["t"]).1 = .nil ∧
    removeCalls (deleteExtraInternal quietWorld 4
      { plainCommand with updatedPathMap := [["t", "A"], ["t", "B"]] } ["t"]).2.trace
      = [["t"]] ∧
    (deleteExtraInternal quietWorld 4
      { plainCommand with updatedPathMap := [["t", "A"], ["t", "B"]] } ["t"]).2.filesystem
      = []) := by
  decide

/-- C1, as amended.  Let the catalog have one row per path.  With a recursion
budget above the depth of the catalog `deleteExtraInternal` returns, and it
returns nil if `targetPath` exists and no backend call fails.  When it
returns nil: (1) its remove calls are on exactly the first extras below
`targetPath`, that is the untouched entries at or below `targetPath` whose
ancestors from `targetPath` down are touched collections, each called once;
(2) `RemoveFile` is used for data objects and recursive `RemoveDir` for
collections; (3) no remove call is on a touched path; (4) the catalog
afterwards is the catalog before without the rows the calls delete, so every
entry whose ancestors-or-self from `targetPath` down are all touched is still
in place; (5) the report records are, in order, one `Delete` record with a nil
error per remove call; (6) the touched set is not written. -/
theorem deleteExtraInternal_precise (w : World) (fuel : Nat) (bput : BputCommand)
    (targetPath : Path) (hnd : (bput.filesystem.map Entry.Path).Nodup) :
    (0 < fuel → (∀ e ∈ bput.filesystem, e.Path.length < fuel) →
      (deleteExtraInternal w fuel bput targetPath).1 ≠ .exhausted) ∧
    ((∀ q, w.StatErr q = none ∧ w.ListErr q = none ∧ w.RemoveDirErr q = none ∧
        w.RemoveFileErr q = none) →
      (∃ e ∈ bput.filesystem, e.Path = targetPath) →
      (∀ e ∈ bput.filesystem, e.Path.length < fuel) →
      (deleteExtraInternal w fuel bput targetPath).1 = .nil) ∧
    ((deleteExtraInternal w fuel bput targetPath).1 = .nil →
      (deleteExtraInternal w fuel bput targetPath).2.trace =
        bput.trace ++ newCalls bput (deleteExtraInternal w fuel bput targetPath).2 ∧
      (∀ q, q ∈ removeCalls (newCalls bput (deleteExtraInternal w fuel bput targetPath).2) ↔
        FirstExtra bput.filesystem bput.updatedPathMap targetPath q) ∧
      (removeCalls (newCalls bput (deleteExtraInternal w fuel bput targetPath).2)).Nodup ∧
      (∀ ev ∈ newCalls bput (deleteExtraInternal w fuel bput targetPath).2,
        ev.fitsCatalog bput.filesystem) ∧
      (∀ q ∈ removeCalls (newCalls bput (deleteExtraInternal w fuel bput targetPath).2),
        q ∉ bput.updatedPathMap) ∧
      (deleteExtraInternal w fuel bput targetPath).2.filesystem =
        bput.filesystem.filter (fun e =>
          !(newCalls bput (deleteExtraInternal w fuel bput targetPath).2).any
            (fun ev => ev.removes e)) ∧
      (∀ e ∈ bput.filesystem,
        (∀ a, targetPath <+: a → a <+: e.Path → a ∈ bput.updatedPathMap) →
        e ∈ (deleteExtraInternal w fuel bput targetPath).2.filesystem) ∧
      reports (newCalls bput (deleteExtraInternal w fuel bput targetPath).2) =
        (newCalls bput (deleteExtraInternal w fuel bput targetPath).2).filterMap
          Event.extraReport ∧
      (reports (newCalls bput (deleteExtraInternal w fuel bput targetPath).2)).map
          (fun r => r.SourcePath) =
        removeCalls (newCalls bput (deleteExtraInternal w fuel bput targetPath).2) ∧
      (∀ r ∈ reports (newCalls bput (deleteExtraInternal w fuel bput targetPath).2),
        r.Method = .TransferMethodDelete ∧ r.Error = none) ∧
      (deleteExtraInternal w fuel bput targetPath).2.updatedPathMap = bput.updatedPathMap) := by
  refine ⟨?_, ?_, ?_⟩
  · intro hpos hdepth
    exact deleteExtraInternal_finishes w fuel bput targetPath hpos
      (fun e he => Nat.lt_of_lt_of_le (hdepth e he) (Nat.le_add_left _ _))
  · intro hw hrow hdepth
    exact deleteExtraInternal_succeeds w hw fuel bput targetPath hnd hrow
      (fun e he => Nat.lt_of_lt_of_le (hdepth e he) (Nat.le_add_left _ _))
  · intro hnil
    have hrun : deleteExtraInternal w fuel bput targetPath =
        (.nil, (deleteExtraInternal w fuel bput targetPath).2) := by
      rw [← hnil]
    obtain ⟨evs, hpass⟩ := deleteExtraInternal_pass w fuel bput _ targetPath hnd hrun
    have hcalls : newCalls bput (deleteExtraInternal w fuel bput targetPath).2 = evs := by
      unfold newCalls
      rw [hpass.trace, List.drop_left]
    have hfirst : ∀ q, q ∈ removeCalls evs ↔
        FirstExtra bput.filesystem bput.updatedPathMap targetPath q := by
      intro q
      have h := hpass.calls q
      simpa using h
    rw [hcalls]
    refine ⟨hpass.trace, hfirst, hpass.nodup, hpass.kinds, ?_, hpass.catalog, ?_,
      hpass.records, ?_, ?_, hpass.touched⟩
    · exact fun q hq => ((hfirst q).mp hq).2.1
    · intro e he hanc
      rw [hpass.catalog, List.mem_filter]
      refine ⟨he, ?_⟩
      simp only [Bool.not_eq_true', List.any_eq_false]
      intro ev hev hrem
      obtain ⟨q, hq, hqe⟩ := removes_target hrem
      have hfe := (hfirst q).mp (mem_removeCalls.mpr ⟨ev, hev, hq⟩)
      exact hfe.2.1 (hanc q hfe.1 hqe)
    · rw [hpass.records]
      exact extraReport_paths evs
    · rw [hpass.records]
      exact extraReport_delete evs

/-- C1, witness: in the tree `/t/{A/{x}, B, C/{y}}` with `/t`, `/t/A` and
`/t/A/x` touched, the pass removes `/t/B` and `/t/C` and nothing else. -/
theorem deleteExtraInternal_precise_witness :
    (plainCommand.filesystem.map Entry.Path).Nodup ∧
    (deleteExtraInternal quietWorld 4 plainCommand ["t"]).1 = .nil ∧
    removeCalls (newCalls plainCommand (deleteExtraInternal quietWorld 4 plainCommand ["t"]).2) =
      [["t", "B"], ["t", "C"]] ∧
    (deleteExtraInternal quietWorld 4 plainCommand ["t"]).2.filesystem =
      [collection ["t"], collection ["t", "A"], dataObject ["t", "A", "x"] 1 "" []] ∧
    (reports (newCalls plainCommand (deleteExtraInternal quietWorld 4 plainCommand ["t"]).2)).map
        (fun r => r.SourcePath) =
      removeCalls (newCalls plainCommand (deleteExtraInternal quietWorld 4 plainCommand ["t"]).2) ∧
    (∀ q ∈ removeCalls
        (newCalls plainCommand (deleteExtraInternal quietWorld 4 plainCommand ["t"]).2),
      q ∉ plainCommand.updatedPathMap) :=
  ⟨by decide, by decide, by decide, by decide,
    ((deleteExtraInternal_precise quietWorld 4 plainCommand ["t"] (by decide)).2.2
      (by decide)).2.2.2.2.2.2.2.2.1,
    ((deleteExtraInternal_precise quietWorld 4 plainCommand ["t"] (by decide)).2.2
      (by decide)).2.2.2.2.1⟩

/-- C2, counterexample.  `/t` is a collection and the touched set is empty:
`deleteExtra` passes the target root `/t` itself to a recursive `RemoveDir`,
and nothing of the tree is left. -/
theorem deleteExtra_removes_untouched_root :
    quietWorld.MakeIRODSPath "/t" = ["t"] ∧
    fsStat plainCommand.filesystem ["t"] = some (collection ["t"]) ∧
    Event.removeDir ["t"] true true ∈
      (deleteExtra quietWorld 4 { plainCommand with updatedPathMap := [] } "/t").2.trace ∧
    (deleteExtra quietWorld 4 { plainCommand with updatedPathMap := [] } "/t").1 = .nil ∧
    (deleteExtra quietWorld 4 { plainCommand with updatedPathMap := [] } "/t").2.filesystem
      = [] := by
  decide

/-- C2, as amended.  However `deleteExtra` ends and whatever the recursion
budget is: if the touched set contains the target root, every remove call is
on a path strictly below the target root, and the target root itself is
passed neither to `RemoveDir` nor to `RemoveFile`.  If the target root is a
collection that is not in the touched set, the only calls of `deleteExtra`
are `Stat` and a recursive `RemoveDir` of the target root, followed by the
report record. -/
theorem deleteExtra_root (w : World) (fuel : Nat) (bput : BputCommand) (targetPath : String) :
    (w.MakeIRODSPath targetPath ∈ bput.updatedPathMap →
      (∀ recurse force, Event.removeDir (w.MakeIRODSPath targetPath) recurse force ∉
        newCalls bput (deleteExtra w fuel bput targetPath).2) ∧
      (∀ force, Event.removeFile (w.MakeIRODSPath targetPath) force ∉
        newCalls bput (deleteExtra w fuel bput targetPath).2) ∧
      (∀ q ∈ removeCalls (newCalls bput (deleteExtra w fuel bput targetPath).2),
        w.MakeIRODSPath targetPath <+: q ∧ q ≠ w.MakeIRODSPath targetPath)) ∧
    (∀ e, 0 < fuel → statResult w bput.filesystem (w.MakeIRODSPath targetPath) = .ok e →
      e.IsDir = true → w.MakeIRODSPath targetPath ∉ bput.updatedPathMap →
      newCalls bput (deleteExtra w fuel bput targetPath).2 =
        [.stat (w.MakeIRODSPath targetPath),
          .removeDir (w.MakeIRODSPath targetPath) true true,
          .addFile
            { Method := .TransferMethodDelete, SourcePath := w.MakeIRODSPath targetPath,
              Error := w.RemoveDirErr (w.MakeIRODSPath targetPath),
              Notes := ["extra", "put", "dir"] }]) := by
  constructor
  · intro hroot
    obtain ⟨evs, hs⟩ := deleteExtraInternal_sound w fuel bput (w.MakeIRODSPath targetPath)
    have hcalls : newCalls bput (deleteExtra w fuel bput targetPath).2 = evs := by
      unfold newCalls deleteExtra
      rw [hs.trace, List.drop_left]
    rw [hcalls]
    have hstrict : ∀ q ∈ removeCalls evs,
        w.MakeIRODSPath targetPath <+: q ∧ q ≠ w.MakeIRODSPath targetPath := by
      intro q hq
      obtain ⟨⟨c, hc, hpre⟩, hT⟩ := hs.calls q hq
      rw [List.mem_singleton] at hc
      subst hc
      exact ⟨hpre, fun h => hT (h ▸ hroot)⟩
    refine ⟨?_, ?_, hstrict⟩
    · intro recurse force hmem
      exact (hstrict _ (mem_removeCalls.mpr ⟨_, hmem, rfl⟩)).2 rfl
    · intro force hmem
      exact (hstrict _ (mem_removeCalls.mpr ⟨_, hmem, rfl⟩)).2 rfl
  · intro e hpos hS hd hT
    obtain ⟨n, rfl⟩ := Nat.exists_eq_succ_of_ne_zero (Nat.pos_iff_ne_zero.mp hpos)
    unfold newCalls deleteExtra
    cases hR : w.RemoveDirErr (w.MakeIRODSPath targetPath) <;>
      simp [deleteExtraInternal, FileSystem.Stat, hS, hd, hT, BputCommand.log,
        FileSystem.RemoveDir, hR, AddFile]

/-- C2, witness: with `/t` touched, no remove call of the pass over
`/t/{A/{x}, B, C/{y}}` is on `/t`. -/
theorem deleteExtra_root_witness :
    quietWorld.MakeIRODSPath "/t" ∈ plainCommand.updatedPathMap ∧
    Event.removeDir ["t"] true true ∉
      newCalls plainCommand (deleteExtra quietWorld 4 plainCommand "/t").2 ∧
    Event.removeFile ["t"] true ∉
      newCalls plainCommand (deleteExtra quietWorld 4 plainCommand "/t").2 :=
  ⟨by decide, ((deleteExtra_root quietWorld 4 plainCommand "/t").1 (by decide)).1 true true,
    ((deleteExtra_root quietWorld 4 plainCommand "/t").1 (by decide)).2.1 true⟩

/-! ### `getStagingDir` -/

/-- C3, counterexample.  The user staging path `/zone` is an existing
collection, an ancestor of the target `/zone/home/u/data`, and fails the
safety check; `getStagingDir` does not fall back to the default staging path
but returns the empty path with an error. -/
theorem getStagingDir_no_fallback_when_unsafe :
    statResult quietWorld stagingCommand.filesystem ["zone"] = .ok (collection ["zone"]) ∧
    (quietWorld.IsSafeStagingDir ["zone"]).isSome = true ∧
    (getStagingDir quietWorld { stagingCommand with IRODSTempPath := "/zone" }
        "/zone/home/u/data").1 =
      .ret none (some (.Wrap "staging path is not safe" ["zone"]
        (.Errorf "staging path is not safe" ["zone"]))) ∧
    (getStagingDir quietWorld { stagingCommand with IRODSTempPath := "/zone" }
        "/zone/home/u/data").1 ≠
      .ret (some (quietWorld.GetDefaultStagingDir ["zone", "home", "u", "data"])) none :=
  ⟨rfl, by decide, by decide, by decide⟩

/-- C3, as amended.  A user-supplied staging path that exists as a collection
and fails the safety check is never returned: `getStagingDir` returns the
empty path together with an error that wraps the safety error.  It makes no
call after the safety check (no fallback to the default path, no removal) and
leaves the remote catalog as it was. -/
theorem getStagingDir_unsafe_user_path (w : World) (bput : BputCommand) (targetPath : String)
    (tempEntry : Entry) (err : Err)
    (hU : bput.IRODSTempPath.length > 0)
    (hS : statResult w bput.filesystem (w.MakeIRODSPath bput.IRODSTempPath) = .ok tempEntry)
    (hD : tempEntry.IsDir = true)
    (hSafe : w.IsSafeStagingDir (w.MakeIRODSPath bput.IRODSTempPath) = some err) :
    (getStagingDir w bput targetPath).1 =
      .ret none (some (.Wrap "staging path is not safe" (w.MakeIRODSPath bput.IRODSTempPath)
        err)) ∧
    (getStagingDir w bput targetPath).2.trace =
      bput.trace ++ [.stat (w.MakeIRODSPath bput.IRODSTempPath),
        .isSafeStagingDir (w.MakeIRODSPath bput.IRODSTempPath)] ∧
    (getStagingDir w bput targetPath).2.filesystem = bput.filesystem := by
  simp [getStagingDir, hU, FileSystem.Stat, hS, getStagingDirUser, hD, IsSafeStagingDir, hSafe,
    BputCommand.log]

/-- C3, witness. -/
theorem getStagingDir_unsafe_user_path_witness :
    (getStagingDir quietWorld { stagingCommand with IRODSTempPath := "/zone" }
        "/zone/home/u/data").1 =
      .ret none (some (.Wrap "staging path is not safe" ["zone"]
        (.Errorf "staging path is not safe" ["zone"]))) ∧
    (getStagingDir quietWorld { stagingCommand with IRODSTempPath := "/zone" }
        "/zone/home/u/data").2.trace = [.stat ["zone"], .isSafeStagingDir ["zone"]] ∧
    (getStagingDir quietWorld { stagingCommand with IRODSTempPath := "/zone" }
        "/zone/home/u/data").2.filesystem = stagingCommand.filesystem :=
  getStagingDir_unsafe_user_path quietWorld { stagingCommand with IRODSTempPath := "/zone" }
    "/zone/home/u/data" (collection ["zone"]) (.Errorf "staging path is not safe" ["zone"])
    (by decide) rfl rfl rfl

/-- C4, failing input.  The user staging path `/zone/home/u/stage` is a safe
collection on another resource server than the target `/zone`, and the default
staging path `/zone/.gocmd_staging` fails the safety check.  `getStagingDir`
returns the default path with a nil error; the only safety check of the call
was on the user path. -/
theorem getStagingDir_fallback_unchecked :
    (quietWorld.IsSafeStagingDir (quietWorld.GetDefaultStagingDir ["zone"])).isSome = true ∧
    (getStagingDir quietWorld stagingCommand "/zone").1 =
      .ret (some (quietWorld.GetDefaultStagingDir ["zone"])) none ∧
    (getStagingDir quietWorld stagingCommand "/zone").2.trace =
      [.stat ["zone", "home", "u", "stage"], .isSafeStagingDir ["zone", "home", "u", "stage"],
        .isSameResourceServer ["zone"] ["zone", "home", "u", "stage"]] ∧
    Event.isSafeStagingDir (quietWorld.GetDefaultStagingDir ["zone"]) ∉
      (getStagingDir quietWorld stagingCommand "/zone").2.trace ∧
    (getStagingDir quietWorld { stagingCommand with IRODSTempPath := "" } "/zone").1 =
      .ret none (some (.Wrap "staging path is not safe" ["zone", ".gocmd_staging"]
        (.Errorf "staging path is not safe" ["zone", ".gocmd_staging"]))) := by
  decide

/-! ### `putFile` -/


theorem schedulePut_eq (w : World) (bput : BputCommand) (sourceStat : FileInfo)
    (sourcePath : Path) :
    schedulePut w bput sourceStat sourcePath =
      (scheduleReturn w sourceStat sourcePath, bput.log (.schedule sourceStat sourcePath)) := by
  unfold schedulePut scheduleReturn Schedule
  cases h : w.Schedule sourceStat sourcePath <;> simp

/-- C5, as amended.  The destination is a data object whose size differs from
the source size.  With differential transfer on, or with force set, `putFile`
schedules the entry straight after `Stat` (no prompt, no hashing), whatever
the other flags and the prompt answers are.  With differential transfer off
and force unset it prompts once and schedules only on "yes"; on "no" it skips
with a `no_overwrite` record. -/
theorem putFile_size_mismatch (w : World) (bput : BputCommand) (sourceStat : FileInfo)
    (sourcePath targetPath : Path) (targetEntry : Entry)
    (hT : w.GetTargetPath sourcePath = .ok targetPath)
    (hS : statResult w bput.filesystem targetPath = .ok targetEntry)
    (hF : targetEntry.IsDir = false)
    (hSize : targetEntry.Size ≠ sourceStat.Size) :
    (bput.DifferentialTransfer = true ∨ bput.Force = true →
      (putFile w bput sourceStat sourcePath).1 = scheduleReturn w sourceStat sourcePath ∧
      (putFile w bput sourceStat sourcePath).2.trace =
        bput.trace ++ [.getTargetPath sourcePath, .markPathMap targetPath, .stat targetPath,
          .schedule sourceStat sourcePath]) ∧
    (bput.DifferentialTransfer = false → bput.Force = false → w.InputYN bput.asked = true →
      (putFile w bput sourceStat sourcePath).1 = scheduleReturn w sourceStat sourcePath ∧
      (putFile w bput sourceStat sourcePath).2.trace =
        bput.trace ++ [.getTargetPath sourcePath, .markPathMap targetPath, .stat targetPath,
          .inputYN "file already exists. Overwrite?" targetPath,
          .schedule sourceStat sourcePath]) ∧
    (bput.DifferentialTransfer = false → bput.Force = false → w.InputYN bput.asked = false →
      (putFile w bput sourceStat sourcePath).1 = .nil ∧
      (putFile w bput sourceStat sourcePath).2.trace =
        bput.trace ++ [.getTargetPath sourcePath, .markPathMap targetPath, .stat targetPath,
          .inputYN "file already exists. Overwrite?" targetPath,
          .addFile
            { Method := .TransferMethodPut, SourcePath := sourcePath,
              SourceSize := sourceStat.Size, DestPath := targetEntry.Path,
              DestSize := targetEntry.Size,
              DestChecksum := hexEncodeToString targetEntry.CheckSum,
              ChecksumAlgorithm := targetEntry.CheckSumAlgorithm,
              Notes := ["no_overwrite", "skip"] }]) := by
  refine ⟨?_, ?_, ?_⟩
  · intro h
    rcases h with h | h
    · cases hN : bput.NoHash <;>
        simp [putFile, GetTargetPath, MarkPathMap, FileSystem.Stat, BputCommand.log, hT, hS, hF,
          putFileTransfer, h, hN, hSize, schedulePut_eq]
    · cases hD : bput.DifferentialTransfer <;> cases hN : bput.NoHash <;>
        simp [putFile, GetTargetPath, MarkPathMap, FileSystem.Stat, BputCommand.log, hT, hS, hF,
          putFileTransfer, h, hD, hN, hSize, schedulePut_eq]
  · intro hD hForce hYes
    simp [putFile, GetTargetPath, MarkPathMap, FileSystem.Stat, BputCommand.log, hT, hS, hF,
      putFileTransfer, hD, hForce, InputYN, hYes, schedulePut_eq]
  · intro hD hForce hNo
    simp [putFile, GetTargetPath, MarkPathMap, FileSystem.Stat, BputCommand.log, hT, hS, hF,
      putFileTransfer, hD, hForce, InputYN, hNo, AddFile]

/-- C6. Differential transfer with no-hash, destination a data object of the
same size: `putFile` returns nil and the only call after `Stat` is the
`AddFile` of one skip record; `Schedule` and `HashLocalFile` are not called. -/
theorem putFile_no_hash_skip (w : World) (bput : BputCommand) (sourceStat : FileInfo)
    (sourcePath targetPath : Path) (targetEntry : Entry)
    (hT : w.GetTargetPath sourcePath = .ok targetPath)
    (hS : statResult w bput.filesystem targetPath = .ok targetEntry)
    (hF : targetEntry.IsDir = false)
    (hD : bput.DifferentialTransfer = true) (hN : bput.NoHash = true)
    (hSize : targetEntry.Size = sourceStat.Size) :
    (putFile w bput sourceStat sourcePath).1 = .nil ∧
    (putFile w bput sourceStat sourcePath).2.trace =
      bput.trace ++ [.getTargetPath sourcePath, .markPathMap targetPath, .stat targetPath,
        .addFile
          { Method := .TransferMethodPut, SourcePath := sourcePath,
            SourceSize := sourceStat.Size, DestPath := targetEntry.Path,
            DestSize := targetEntry.Size,
            ChecksumAlgorithm := targetEntry.CheckSumAlgorithm,
            Notes := ["differential", "no_hash", "same file size", "skip"] }] ∧
    (∀ ev ∈ ((putFile w bput sourceStat sourcePath).2.trace.drop bput.trace.length),
      ev.isSchedule = false ∧ ev.isHash = false) ∧
    (reports ((putFile w bput sourceStat sourcePath).2.trace.drop bput.trace.length)).length = 1 := by
  have htr : (putFile w bput sourceStat sourcePath).2.trace =
      bput.trace ++ [.getTargetPath sourcePath, .markPathMap targetPath, .stat targetPath,
        .addFile
          { Method := .TransferMethodPut, SourcePath := sourcePath,
            SourceSize := sourceStat.Size, DestPath := targetEntry.Path,
            DestSize := targetEntry.Size,
            ChecksumAlgorithm := targetEntry.CheckSumAlgorithm,
            Notes := ["differential", "no_hash", "same file size", "skip"] }] := by
    simp [putFile, GetTargetPath, MarkPathMap, FileSystem.Stat, BputCommand.log, hT, hS, hF,
      putFileTransfer, hD, hN, hSize, AddFile]
  refine ⟨?_, htr, ?_, ?_⟩
  · simp [putFile, GetTargetPath, MarkPathMap, FileSystem.Stat, BputCommand.log, hT, hS, hF,
      putFileTransfer, hD, hN, hSize, AddFile]
  · rw [htr, List.drop_left]
    simp [Event.isSchedule, Event.isHash]
  · rw [htr, List.drop_left]
    simp [reports, Event.report]

/-- C7. Differential transfer with hashing, destination a data object of the
same size with a non-empty checksum: `putFile` calls `HashLocalFile` on the
source with the destination's checksum algorithm right after `Stat`; if the
hash equals the destination checksum it returns nil after one record tagged
"same checksum" (no `Schedule`), otherwise it calls `Schedule` with no
prompt. -/
theorem putFile_checksum_compare (w : World) (bput : BputCommand) (sourceStat : FileInfo)
    (sourcePath targetPath : Path) (targetEntry : Entry)
    (hT : w.GetTargetPath sourcePath = .ok targetPath)
    (hS : statResult w bput.filesystem targetPath = .ok targetEntry)
    (hF : targetEntry.IsDir = false)
    (hD : bput.DifferentialTransfer = true) (hN : bput.NoHash = false)
    (hSize : targetEntry.Size = sourceStat.Size)
    (hC : targetEntry.CheckSum ≠ []) :
    (bput.trace ++ [.getTargetPath sourcePath, .markPathMap targetPath, .stat targetPath,
        .hashLocalFile sourcePath targetEntry.CheckSumAlgorithm]) <+:
      (putFile w bput sourceStat sourcePath).2.trace ∧
    ∀ localChecksum,
      w.HashLocalFile sourcePath targetEntry.CheckSumAlgorithm = .ok localChecksum →
      (localChecksum = targetEntry.CheckSum →
        (putFile w bput sourceStat sourcePath).1 = .nil ∧
        (putFile w bput sourceStat sourcePath).2.trace =
          bput.trace ++ [.getTargetPath sourcePath, .markPathMap targetPath, .stat targetPath,
            .hashLocalFile sourcePath targetEntry.CheckSumAlgorithm,
            .addFile
              { Method := .TransferMethodPut, SourcePath := sourcePath,
                SourceSize := sourceStat.Size,
                SourceChecksum := hexEncodeToString localChecksum,
                DestPath := targetEntry.Path, DestSize := targetEntry.Size,
                DestChecksum := hexEncodeToString targetEntry.CheckSum,
                ChecksumAlgorithm := targetEntry.CheckSumAlgorithm,
                Notes := ["differential", "same checksum", "skip"] }]) ∧
      (localChecksum ≠ targetEntry.CheckSum →
        (putFile w bput sourceStat sourcePath).1 = scheduleReturn w sourceStat sourcePath ∧
        (putFile w bput sourceStat sourcePath).2.trace =
          bput.trace ++ [.getTargetPath sourcePath, .markPathMap targetPath, .stat targetPath,
            .hashLocalFile sourcePath targetEntry.CheckSumAlgorithm,
            .schedule sourceStat sourcePath]) := by
  have hlen : 0 < targetEntry.CheckSum.length := List.length_pos.mpr hC
  constructor
  · cases hH : w.HashLocalFile sourcePath targetEntry.CheckSumAlgorithm with
    | error e =>
      simp [putFile, GetTargetPath, MarkPathMap, FileSystem.Stat, BputCommand.log, hT, hS, hF,
        putFileTransfer, hD, hN, hSize, hlen, HashLocalFile, hH]
    | ok localChecksum =>
      by_cases heq : localChecksum = targetEntry.CheckSum
      · simp [putFile, GetTargetPath, MarkPathMap, FileSystem.Stat, BputCommand.log, hT, hS, hF,
          putFileTransfer, hD, hN, hSize, hlen, HashLocalFile, hH, heq, AddFile]
      · simp [putFile, GetTargetPath, MarkPathMap, FileSystem.Stat, BputCommand.log, hT, hS, hF,
          putFileTransfer, hD, hN, hSize, hlen, HashLocalFile, hH, heq, schedulePut_eq]
  · intro localChecksum hH
    constructor
    · intro heq
      simp [putFile, GetTargetPath, MarkPathMap, FileSystem.Stat, BputCommand.log, hT, hS, hF,
        putFileTransfer, hD, hN, hSize, hlen, HashLocalFile, hH, heq, AddFile]
    · intro heq
      simp [putFile, GetTargetPath, MarkPathMap, FileSystem.Stat, BputCommand.log, hT, hS, hF,
        putFileTransfer, hD, hN, hSize, hlen, HashLocalFile, hH, heq, schedulePut_eq]

/-- C8, as amended.  Differential transfer with hashing, destination a data
object of the same size that carries no checksum: `putFile` calls `Schedule`
straight after `Stat`, with no prompt and no hashing, whether or not force is
set and whatever the prompt answers would be. -/
theorem putFile_no_checksum (w : World) (bput : BputCommand) (sourceStat : FileInfo)
    (sourcePath targetPath : Path) (targetEntry : Entry)
    (hT : w.GetTargetPath sourcePath = .ok targetPath)
    (hS : statResult w bput.filesystem targetPath = .ok targetEntry)
    (hF : targetEntry.IsDir = false)
    (hD : bput.DifferentialTransfer = true) (hN : bput.NoHash = false)
    (hSize : targetEntry.Size = sourceStat.Size)
    (hC : targetEntry.CheckSum = []) :
    (putFile w bput sourceStat sourcePath).1 = scheduleReturn w sourceStat sourcePath ∧
    (putFile w bput sourceStat sourcePath).2.trace =
      bput.trace ++ [.getTargetPath sourcePath, .markPathMap targetPath, .stat targetPath,
        .schedule sourceStat sourcePath] := by
  simp [putFile, GetTargetPath, MarkPathMap, FileSystem.Stat, BputCommand.log, hT, hS, hF,
    putFileTransfer, hD, hN, hSize, hC, schedulePut_eq]

/-- C9. Differential transfer off, destination an existing data object: with
force `putFile` calls `Schedule` with no prompt; without force it prompts
exactly once, and on "no" returns nil after one skip record without calling
`Schedule`, and on "yes" calls `Schedule`. -/
theorem putFile_no_differential (w : World) (bput : BputCommand) (sourceStat : FileInfo)
    (sourcePath targetPath : Path) (targetEntry : Entry)
    (hT : w.GetTargetPath sourcePath = .ok targetPath)
    (hS : statResult w bput.filesystem targetPath = .ok targetEntry)
    (hF : targetEntry.IsDir = false)
    (hD : bput.DifferentialTransfer = false) :
    (bput.Force = true →
      (putFile w bput sourceStat sourcePath).1 = scheduleReturn w sourceStat sourcePath ∧
      (putFile w bput sourceStat sourcePath).2.trace =
        bput.trace ++ [.getTargetPath sourcePath, .markPathMap targetPath, .stat targetPath,
          .schedule sourceStat sourcePath]) ∧
    (bput.Force = false → w.InputYN bput.asked = false →
      (putFile w bput sourceStat sourcePath).1 = .nil ∧
      (putFile w bput sourceStat sourcePath).2.trace =
        bput.trace ++ [.getTargetPath sourcePath, .markPathMap targetPath, .stat targetPath,
          .inputYN "file already exists. Overwrite?" targetPath,
          .addFile
            { Method := .TransferMethodPut, SourcePath := sourcePath,
              SourceSize := sourceStat.Size, DestPath := targetEntry.Path,
              DestSize := targetEntry.Size,
              DestChecksum := hexEncodeToString targetEntry.CheckSum,
              ChecksumAlgorithm := targetEntry.CheckSumAlgorithm,
              Notes := ["no_overwrite", "skip"] }]) ∧
    (bput.Force = false → w.InputYN bput.asked = true →
      (putFile w bput sourceStat sourcePath).1 = scheduleReturn w sourceStat sourcePath ∧
      (putFile w bput sourceStat sourcePath).2.trace =
        bput.trace ++ [.getTargetPath sourcePath, .markPathMap targetPath, .stat targetPath,
          .inputYN "file already exists. Overwrite?" targetPath,
          .schedule sourceStat sourcePath]) := by
  refine ⟨?_, ?_, ?_⟩
  · intro hForce
    simp [putFile, GetTargetPath, MarkPathMap, FileSystem.Stat, BputCommand.log, hT, hS, hF,
      putFileTransfer, hD, hForce, schedulePut_eq]
  · intro hForce hNo
    simp [putFile, GetTargetPath, MarkPathMap, FileSystem.Stat, BputCommand.log, hT, hS, hF,
      putFileTransfer, hD, hForce, InputYN, hNo, AddFile]
  · intro hForce hYes
    simp [putFile, GetTargetPath, MarkPathMap, FileSystem.Stat, BputCommand.log, hT, hS, hF,
      putFileTransfer, hD, hForce, InputYN, hYes, schedulePut_eq]

/-- C10. When the mapped destination is absent (`Stat` answers with a
file-not-found error) `putFile` calls `Schedule` exactly once and makes no
other call after `Stat`: no prompt, no removal, no hashing, whatever the
flags are.  Any other `Stat` error is returned, wrapped, with no call after
`Stat`. -/
theorem putFile_target_absent (w : World) (bput : BputCommand) (sourceStat : FileInfo)
    (sourcePath targetPath : Path) (err : Err)
    (hT : w.GetTargetPath sourcePath = .ok targetPath)
    (hS : statResult w bput.filesystem targetPath = .error err) :
    (IsFileNotFoundError err = true →
      (putFile w bput sourceStat sourcePath).1 = scheduleReturn w sourceStat sourcePath ∧
      (putFile w bput sourceStat sourcePath).2.trace =
        bput.trace ++ [.getTargetPath sourcePath, .markPathMap targetPath, .stat targetPath,
          .schedule sourceStat sourcePath]) ∧
    (IsFileNotFoundError err = false →
      (putFile w bput sourceStat sourcePath).1 = .error (.Wrap "failed to stat" targetPath err) ∧
      (putFile w bput sourceStat sourcePath).2.trace =
        bput.trace ++ [.getTargetPath sourcePath, .markPathMap targetPath, .stat targetPath]) := by
  constructor
  · intro hnf
    simp [putFile, GetTargetPath, MarkPathMap, FileSystem.Stat, BputCommand.log, hT, hS, hnf,
      schedulePut_eq]
  · intro hnf
    simp [putFile, GetTargetPath, MarkPathMap, FileSystem.Stat, BputCommand.log, hT, hS, hnf]

/-! ### `putFile`: examples -/

/-- C5, counterexample.  `/t/B` is a data object of size 2, the source has
size 5, differential transfer and force are off and the prompt is answered
"no": `putFile` returns nil and never calls `Schedule`. -/
theorem putFile_declined_despite_size_change :
    statResult quietWorld plainCommand.filesystem ["t", "B"] =
      .ok (dataObject ["t", "B"] 2 "SHA-256" [1, 2, 3]) ∧
    (dataObject ["t", "B"] 2 "SHA-256" [1, 2, 3]).Size ≠ sourceBGrown.Size ∧
    (putFile quietWorld plainCommand sourceBGrown ["B"]).1 = .nil ∧
    (putFile quietWorld plainCommand sourceBGrown ["B"]).2.trace.any Event.isSchedule = false :=
  ⟨rfl, by decide, by decide, by decide⟩

/-- C5, witness: with differential transfer on, the grown `B` is scheduled. -/
theorem putFile_size_mismatch_witness :
    (putFile quietWorld { plainCommand with DifferentialTransfer := true } sourceBGrown ["B"]).1
      = .nil ∧
    (putFile quietWorld { plainCommand with DifferentialTransfer := true } sourceBGrown
        ["B"]).2.trace =
      [.getTargetPath ["B"], .markPathMap ["t", "B"], .stat ["t", "B"],
        .schedule sourceBGrown ["B"]] :=
  (putFile_size_mismatch quietWorld { plainCommand with DifferentialTransfer := true }
    sourceBGrown ["B"] ["t", "B"] (dataObject ["t", "B"] 2 "SHA-256" [1, 2, 3])
    rfl rfl rfl (by decide)).1 (Or.inl rfl)

/-- C6, witness. -/
theorem putFile_no_hash_skip_witness :
    (putFile quietWorld { plainCommand with DifferentialTransfer := true, NoHash := true }
        sourceB ["B"]).1 = .nil ∧
    (reports ((putFile quietWorld
        { plainCommand with DifferentialTransfer := true, NoHash := true }
        sourceB ["B"]).2.trace.drop 0)).length = 1 :=
  ⟨(putFile_no_hash_skip quietWorld
      { plainCommand with DifferentialTransfer := true, NoHash := true }
      sourceB ["B"] ["t", "B"] (dataObject ["t", "B"] 2 "SHA-256" [1, 2, 3])
      rfl rfl rfl rfl rfl rfl).1,
   (putFile_no_hash_skip quietWorld
      { plainCommand with DifferentialTransfer := true, NoHash := true }
      sourceB ["B"] ["t", "B"] (dataObject ["t", "B"] 2 "SHA-256" [1, 2, 3])
      rfl rfl rfl rfl rfl rfl).2.2.2⟩

/-- C7, witness: the hash of `B` equals the recorded checksum, so `B` is
skipped. -/
theorem putFile_checksum_compare_witness :
    (putFile quietWorld { plainCommand with DifferentialTransfer := true } sourceB ["B"]).1
      = .nil ∧
    (putFile quietWorld { plainCommand with DifferentialTransfer := true } sourceB
        ["B"]).2.trace =
      [.getTargetPath ["B"], .markPathMap ["t", "B"], .stat ["t", "B"],
        .hashLocalFile ["B"] "SHA-256",
        .addFile
          { Method := .TransferMethodPut, SourcePath := ["B"], SourceSize := 2,
            SourceChecksum := "010203", DestPath := ["t", "B"], DestSize := 2,
            DestChecksum := "010203", ChecksumAlgorithm := "SHA-256",
            Notes := ["differential", "same checksum", "skip"] }] :=
  ((putFile_checksum_compare quietWorld { plainCommand with DifferentialTransfer := true }
    sourceB ["B"] ["t", "B"] (dataObject ["t", "B"] 2 "SHA-256" [1, 2, 3])
    rfl rfl rfl rfl rfl rfl (by decide)).2 [1, 2, 3] rfl).1 rfl

/-- C8, counterexample.  `/t/A/x` is a data object of the source's size with
no checksum; differential transfer with hashing is on, force is off and every
prompt would be answered "no": `putFile` schedules the file and never
prompts. -/
theorem putFile_schedules_without_prompt :
    statResult quietWorld plainCommand.filesystem ["t", "A", "x"] =
      .ok (dataObject ["t", "A", "x"] 1 "" []) ∧
    quietWorld.InputYN 0 = false ∧
    (putFile quietWorld { plainCommand with DifferentialTransfer := true } sourceX
        ["A", "x"]).2.trace.any Event.isPrompt = false ∧
    (putFile quietWorld { plainCommand with DifferentialTransfer := true } sourceX
        ["A", "x"]).2.trace.any Event.isSchedule = true ∧
    reports (putFile quietWorld { plainCommand with DifferentialTransfer := true } sourceX
        ["A", "x"]).2.trace = [] :=
  ⟨rfl, by decide, by decide, by decide, by decide⟩

/-- C8, witness. -/
theorem putFile_no_checksum_witness :
    (putFile quietWorld { plainCommand with DifferentialTransfer := true } sourceX
        ["A", "x"]).1 = .nil ∧
    (putFile quietWorld { plainCommand with DifferentialTransfer := true } sourceX
        ["A", "x"]).2.trace =
      [.getTargetPath ["A", "x"], .markPathMap ["t", "A", "x"], .stat ["t", "A", "x"],
        .schedule sourceX ["A", "x"]] :=
  putFile_no_checksum quietWorld { plainCommand with DifferentialTransfer := true } sourceX
    ["A", "x"] ["t", "A", "x"] (dataObject ["t", "A", "x"] 1 "" []) rfl rfl rfl rfl rfl rfl rfl

/-- C9, witness: no force, prompt answered "no". -/
theorem putFile_no_differential_witness :
    (putFile quietWorld plainCommand sourceB ["B"]).1 = .nil ∧
    (putFile quietWorld plainCommand sourceB ["B"]).2.trace =
      [.getTargetPath ["B"], .markPathMap ["t", "B"], .stat ["t", "B"],
        .inputYN "file already exists. Overwrite?" ["t", "B"],
        .addFile
          { Method := .TransferMethodPut, SourcePath := ["B"], SourceSize := 2,
            DestPath := ["t", "B"], DestSize := 2, DestChecksum := "010203",
            ChecksumAlgorithm := "SHA-256", Notes := ["no_overwrite", "skip"] }] :=
  (putFile_no_differential quietWorld plainCommand sourceB ["B"] ["t", "B"]
    (dataObject ["t", "B"] 2 "SHA-256" [1, 2, 3]) rfl rfl rfl rfl).2.1 rfl rfl

/-- C10, witness: `/t/new` does not exist, so `new` is scheduled. -/
theorem putFile_target_absent_witness :
    (putFile quietWorld plainCommand sourceNew ["new"]).1 = .nil ∧
    (putFile quietWorld plainCommand sourceNew ["new"]).2.trace =
      [.getTargetPath ["new"], .markPathMap ["t", "new"], .stat ["t", "new"],
        .schedule sourceNew ["new"]] :=
  (putFile_target_absent quietWorld plainCommand sourceNew ["new"] ["t", "new"]
    (.FileNotFound ["t", "new"]) rfl rfl).1 rfl

/-! ### `putFile`: the destination is a collection -/

theorem newCalls_eq {bput s' : BputCommand} {evs : List Event}
    (h : s'.trace = bput.trace ++ evs) : newCalls bput s' = evs := by
  unfold newCalls
  rw [h, List.drop_left]

/-- What `putFileTransfer` does to the command: the trace grows, nothing else
changes but the prompt count; with force it does not prompt; when it returns
nil it has either called `Schedule` or ended on the `AddFile` of a skip
record. -/
theorem putFileTransfer_calls (w : World) (bput : BputCommand) (sourceStat : FileInfo)
    (sourcePath targetPath : Path) (targetEntry : Entry) :
    (putFileTransfer w bput sourceStat sourcePath targetPath targetEntry).2.trace =
      bput.trace ++
        newCalls bput (putFileTransfer w bput sourceStat sourcePath targetPath targetEntry).2 ∧
    (putFileTransfer w bput sourceStat sourcePath targetPath targetEntry).2.filesystem =
      bput.filesystem ∧
    (putFileTransfer w bput sourceStat sourcePath targetPath targetEntry).2.updatedPathMap =
      bput.updatedPathMap ∧
    removeCalls
      (newCalls bput (putFileTransfer w bput sourceStat sourcePath targetPath targetEntry).2)
      = [] ∧
    (bput.Force = true →
      ∀ ev ∈ newCalls bput
          (putFileTransfer w bput sourceStat sourcePath targetPath targetEntry).2,
        ev.isPrompt = false) ∧
    ((putFileTransfer w bput sourceStat sourcePath targetPath targetEntry).1 = .nil →
      (∃ ev ∈ newCalls bput
          (putFileTransfer w bput sourceStat sourcePath targetPath targetEntry).2,
        ev.isSchedule = true) ∨
      ∃ rec, (newCalls bput
          (putFileTransfer w bput sourceStat sourcePath targetPath targetEntry).2).getLast?
          = some (.addFile rec) ∧
        rec.Method = .TransferMethodPut ∧ "skip" ∈ rec.Notes) := by
  unfold putFileTransfer
  cases hD : bput.DifferentialTransfer with
  | true =>
    cases hN : bput.NoHash with
    | true =>
      by_cases hSz : targetEntry.Size = sourceStat.Size
      · simp [hSz, AddFile, BputCommand.log, newCalls, removeCalls, Event.removeTarget,
          Event.isPrompt]
      · simp [hSz, schedulePut_eq, BputCommand.log, newCalls, removeCalls,
          Event.removeTarget, Event.isPrompt, Event.isSchedule]
    | false =>
      by_cases hSz : targetEntry.Size = sourceStat.Size
      · by_cases hC : 0 < targetEntry.CheckSum.length
        · cases hH : w.HashLocalFile sourcePath targetEntry.CheckSumAlgorithm with
          | error e =>
            simp [hSz, hC, HashLocalFile, hH, BputCommand.log, newCalls, removeCalls,
              Event.removeTarget, Event.isPrompt]
          | ok localChecksum =>
            by_cases heq : localChecksum = targetEntry.CheckSum
            · simp [hSz, hC, HashLocalFile, hH, heq, AddFile, BputCommand.log, newCalls,
                removeCalls, Event.removeTarget, Event.isPrompt]
            · simp [hSz, hC, HashLocalFile, hH, heq, schedulePut_eq, BputCommand.log, newCalls,
                removeCalls, Event.removeTarget, Event.isPrompt, Event.isSchedule]
        · simp [hSz, hC, schedulePut_eq, BputCommand.log, newCalls, removeCalls,
            Event.removeTarget, Event.isPrompt, Event.isSchedule]
      · simp [hSz, schedulePut_eq, BputCommand.log, newCalls, removeCalls,
          Event.removeTarget, Event.isPrompt, Event.isSchedule]
  | false =>
    cases hF : bput.Force with
    | true =>
      simp [schedulePut_eq, BputCommand.log, newCalls, removeCalls, Event.removeTarget,
        Event.isPrompt, Event.isSchedule]
    | false =>
      cases hY : w.InputYN bput.asked with
      | true =>
        simp [InputYN, hY, schedulePut_eq, BputCommand.log, newCalls, removeCalls,
          Event.removeTarget, Event.isSchedule]
      | false =>
        simp [InputYN, hY, AddFile, BputCommand.log, newCalls, removeCalls,
          Event.removeTarget]

theorem newCalls_trans {bput s r : BputCommand} {pre : List Event}
    (h1 : s.trace = bput.trace ++ pre) (h2 : r.trace = s.trace ++ newCalls s r) :
    newCalls bput r = pre ++ newCalls s r := by
  apply newCalls_eq
  rw [h2, h1, List.append_assoc]

theorem afterStat_trace (w : World) (bput : BputCommand) (sourcePath targetPath : Path) :
    (afterStat w bput sourcePath targetPath).trace =
      bput.trace ++ [.getTargetPath sourcePath, .markPathMap targetPath, .stat targetPath] := by
  simp [afterStat, MarkPathMap, BputCommand.log]

/-- `putFile` when the destination exists as a data object. -/
theorem putFile_of_file (w : World) (bput : BputCommand) (sourceStat : FileInfo)
    (sourcePath targetPath : Path) (targetEntry : Entry)
    (hT : w.GetTargetPath sourcePath = .ok targetPath)
    (hS : statResult w bput.filesystem targetPath = .ok targetEntry)
    (hF : targetEntry.IsDir = false) :
    putFile w bput sourceStat sourcePath =
      putFileTransfer w (afterStat w bput sourcePath targetPath) sourceStat sourcePath
        targetPath targetEntry := by
  simp [putFile, GetTargetPath, MarkPathMap, FileSystem.Stat, BputCommand.log, hT, hS, hF,
    afterStat]

/-- `putFile` when the destination exists as a collection. -/
theorem putFile_of_dir (w : World) (bput : BputCommand) (sourceStat : FileInfo)
    (sourcePath targetPath : Path) (targetEntry : Entry)
    (hT : w.GetTargetPath sourcePath = .ok targetPath)
    (hS : statResult w bput.filesystem targetPath = .ok targetEntry)
    (hD : targetEntry.IsDir = true) :
    putFile w bput sourceStat sourcePath =
      if bput.Sync then
        if bput.Force then
          putFileReplaceDir w (afterStat w bput sourcePath targetPath) sourceStat sourcePath
            targetPath targetEntry
        else if w.InputYN bput.asked then
          putFileReplaceDir w
            (InputYN w (afterStat w bput sourcePath targetPath)
              "overwriting a file, but directory exists. Overwrite?" targetPath).2
            sourceStat sourcePath targetPath targetEntry
        else
          (.error (.NotFile targetPath),
            (InputYN w (afterStat w bput sourcePath targetPath)
              "overwriting a file, but directory exists. Overwrite?" targetPath).2)
      else (.error (.NotFile targetPath), afterStat w bput sourcePath targetPath) := by
  cases hSy : bput.Sync <;> cases hFo : bput.Force <;> cases hY : w.InputYN bput.asked <;>
    simp [putFile, GetTargetPath, MarkPathMap, FileSystem.Stat, BputCommand.log, hT, hS, hD,
      afterStat, hSy, hFo, hY, InputYN]

/-- What `putFileReplaceDir` does: it calls `RemoveDir` and reports it; if the
removal fails it returns the error, otherwise it goes on with
`putFileTransfer`. -/
theorem putFileReplaceDir_calls (w : World) (bput : BputCommand) (sourceStat : FileInfo)
    (sourcePath targetPath : Path) (targetEntry : Entry) :
    (putFileReplaceDir w bput sourceStat sourcePath targetPath targetEntry).2.trace =
      bput.trace ++
        newCalls bput (putFileReplaceDir w bput sourceStat sourcePath targetPath targetEntry).2 ∧
    (putFileReplaceDir w bput sourceStat sourcePath targetPath targetEntry).2.updatedPathMap =
      bput.updatedPathMap ∧
    ([.removeDir targetPath true true,
        .addFile
          { Method := .TransferMethodDelete, SourcePath := targetPath,
            Error := w.RemoveDirErr targetPath, Notes := ["overwrite", "put", "dir"] }] <+:
      newCalls bput
        (putFileReplaceDir w bput sourceStat sourcePath targetPath targetEntry).2) ∧
    removeCalls (newCalls bput
        (putFileReplaceDir w bput sourceStat sourcePath targetPath targetEntry).2)
      = [targetPath] ∧
    (bput.Force = true →
      ∀ ev ∈ newCalls bput
          (putFileReplaceDir w bput sourceStat sourcePath targetPath targetEntry).2,
        ev.isPrompt = false) ∧
    ((putFileReplaceDir w bput sourceStat sourcePath targetPath targetEntry).1 = .nil →
      (∃ ev ∈ newCalls bput
          (putFileReplaceDir w bput sourceStat sourcePath targetPath targetEntry).2,
        ev.isSchedule = true) ∨
      ∃ rec, (newCalls bput
          (putFileReplaceDir w bput sourceStat sourcePath targetPath targetEntry).2).getLast?
          = some (.addFile rec) ∧
        rec.Method = .TransferMethodPut ∧ "skip" ∈ rec.Notes) := by
  unfold putFileReplaceDir
  cases hR : w.RemoveDirErr targetPath with
  | some err =>
    simp [FileSystem.RemoveDir, hR, AddFile, BputCommand.log, newCalls, removeCalls,
      Event.removeTarget, Event.isPrompt]
  | none =>
    simp only [FileSystem.RemoveDir, hR, AddFile]
    obtain ⟨htr, -, hmap, hrem, hprompt, hnil⟩ := putFileTransfer_calls w
      (({ bput.log (.removeDir targetPath true true) with
          filesystem := fsRemoveDir (bput.log (.removeDir targetPath true true)).filesystem
            targetPath } : BputCommand).log
        (.addFile { Method := .TransferMethodDelete, SourcePath := targetPath,
                    Error := none, Notes := ["overwrite", "put", "dir"] }))
      sourceStat sourcePath targetPath targetEntry
    have hcalls := newCalls_trans
      (show _ = bput.trace ++ [.removeDir targetPath true true,
        .addFile { Method := .TransferMethodDelete, SourcePath := targetPath,
                   Error := none, Notes := ["overwrite", "put", "dir"] }] by
        simp [BputCommand.log]) htr
    rw [hcalls]
    refine ⟨?_, hmap, ?_, ?_, ?_, ?_⟩
    · rw [htr]
      simp [BputCommand.log]
    · exact List.prefix_append _ _
    · simp only [removeCalls, List.filterMap_append] at hrem ⊢
      rw [hrem]
      simp [Event.removeTarget]
    · intro hF ev hev
      rcases List.mem_append.mp hev with h | h
      · simp only [List.mem_cons, List.mem_singleton, List.not_mem_nil, or_false] at h
        rcases h with rfl | rfl <;> rfl
      · exact hprompt hF ev h
    · intro h
      rcases hnil h with ⟨ev, hev, hs⟩ | ⟨rec, hlast, hm, hn⟩
      · exact Or.inl ⟨ev, List.mem_append_right _ hev, hs⟩
      · refine Or.inr ⟨rec, ?_, hm, hn⟩
        rw [List.getLast?_append, hlast]
        rfl

/-- What every run of `putFile` satisfies.  (1) The trace only grows.  (2) When
`putFile` returns nil it has either called `Schedule` or ended on the `AddFile`
of a skip record.  (3) Every `RemoveDir` call is reported by a `Delete`
record that carries its error. -/
theorem putFile_calls (w : World) (bput : BputCommand) (sourceStat : FileInfo)
    (sourcePath : Path) :
    (putFile w bput sourceStat sourcePath).2.trace =
      bput.trace ++ newCalls bput (putFile w bput sourceStat sourcePath).2 ∧
    ((putFile w bput sourceStat sourcePath).1 = .nil →
      (∃ ev ∈ newCalls bput (putFile w bput sourceStat sourcePath).2, ev.isSchedule = true) ∨
      ∃ rec, (newCalls bput (putFile w bput sourceStat sourcePath).2).getLast?
          = some (.addFile rec) ∧
        rec.Method = .TransferMethodPut ∧ "skip" ∈ rec.Notes) ∧
    (∀ path recurse force,
      Event.removeDir path recurse force ∈
        newCalls bput (putFile w bput sourceStat sourcePath).2 →
      Event.addFile
        { Method := .TransferMethodDelete, SourcePath := path,
          Error := w.RemoveDirErr path, Notes := ["overwrite", "put", "dir"] } ∈
        newCalls bput (putFile w bput sourceStat sourcePath).2) := by
  cases hT : w.GetTargetPath sourcePath with
  | error e =>
    simp [putFile, GetTargetPath, hT, BputCommand.log, newCalls]
  | ok targetPath =>
    cases hS : statResult w bput.filesystem targetPath with
    | error e =>
      cases hnf : IsFileNotFoundError e <;>
        simp [putFile, GetTargetPath, MarkPathMap, FileSystem.Stat, BputCommand.log, hT, hS,
          hnf, schedulePut_eq, newCalls, Event.isSchedule]
    | ok targetEntry =>
      have h3 := afterStat_trace w bput sourcePath targetPath
      cases hD : targetEntry.IsDir with
      | false =>
        rw [putFile_of_file w bput sourceStat sourcePath targetPath targetEntry hT hS hD]
        obtain ⟨htr, -, -, hrem, -, hnil⟩ := putFileTransfer_calls w
          (afterStat w bput sourcePath targetPath) sourceStat sourcePath targetPath targetEntry
        rw [newCalls_trans h3 htr]
        refine ⟨by rw [htr, h3, List.append_assoc], ?_, ?_⟩
        · intro h
          rcases hnil h with ⟨ev, hev, hs⟩ | ⟨rec, hlast, hm, hn⟩
          · exact Or.inl ⟨ev, List.mem_append_right _ hev, hs⟩
          · refine Or.inr ⟨rec, ?_, hm, hn⟩
            rw [List.getLast?_append, hlast]
            rfl
        · intro path recurse force hmem
          rcases List.mem_append.mp hmem with h | h
          · simp at h
          · have : path ∈ removeCalls (newCalls (afterStat w bput sourcePath targetPath)
                (putFileTransfer w (afterStat w bput sourcePath targetPath) sourceStat
                  sourcePath targetPath targetEntry).2) :=
              mem_removeCalls.mpr ⟨_, h, rfl⟩
            rw [hrem] at this
            simp at this
      | true =>
        rw [putFile_of_dir w bput sourceStat sourcePath targetPath targetEntry hT hS hD]
        have replace : ∀ (s : BputCommand) (pre : List Event), s.trace = bput.trace ++ pre →
            (∀ path recurse force, Event.removeDir path recurse force ∉ pre) →
            (putFileReplaceDir w s sourceStat sourcePath targetPath targetEntry).2.trace =
              bput.trace ++ newCalls bput
                (putFileReplaceDir w s sourceStat sourcePath targetPath targetEntry).2 ∧
            ((putFileReplaceDir w s sourceStat sourcePath targetPath targetEntry).1 = .nil →
              (∃ ev ∈ newCalls bput
                  (putFileReplaceDir w s sourceStat sourcePath targetPath targetEntry).2,
                ev.isSchedule = true) ∨
              ∃ rec, (newCalls bput
                  (putFileReplaceDir w s sourceStat sourcePath targetPath
                    targetEntry).2).getLast? = some (.addFile rec) ∧
                rec.Method = .TransferMethodPut ∧ "skip" ∈ rec.Notes) ∧
            (∀ path recurse force,
              Event.removeDir path recurse force ∈ newCalls bput
                (putFileReplaceDir w s sourceStat sourcePath targetPath targetEntry).2 →
              Event.addFile
                { Method := .TransferMethodDelete, SourcePath := path,
                  Error := w.RemoveDirErr path, Notes := ["overwrite", "put", "dir"] } ∈
                newCalls bput
                  (putFileReplaceDir w s sourceStat sourcePath targetPath targetEntry).2) := by
          intro s pre hs hpre
          obtain ⟨htr, -, hrec, hrem, -, hnil⟩ := putFileReplaceDir_calls w s sourceStat
            sourcePath targetPath targetEntry
          rw [newCalls_trans hs htr]
          refine ⟨by rw [htr, hs, List.append_assoc], ?_, ?_⟩
          · intro h
            rcases hnil h with ⟨ev, hev, hsch⟩ | ⟨rec, hlast, hm, hn⟩
            · exact Or.inl ⟨ev, List.mem_append_right _ hev, hsch⟩
            · refine Or.inr ⟨rec, ?_, hm, hn⟩
              rw [List.getLast?_append, hlast]
              rfl
          · intro path recurse force hmem
            rcases List.mem_append.mp hmem with h | h
            · exact absurd h (hpre path recurse force)
            · have hp : path ∈ removeCalls (newCalls s
                  (putFileReplaceDir w s sourceStat sourcePath targetPath targetEntry).2) :=
                mem_removeCalls.mpr ⟨_, h, rfl⟩
              rw [hrem, List.mem_singleton] at hp
              subst hp
              exact List.mem_append_right _ (hrec.subset (by simp))
        cases hSy : bput.Sync with
        | false =>
          simp [h3, newCalls]
        | true =>
          cases hFo : bput.Force with
          | true =>
            simp only [if_true]
            exact replace _ _ h3 (by simp)
          | false =>
            cases hY : w.InputYN bput.asked with
            | true =>
              simp only [if_true, Bool.false_eq_true, if_false]
              refine replace _
                [.getTargetPath sourcePath, .markPathMap targetPath, .stat targetPath,
                  .inputYN "overwriting a file, but directory exists. Overwrite?" targetPath]
                ?_ (by simp)
              simp [InputYN, BputCommand.log, h3]
            | false =>
              simp [InputYN, BputCommand.log, h3, newCalls]

/-- C11, failing input.  The destination `/t/C` of the local file `C` is a
collection and its recursive removal succeeds.
First run: sync, force, differential transfer and no-hash are set and `C` is
empty.  `putFile` removes the collection, then compares the size of `C` with
the size recorded for the removed collection, appends a "same file size" skip
record and returns nil; `Schedule` is never called and nothing is left at
`/t/C`.
Second run: sync is set, force is not, differential transfer is off, and the
first prompt is answered "yes", the second "no".  `putFile` removes the
collection, prompts a second time, and skips `C` without calling
`Schedule`. -/
theorem putFile_replace_without_schedule :
    (statResult quietWorld plainCommand.filesystem ["t", "C"] = .ok (collection ["t", "C"]) ∧
    quietWorld.RemoveDirErr ["t", "C"] = none ∧
    (putFile quietWorld
        { plainCommand with
          Sync := true, Force := true, DifferentialTransfer := true, NoHash := true }
        sourceEmptyC ["C"]).1 = .nil ∧
    (putFile quietWorld
        { plainCommand with
          Sync := true, Force := true, DifferentialTransfer := true, NoHash := true }
        sourceEmptyC ["C"]).2.trace =
      [.getTargetPath ["C"], .markPathMap ["t", "C"], .stat ["t", "C"],
        .removeDir ["t", "C"] true true,
        .addFile
          { Method := .TransferMethodDelete, SourcePath := ["t", "C"],
            Notes := ["overwrite", "put", "dir"] },
        .addFile
          { Method := .TransferMethodPut, SourcePath := ["C"], SourceSize := 0,
            DestPath := ["t", "C"], DestSize := 0,
            Notes := ["differential", "no_hash", "same file size", "skip"] }] ∧
    fsStat (putFile quietWorld
        { plainCommand with
          Sync := true, Force := true, DifferentialTransfer := true, NoHash := true }
        sourceEmptyC ["C"]).2.filesystem ["t", "C"] = none) ∧
    ((putFile { quietWorld with InputYN := fun n => decide (n = 0) }
        { plainCommand with Sync := true } sourceC ["C"]).1 = .nil ∧
    (putFile { quietWorld with InputYN := fun n => decide (n = 0) }
        { plainCommand with Sync := true } sourceC ["C"]).2.trace =
      [.getTargetPath ["C"], .markPathMap ["t", "C"], .stat ["t", "C"],
        .inputYN "overwriting a file, but directory exists. Overwrite?" ["t", "C"],
        .removeDir ["t", "C"] true true,
        .addFile
          { Method := .TransferMethodDelete, SourcePath := ["t", "C"],
            Notes := ["overwrite", "put", "dir"] },
        .inputYN "file already exists. Overwrite?" ["t", "C"],
        .addFile
          { Method := .TransferMethodPut, SourcePath := ["C"], SourceSize := 4,
            DestPath := ["t", "C"], DestSize := 0, DestChecksum := "",
            Notes := ["no_overwrite", "skip"] }]) :=
  ⟨⟨rfl, by decide, by decide, by decide, by decide⟩, by decide, by decide⟩

/-- C12. The destination is an existing collection.  Without sync `putFile`
returns a `NotFileError` right after `Stat`; with sync, without force and
with the prompt answered "no" it returns a `NotFileError` right after the
prompt.  In both cases nothing is removed and nothing is scheduled.  Whenever
sync is not set or force is set, `putFile` issues no prompt at all. -/
theorem putFile_type_conflict (w : World) (bput : BputCommand) (sourceStat : FileInfo)
    (sourcePath targetPath : Path) (targetEntry : Entry)
    (hT : w.GetTargetPath sourcePath = .ok targetPath)
    (hS : statResult w bput.filesystem targetPath = .ok targetEntry)
    (hD : targetEntry.IsDir = true) :
    (bput.Sync = false →
      (putFile w bput sourceStat sourcePath).1 = .error (.NotFile targetPath) ∧
      (putFile w bput sourceStat sourcePath).2.trace =
        bput.trace ++ [.getTargetPath sourcePath, .markPathMap targetPath, .stat targetPath] ∧
      (putFile w bput sourceStat sourcePath).2.filesystem = bput.filesystem) ∧
    (bput.Sync = true → bput.Force = false → w.InputYN bput.asked = false →
      (putFile w bput sourceStat sourcePath).1 = .error (.NotFile targetPath) ∧
      (putFile w bput sourceStat sourcePath).2.trace =
        bput.trace ++ [.getTargetPath sourcePath, .markPathMap targetPath, .stat targetPath,
          .inputYN "overwriting a file, but directory exists. Overwrite?" targetPath] ∧
      (putFile w bput sourceStat sourcePath).2.filesystem = bput.filesystem) ∧
    (bput.Sync = false ∨ bput.Force = true →
      ∀ ev ∈ newCalls bput (putFile w bput sourceStat sourcePath).2, ev.isPrompt = false) := by
  have h3 := afterStat_trace w bput sourcePath targetPath
  rw [putFile_of_dir w bput sourceStat sourcePath targetPath targetEntry hT hS hD]
  refine ⟨?_, ?_, ?_⟩
  · intro hSy
    simp [hSy, h3, afterStat, MarkPathMap, BputCommand.log]
  · intro hSy hFo hY
    simp [hSy, hFo, hY, InputYN, BputCommand.log, h3, afterStat, MarkPathMap]
  · intro h
    cases hSy : bput.Sync with
    | false =>
      simp [newCalls, h3, Event.isPrompt]
    | true =>
      have hFo : bput.Force = true := by
        rcases h with h | h
        · rw [hSy] at h
          exact absurd h (by decide)
        · exact h
      simp only [hFo, if_true]
      obtain ⟨htr, -, -, -, hprompt, -⟩ := putFileReplaceDir_calls w
        (afterStat w bput sourcePath targetPath) sourceStat sourcePath targetPath targetEntry
      rw [newCalls_trans h3 htr]
      intro ev hev
      rcases List.mem_append.mp hev with h' | h'
      · simp only [List.mem_cons, List.mem_singleton, List.not_mem_nil, or_false] at h'
        rcases h' with rfl | rfl | rfl <;> rfl
      · exact hprompt (by simpa [afterStat, MarkPathMap, BputCommand.log] using hFo) ev h'

/-- C12, witness: `/t/C` is a collection and sync is off. -/
theorem putFile_type_conflict_witness :
    (putFile quietWorld plainCommand sourceC ["C"]).1 = .error (.NotFile ["t", "C"]) ∧
    (putFile quietWorld plainCommand sourceC ["C"]).2.trace =
      [.getTargetPath ["C"], .markPathMap ["t", "C"], .stat ["t", "C"]] ∧
    (putFile quietWorld plainCommand sourceC ["C"]).2.filesystem = plainCommand.filesystem :=
  (putFile_type_conflict quietWorld plainCommand sourceC ["C"] ["t", "C"]
    (collection ["t", "C"]) rfl rfl rfl).1 rfl

/-- C13, counterexample.  `/t/C` is a collection and sync is off: `putFile`
ends in a conflict (`NotFileError`) and appends no report record. -/
theorem putFile_conflict_without_record :
    statResult quietWorld plainCommand.filesystem ["t", "C"] = .ok (collection ["t", "C"]) ∧
    (putFile quietWorld plainCommand sourceC ["C"]).1 = .error (.NotFile ["t", "C"]) ∧
    reports (putFile quietWorld plainCommand sourceC ["C"]).2.trace = [] :=
  ⟨rfl, by decide, by decide⟩

/-- C13, as amended.  For every run of `putFile`: (1) a skip, that is a nil
return with no `Schedule` call, ends on the `AddFile` of a `Put` record tagged
"skip"; (2) every removal of a collection in the way is reported by a `Delete`
record for that path carrying the removal error (nil when it succeeded);
(3) a conflict, that is a collection at the destination without sync or with
the overwrite prompt declined, returns a `NotFileError` and appends no
record. -/
theorem putFile_reports (w : World) (bput : BputCommand) (sourceStat : FileInfo)
    (sourcePath : Path) :
    ((putFile w bput sourceStat sourcePath).1 = .nil →
      (∀ ev ∈ newCalls bput (putFile w bput sourceStat sourcePath).2, ev.isSchedule = false) →
      ∃ rec, (newCalls bput (putFile w bput sourceStat sourcePath).2).getLast?
          = some (.addFile rec) ∧
        rec.Method = .TransferMethodPut ∧ "skip" ∈ rec.Notes) ∧
    (∀ path recurse force,
      Event.removeDir path recurse force ∈
        newCalls bput (putFile w bput sourceStat sourcePath).2 →
      Event.addFile
        { Method := .TransferMethodDelete, SourcePath := path,
          Error := w.RemoveDirErr path, Notes := ["overwrite", "put", "dir"] } ∈
        newCalls bput (putFile w bput sourceStat sourcePath).2) ∧
    (∀ targetPath targetEntry, w.GetTargetPath sourcePath = .ok targetPath →
      statResult w bput.filesystem targetPath = .ok targetEntry → targetEntry.IsDir = true →
      bput.Sync = false ∨ (bput.Force = false ∧ w.InputYN bput.asked = false) →
      (putFile w bput sourceStat sourcePath).1 = .error (.NotFile targetPath) ∧
      reports (newCalls bput (putFile w bput sourceStat sourcePath).2) = []) := by
  obtain ⟨-, hskip, hrep⟩ := putFile_calls w bput sourceStat sourcePath
  refine ⟨?_, hrep, ?_⟩
  · intro hnil hno
    rcases hskip hnil with ⟨ev, hev, hs⟩ | h
    · rw [hno ev hev] at hs
      exact absurd hs (by decide)
    · exact h
  · intro targetPath targetEntry hT hS hD hc
    have h3 := afterStat_trace w bput sourcePath targetPath
    rw [putFile_of_dir w bput sourceStat sourcePath targetPath targetEntry hT hS hD]
    cases hSy : bput.Sync with
    | false => simp [newCalls, h3, reports, Event.report]
    | true =>
      rcases hc with hc | ⟨hFo, hY⟩
      · rw [hSy] at hc
        exact absurd hc (by decide)
      · simp [hFo, hY, InputYN, BputCommand.log, newCalls, h3, reports, Event.report]

/-- C13, witness: with differential transfer and no-hash, `B` is skipped and
the run ends on its skip record. -/
theorem putFile_reports_witness :
    ∃ rec, (newCalls { plainCommand with DifferentialTransfer := true, NoHash := true }
        (putFile quietWorld { plainCommand with DifferentialTransfer := true, NoHash := true }
          sourceB ["B"]).2).getLast? = some (.addFile rec) ∧
      rec.Method = .TransferMethodPut ∧ "skip" ∈ rec.Notes :=
  (putFile_reports quietWorld { plainCommand with DifferentialTransfer := true, NoHash := true }
    sourceB ["B"]).1 (by decide) (by decide)

/-! ### `deleteExtra`: a failing remove call ends the pass -/

theorem FailFast.of_quiet {w : World} {evs : List Event} (r : Return)
    (h : ∀ ev ∈ evs, ev.removeFailure w = none) : FailFast w evs r := by
  intro pre ev post err hsplit hfail
  have hmem : ev ∈ evs := by
    rw [hsplit]
    exact List.mem_append_right _ (List.mem_cons_self _ _)
  rw [h ev hmem] at hfail
  exact absurd hfail (by simp)

theorem FailFast.quiet_of_nil {w : World} {evs : List Event} (h : FailFast w evs .nil) :
    ∀ ev ∈ evs, ev.removeFailure w = none := by
  intro ev hev
  obtain ⟨pre, post, hsplit⟩ := List.append_of_mem hev
  cases hf : ev.removeFailure w with
  | none => rfl
  | some err => exact absurd (h pre ev post err hsplit hf).1 (by simp)

theorem FailFast.after_quiet {w : World} {evs1 evs2 : List Event} {r : Return}
    (h1 : ∀ ev ∈ evs1, ev.removeFailure w = none) (h2 : FailFast w evs2 r) :
    FailFast w (evs1 ++ evs2) r := by
  intro pre ev post err hsplit hfail
  rcases List.append_eq_append_iff.mp hsplit with ⟨a, hpre, hevs2⟩ | ⟨c, hevs1, hrest⟩
  · exact h2 a ev post err hevs2 hfail
  · cases c with
    | nil =>
      simp only [List.nil_append] at hrest
      exact h2 [] ev post err (by simpa using hrest.symm) hfail
    | cons x c =>
      simp only [List.cons_append, List.cons.injEq] at hrest
      have hmem : ev ∈ evs1 := by
        rw [hevs1, ← hrest.1]
        exact List.mem_append_right _ (List.mem_cons_self _ _)
      rw [h1 ev hmem] at hfail
      exact absurd hfail (by simp)

theorem FailFast.of_removal (w : World) (p : Path) (ev : Event) (rec : TransferReportFile)
    (hstat : (Event.stat p).removeFailure w = none) (htarget : ev.removeTarget = some p)
    (hm : rec.Method = .TransferMethodDelete) (hp : rec.SourcePath = p)
    (he : rec.Error = ev.removeFailure w) :
    FailFast w [.stat p, ev, .addFile rec]
      (match ev.removeFailure w with
        | some err => .error err
        | none => .nil) := by
  intro pre ev' post err hsplit hfail
  cases pre with
  | nil =>
    simp only [List.nil_append, List.cons.injEq] at hsplit
    rw [← hsplit.1, hstat] at hfail
    exact absurd hfail (by simp)
  | cons a pre =>
    cases pre with
    | nil =>
      simp only [List.cons_append, List.nil_append, List.cons.injEq] at hsplit
      obtain ⟨-, hev, hpost⟩ := hsplit
      subst hev
      rw [hfail]
      exact ⟨rfl, rec, hpost.symm, hm, he.trans hfail, by rw [htarget, hp]⟩
    | cons b pre =>
      cases pre with
      | nil =>
        simp only [List.cons_append, List.nil_append, List.cons.injEq] at hsplit
        rw [← hsplit.2.2.1] at hfail
        simp [Event.removeFailure] at hfail
      | cons c pre =>
        simp at hsplit

theorem forEachPath_failFast (w : World) (fuel : Nat)
    (ih : ∀ (bput : BputCommand) (c : Path),
      ∃ evs, (deleteExtraInternal w fuel bput c).2.trace = bput.trace ++ evs ∧
        FailFast w evs (deleteExtraInternal w fuel bput c).1) :
    ∀ (cs : List Path) (bput : BputCommand),
      ∃ evs, (forEachPath (deleteExtraInternal w fuel) bput cs).2.trace = bput.trace ++ evs ∧
        FailFast w evs (forEachPath (deleteExtraInternal w fuel) bput cs).1 := by
  intro cs
  induction cs with
  | nil =>
    intro bput
    exact ⟨[], by simp [forEachPath], FailFast.of_quiet _ (by simp)⟩
  | cons c rest ihl =>
    intro bput
    obtain ⟨evs1, htr1, hf1⟩ := ih bput c
    rw [forEachPath]
    cases hc : deleteExtraInternal w fuel bput c with
    | mk r s1 =>
      rw [hc] at htr1 hf1
      cases r with
      | nil =>
        obtain ⟨evs2, htr2, hf2⟩ := ihl s1
        refine ⟨evs1 ++ evs2, ?_, FailFast.after_quiet hf1.quiet_of_nil hf2⟩
        simp only at htr1 ⊢
        rw [htr2, htr1, List.append_assoc]
      | error err => exact ⟨evs1, htr1, hf1⟩
      | exhausted => exact ⟨evs1, htr1, hf1⟩

/-- Every run of `deleteExtraInternal` is fail-fast. -/
theorem deleteExtraInternal_failFast (w : World) :
    ∀ (fuel : Nat) (bput : BputCommand) (p : Path),
      ∃ evs, (deleteExtraInternal w fuel bput p).2.trace = bput.trace ++ evs ∧
        FailFast w evs (deleteExtraInternal w fuel bput p).1 := by
  intro fuel
  induction fuel with
  | zero =>
    intro bput p
    exact ⟨[], by simp [deleteExtraInternal], FailFast.of_quiet _ (by simp)⟩
  | succ fuel ih =>
    intro bput p
    rw [deleteExtraInternal]
    simp only [FileSystem.Stat]
    cases hS : statResult w bput.filesystem p with
    | error err =>
      exact ⟨[.stat p], rfl, FailFast.of_quiet _ (by simp [Event.removeFailure])⟩
    | ok e =>
      cases hd : e.IsDir with
      | false =>
        by_cases hT : p ∈ bput.updatedPathMap
        · simp only [hd, BputCommand.log, hT, Bool.not_false, if_true, not_true_eq_false,
            if_false]
          exact ⟨[.stat p], rfl, FailFast.of_quiet _ (by simp [Event.removeFailure])⟩
        · have hff := FailFast.of_removal w p (.removeFile p true)
            { Method := .TransferMethodDelete, SourcePath := p,
              Error := w.RemoveFileErr p, Notes := ["extra", "put"] }
            rfl rfl rfl rfl rfl
          cases hR : w.RemoveFileErr p with
          | some err =>
            simp only [hd, BputCommand.log, hT, FileSystem.RemoveFile, hR, AddFile,
              Bool.not_false, if_true, not_false_eq_true]
            simp only [Event.removeFailure, hR] at hff
            exact ⟨_, by simp, hff⟩
          | none =>
            simp only [hd, BputCommand.log, hT, FileSystem.RemoveFile, hR, AddFile,
              Bool.not_false, if_true, not_false_eq_true]
            simp only [Event.removeFailure, hR] at hff
            exact ⟨_, by simp, hff⟩
      | true =>
        by_cases hT : p ∈ bput.updatedPathMap
        · cases hL : w.ListErr p with
          | some err =>
            simp only [hd, BputCommand.log, hT, FileSystem.List, hL, Bool.not_true,
              Bool.false_eq_true, if_false, not_true_eq_false]
            exact ⟨[.stat p, .list p], by simp,
              FailFast.of_quiet _ (by simp [Event.removeFailure])⟩
          | none =>
            simp only [hd, BputCommand.log, hT, FileSystem.List, hL, Bool.not_true,
              Bool.false_eq_true, if_false, not_true_eq_false]
            obtain ⟨evs, htr, hff⟩ := forEachPath_failFast w fuel ih
              ((fsList bput.filesystem p).map (fun entry => p ++ [entry.Name]))
              { bput with trace := bput.trace ++ [.stat p] ++ [.list p] }
            refine ⟨[.stat p, .list p] ++ evs, ?_, ?_⟩
            · rw [htr]
              simp
            · exact FailFast.after_quiet (by simp [Event.removeFailure]) hff
        · have hff := FailFast.of_removal w p (.removeDir p true true)
            { Method := .TransferMethodDelete, SourcePath := p,
              Error := w.RemoveDirErr p, Notes := ["extra", "put", "dir"] }
            rfl rfl rfl rfl rfl
          cases hR : w.RemoveDirErr p with
          | some err =>
            simp only [hd, BputCommand.log, hT, FileSystem.RemoveDir, hR, AddFile,
              Bool.not_true, Bool.false_eq_true, if_false, if_true, not_false_eq_true]
            simp only [Event.removeFailure, hR] at hff
            exact ⟨_, by simp, hff⟩
          | none =>
            simp only [hd, BputCommand.log, hT, FileSystem.RemoveDir, hR, AddFile,
              Bool.not_true, Bool.false_eq_true, if_false, if_true, not_false_eq_true]
            simp only [Event.removeFailure, hR] at hff
            exact ⟨_, by simp, hff⟩

/-- C17. For every run of `deleteExtraInternal` and every remove call of the
run that fails: the only call after it is the `AddFile` of a `Delete` record
for the same path that carries the error, and the run returns that error.  No
`Stat`, `List` or remove call follows the failure. -/
theorem deleteExtraInternal_fail_fast (w : World) (fuel : Nat) (bput : BputCommand)
    (targetPath : Path) (pre : List Event) (ev : Event) (post : List Event) (err : Err)
    (hsplit : newCalls bput (deleteExtraInternal w fuel bput targetPath).2 = pre ++ ev :: post)
    (hfail : ev.removeFailure w = some err) :
    (deleteExtraInternal w fuel bput targetPath).1 = .error err ∧
    ∃ rec, post = [.addFile rec] ∧ rec.Method = .TransferMethodDelete ∧
      rec.Error = some err ∧ ev.removeTarget = some rec.SourcePath := by
  obtain ⟨evs, htr, hff⟩ := deleteExtraInternal_failFast w fuel bput targetPath
  rw [newCalls_eq htr] at hsplit
  exact hff pre ev post err hsplit hfail

/-- C17, witness: the removal of `/t/B` fails; the pass records the failure,
returns the error and never looks at `/t/C`. -/
theorem deleteExtraInternal_fail_fast_witness :
    (deleteExtraInternal
        { quietWorld with
          RemoveFileErr := fun p => if p = ["t", "B"] then some (.Remote 13) else none }
        4 plainCommand ["t"]).1 = .error (.Remote 13) ∧
    ∃ rec, [Event.addFile
          { Method := .TransferMethodDelete, SourcePath := ["t", "B"],
            Error := some (.Remote 13), Notes := ["extra", "put"] }] = [.addFile rec] ∧
      rec.Method = .TransferMethodDelete ∧ rec.Error = some (.Remote 13) ∧
      (Event.removeFile ["t", "B"] true).removeTarget = some rec.SourcePath :=
  deleteExtraInternal_fail_fast
    { quietWorld with
      RemoveFileErr := fun p => if p = ["t", "B"] then some (.Remote 13) else none }
    4 plainCommand ["t"]
    [.stat ["t"], .list ["t"], .stat ["t", "A"], .list ["t", "A"], .stat ["t", "A", "x"],
      .stat ["t", "B"]]
    (.removeFile ["t", "B"] true)
    [.addFile
      { Method := .TransferMethodDelete, SourcePath := ["t", "B"],
        Error := some (.Remote 13), Notes := ["extra", "put"] }]
    (.Remote 13) (by decide) (by decide)

/-! ### `getStagingDir`: a user staging path that does not exist yet -/

/-- C19, failing input.  The user staging path `/zone/home/u/fresh` does not
exist, its creation succeeds, it is safe, and `IsSameResourceServer` reports
another resource server than the target's.  `getStagingDir` creates the
collection and then stops in a nil dereference at `tempEntry.IsDir()`: it
returns no default path, it never reaches the safety and resource checks, and
it leaves the collection it created behind.  (For the existing collection
`/zone/home/u/stage` the same world does fall back to the default path.) -/
theorem getStagingDir_created_path_no_fallback :
    statResult quietWorld stagingCommand.filesystem ["zone", "home", "u", "fresh"] =
      .error (.FileNotFound ["zone", "home", "u", "fresh"]) ∧
    quietWorld.MakeDirErr ["zone", "home", "u", "fresh"] = none ∧
    quietWorld.IsSafeStagingDir ["zone", "home", "u", "fresh"] = none ∧
    (getStagingDir quietWorld { stagingCommand with IRODSTempPath := "/zone/home/u/fresh" }
        "/zone/home/u/data").1 = .panic ∧
    (getStagingDir quietWorld { stagingCommand with IRODSTempPath := "/zone/home/u/fresh" }
        "/zone/home/u/data").2.trace =
      [.stat ["zone", "home", "u", "fresh"], .makeDir ["zone", "home", "u", "fresh"] true] ∧
    fsStat (getStagingDir quietWorld
        { stagingCommand with IRODSTempPath := "/zone/home/u/fresh" }
        "/zone/home/u/data").2.filesystem ["zone", "home", "u", "fresh"] =
      some (collection ["zone", "home", "u", "fresh"]) ∧
    (getStagingDir quietWorld stagingCommand "/zone/home/u/data").1 =
      .ret (some ["zone", "home", "u", "data", ".gocmd_staging"]) none :=
  ⟨rfl, by decide, by decide, by decide, by decide, by decide, by decide⟩

/-- C20, failing input, in general.  Whenever the user staging path does not
exist (`Stat` answers file-not-found) and `MakeDir` succeeds, `getStagingDir`
makes exactly the calls `Stat` and `MakeDir` and then dereferences the nil
entry that `Stat` returned: the run stops in a panic, before any safety or
resource check, and returns no staging path. -/
theorem getStagingDir_nil_entry (w : World) (bput : BputCommand) (targetPath : String)
    (err : Err)
    (hU : bput.IRODSTempPath.length > 0)
    (hS : statResult w bput.filesystem (w.MakeIRODSPath bput.IRODSTempPath) = .error err)
    (hnf : IsFileNotFoundError err = true)
    (hM : w.MakeDirErr (w.MakeIRODSPath bput.IRODSTempPath) = none) :
    (getStagingDir w bput targetPath).1 = .panic ∧
    (getStagingDir w bput targetPath).2.trace =
      bput.trace ++ [.stat (w.MakeIRODSPath bput.IRODSTempPath),
        .makeDir (w.MakeIRODSPath bput.IRODSTempPath) true] ∧
    (getStagingDir w bput targetPath).2.filesystem =
      fsMakeDir bput.filesystem (w.MakeIRODSPath bput.IRODSTempPath) true := by
  simp [getStagingDir, hU, FileSystem.Stat, hS, hnf, FileSystem.MakeDir, hM, getStagingDirUser,
    BputCommand.log]

/-- C20, witness. -/
theorem getStagingDir_nil_entry_witness :
    (getStagingDir quietWorld { stagingCommand with IRODSTempPath := "/zone/home/u/fresh" }
        "/zone").1 = .panic ∧
    (getStagingDir quietWorld { stagingCommand with IRODSTempPath := "/zone/home/u/fresh" }
        "/zone").2.trace =
      [.stat ["zone", "home", "u", "fresh"], .makeDir ["zone", "home", "u", "fresh"] true] ∧
    (getStagingDir quietWorld { stagingCommand with IRODSTempPath := "/zone/home/u/fresh" }
        "/zone").2.filesystem =
      fsMakeDir stagingCommand.filesystem ["zone", "home", "u", "fresh"] true :=
  getStagingDir_nil_entry quietWorld { stagingCommand with IRODSTempPath := "/zone/home/u/fresh" }
    "/zone" (.FileNotFound ["zone", "home", "u", "fresh"]) (by decide) rfl rfl rfl

/-! ### The walker: commands only grow -/

theorem Grows.refl (w : World) (a : BputCommand) : Grows w a a :=
  ⟨List.prefix_refl _, fun _ _ h => h⟩

theorem Grows.trans {w : World} {a b c : BputCommand} (h1 : Grows w a b) (h2 : Grows w b c) :
    Grows w a c :=
  ⟨h1.trace.trans h2.trace, fun hm q hq => h2.marks hm q (h1.marks hm q hq)⟩

/-- A later state that differs in the trace by a suffix and has the same
touched set. -/
theorem Grows.of_same {w : World} {a b : BputCommand} (ht : a.trace <+: b.trace)
    (hm : b.updatedPathMap = a.updatedPathMap) : Grows w a b :=
  ⟨ht, fun _ _ hq => hm ▸ hq⟩

/-- A later state in which one more path was marked. -/
theorem Grows.of_mark {w : World} {a b : BputCommand} (p : Path) (ht : a.trace <+: b.trace)
    (hm : b.updatedPathMap = w.MarkPathMap a.updatedPathMap p) : Grows w a b :=
  ⟨ht, fun h q hq => hm ▸ (h _ _).2 q hq⟩

theorem afterStat_grows (w : World) (bput : BputCommand) (sourcePath targetPath : Path) :
    Grows w bput (afterStat w bput sourcePath targetPath) :=
  Grows.of_mark targetPath (by simp [afterStat_trace]) rfl

theorem putFileTransfer_grows (w : World) (bput : BputCommand) (sourceStat : FileInfo)
    (sourcePath targetPath : Path) (targetEntry : Entry) :
    Grows w bput (putFileTransfer w bput sourceStat sourcePath targetPath targetEntry).2 := by
  obtain ⟨htr, -, hmap, -⟩ := putFileTransfer_calls w bput sourceStat sourcePath targetPath
    targetEntry
  exact Grows.of_same (by rw [htr]; exact List.prefix_append _ _) hmap

theorem putFileReplaceDir_grows (w : World) (bput : BputCommand) (sourceStat : FileInfo)
    (sourcePath targetPath : Path) (targetEntry : Entry) :
    Grows w bput (putFileReplaceDir w bput sourceStat sourcePath targetPath targetEntry).2 := by
  obtain ⟨htr, hmap, -⟩ := putFileReplaceDir_calls w bput sourceStat sourcePath targetPath
    targetEntry
  exact Grows.of_same (by rw [htr]; exact List.prefix_append _ _) hmap

/-- Once `GetTargetPath` has answered, the rest of `putFile` starts from the
command after `Stat` and only adds to it. -/
theorem putFile_after_stat (w : World) (bput : BputCommand) (sourceStat : FileInfo)
    (sourcePath targetPath : Path) (hT : w.GetTargetPath sourcePath = .ok targetPath) :
    Grows w (afterStat w bput sourcePath targetPath) (putFile w bput sourceStat sourcePath).2 := by
  cases hS : statResult w bput.filesystem targetPath with
  | error e =>
    cases hnf : IsFileNotFoundError e <;>
    · apply Grows.of_same <;>
        simp [putFile, GetTargetPath, MarkPathMap, FileSystem.Stat, BputCommand.log, hT, hS,
          hnf, schedulePut_eq, afterStat]
  | ok targetEntry =>
    cases hD : targetEntry.IsDir with
    | false =>
      rw [putFile_of_file w bput sourceStat sourcePath targetPath targetEntry hT hS hD]
      exact putFileTransfer_grows _ _ _ _ _ _
    | true =>
      rw [putFile_of_dir w bput sourceStat sourcePath targetPath targetEntry hT hS hD]
      cases hSy : bput.Sync with
      | false => exact Grows.refl _ _
      | true =>
        cases hFo : bput.Force with
        | true => exact putFileReplaceDir_grows _ _ _ _ _ _
        | false =>
          have hask : Grows w (afterStat w bput sourcePath targetPath)
              (InputYN w (afterStat w bput sourcePath targetPath)
                "overwriting a file, but directory exists. Overwrite?" targetPath).2 :=
            Grows.of_same (by simp [InputYN, BputCommand.log]) rfl
          cases hY : w.InputYN bput.asked with
          | true => exact hask.trans (putFileReplaceDir_grows _ _ _ _ _ _)
          | false => exact hask

theorem putFile_grows (w : World) (bput : BputCommand) (sourceStat : FileInfo)
    (sourcePath : Path) : Grows w bput (putFile w bput sourceStat sourcePath).2 := by
  cases hT : w.GetTargetPath sourcePath with
  | error e =>
    apply Grows.of_same <;> simp [putFile, GetTargetPath, hT, BputCommand.log]
  | ok targetPath =>
    exact (afterStat_grows w bput sourcePath targetPath).trans
      (putFile_after_stat w bput sourceStat sourcePath targetPath hT)

theorem forEachPath_grows (w : World) (body : BputCommand → Path → Return × BputCommand)
    (h : ∀ b c, Grows w b (body b c).2) :
    ∀ (cs : List Path) (bput : BputCommand), Grows w bput (forEachPath body bput cs).2 := by
  intro cs
  induction cs with
  | nil => exact fun bput => Grows.refl w bput
  | cons c rest ih =>
    intro bput
    have hc := h bput c
    rw [forEachPath]
    cases hrun : body bput c with
    | mk r s1 =>
      rw [hrun] at hc
      cases r with
      | nil => exact hc.trans (ih s1)
      | error err => exact hc
      | exhausted => exact hc

/-- The loop body starts with `os.Stat` on the entry and only adds to the
command after it. -/
theorem putDirEntry_grows (w : World)
    (putDir : BputCommand → FileInfo → Path → Return × BputCommand)
    (h : ∀ b st p, Grows w b (putDir b st p).2) (bput : BputCommand) (entryPath : Path) :
    Grows w (bput.log (.osStat entryPath)) (putDirEntry w putDir bput entryPath).2 := by
  unfold putDirEntry OsStat
  cases hO : w.OsStat entryPath with
  | error err =>
    cases hne : IsNotExist err <;> simp [hne] <;> exact Grows.refl _ _
  | ok entryStat =>
    cases hd : entryStat.IsDir with
    | true =>
      simp only [hd, if_true]
      exact h _ _ _
    | false =>
      simp only [hd, Bool.false_eq_true, if_false]
      exact putFile_grows _ _ _ _

theorem log_grows (w : World) (bput : BputCommand) (ev : Event) : Grows w bput (bput.log ev) :=
  Grows.of_same (by simp [BputCommand.log]) rfl

/-- The children loop starts with `os.ReadDir` and only adds to the command
after it. -/
theorem putDirChildren_grows (w : World)
    (putDir : BputCommand → FileInfo → Path → Return × BputCommand)
    (h : ∀ b st p, Grows w b (putDir b st p).2) (bput : BputCommand) (sourcePath : Path) :
    Grows w (bput.log (.osReadDir sourcePath)) (putDirChildren w putDir bput sourcePath).2 := by
  unfold putDirChildren ReadDir
  cases hR : w.ReadDir sourcePath with
  | error err => exact Grows.refl _ _
  | ok entries =>
    exact forEachPath_grows w _
      (fun b c => (log_grows w b (.osStat c)).trans (putDirEntry_grows w putDir h b c)) _ _

theorem putDirReplaceFile_grows (w : World)
    (putDir : BputCommand → FileInfo → Path → Return × BputCommand)
    (h : ∀ b st p, Grows w b (putDir b st p).2) (bput : BputCommand)
    (sourcePath targetPath : Path) :
    Grows w bput (putDirReplaceFile w putDir bput sourcePath targetPath).2 := by
  unfold putDirReplaceFile
  cases hR : w.RemoveFileErr targetPath with
  | some err =>
    apply Grows.of_same <;> simp [FileSystem.RemoveFile, hR, AddFile, BputCommand.log]
  | none =>
    simp only [FileSystem.RemoveFile, hR, AddFile]
    refine Grows.trans ?_ ((log_grows w _ (.osReadDir sourcePath)).trans
      (putDirChildren_grows w putDir h _ sourcePath))
    apply Grows.of_same <;> simp [BputCommand.log]

/-- `putDir` when the destination does not exist. -/
theorem putDir_of_absent (w : World) (fuel : Nat) (bput : BputCommand) (sourceStat : FileInfo)
    (sourcePath targetPath : Path) (e : Err)
    (hT : w.GetTargetPath sourcePath = .ok targetPath)
    (hS : statResult w bput.filesystem targetPath = .error e)
    (hnf : IsFileNotFoundError e = true) :
    putDir w (fuel + 1) bput sourceStat sourcePath =
      match w.MakeDirErr targetPath with
      | some err =>
        (.error (.Wrap "failed to make a collection" targetPath err),
          (afterStat w bput sourcePath targetPath).log (.makeDir targetPath true))
      | none =>
        putDirChildren w (putDir w fuel)
          (AddFile (FileSystem.MakeDir w (afterStat w bput sourcePath targetPath) targetPath
              true).2
            { Method := .TransferMethodPut, SourcePath := sourcePath,
              DestPath := targetPath, Notes := ["directory"] })
          sourcePath := by
  cases hM : w.MakeDirErr targetPath <;>
    simp [putDir, GetTargetPath, MarkPathMap, FileSystem.Stat, BputCommand.log, hT, hS, hnf,
      afterStat, FileSystem.MakeDir, hM]

/-- `putDir` when `Stat` fails with another error than file-not-found. -/
theorem putDir_of_stat_error (w : World) (fuel : Nat) (bput : BputCommand)
    (sourceStat : FileInfo) (sourcePath targetPath : Path) (e : Err)
    (hT : w.GetTargetPath sourcePath = .ok targetPath)
    (hS : statResult w bput.filesystem targetPath = .error e)
    (hnf : IsFileNotFoundError e = false) :
    putDir w (fuel + 1) bput sourceStat sourcePath =
      (.error (.Wrap "failed to stat" targetPath e), afterStat w bput sourcePath targetPath) := by
  simp [putDir, GetTargetPath, MarkPathMap, FileSystem.Stat, BputCommand.log, hT, hS, hnf,
    afterStat]

/-- `putDir` when the destination exists as a collection. -/
theorem putDir_of_dir (w : World) (fuel : Nat) (bput : BputCommand) (sourceStat : FileInfo)
    (sourcePath targetPath : Path) (targetEntry : Entry)
    (hT : w.GetTargetPath sourcePath = .ok targetPath)
    (hS : statResult w bput.filesystem targetPath = .ok targetEntry)
    (hD : targetEntry.IsDir = true) :
    putDir w (fuel + 1) bput sourceStat sourcePath =
      putDirChildren w (putDir w fuel) (afterStat w bput sourcePath targetPath) sourcePath := by
  simp [putDir, GetTargetPath, MarkPathMap, FileSystem.Stat, BputCommand.log, hT, hS, hD,
    afterStat]

/-- `putDir` when the destination exists as a data object. -/
theorem putDir_of_file (w : World) (fuel : Nat) (bput : BputCommand) (sourceStat : FileInfo)
    (sourcePath targetPath : Path) (targetEntry : Entry)
    (hT : w.GetTargetPath sourcePath = .ok targetPath)
    (hS : statResult w bput.filesystem targetPath = .ok targetEntry)
    (hF : targetEntry.IsDir = false) :
    putDir w (fuel + 1) bput sourceStat sourcePath =
      if bput.Sync then
        if bput.Force then
          putDirReplaceFile w (putDir w fuel) (afterStat w bput sourcePath targetPath)
            sourcePath targetPath
        else if w.InputYN bput.asked then
          putDirReplaceFile w (putDir w fuel)
            (InputYN w (afterStat w bput sourcePath targetPath)
              "overwriting a directory, but file exists. Overwrite?" targetPath).2
            sourcePath targetPath
        else
          (.error (.NotDir targetPath),
            (InputYN w (afterStat w bput sourcePath targetPath)
              "overwriting a directory, but file exists. Overwrite?" targetPath).2)
      else (.error (.NotDir targetPath), afterStat w bput sourcePath targetPath) := by
  cases hSy : bput.Sync <;> cases hFo : bput.Force <;> cases hY : w.InputYN bput.asked <;>
    simp [putDir, GetTargetPath, MarkPathMap, FileSystem.Stat, BputCommand.log, hT, hS, hF,
      afterStat, hSy, hFo, hY, InputYN]

/-- Once `GetTargetPath` has answered, the rest of `putDir` starts from the
command after `Stat` and only adds to it. -/
theorem putDir_after_stat (w : World) (fuel : Nat)
    (h : ∀ b st p, Grows w b (putDir w fuel b st p).2)
    (bput : BputCommand) (sourceStat : FileInfo) (sourcePath targetPath : Path)
    (hT : w.GetTargetPath sourcePath = .ok targetPath) :
    Grows w (afterStat w bput sourcePath targetPath)
      (putDir w (fuel + 1) bput sourceStat sourcePath).2 := by
  have children : ∀ s, Grows w s (putDirChildren w (putDir w fuel) s sourcePath).2 :=
    fun s => (log_grows w s (.osReadDir sourcePath)).trans
      (putDirChildren_grows w (putDir w fuel) h s sourcePath)
  cases hS : statResult w bput.filesystem targetPath with
  | error e =>
    cases hnf : IsFileNotFoundError e with
    | false =>
      rw [putDir_of_stat_error w fuel bput sourceStat sourcePath targetPath e hT hS hnf]
      exact Grows.refl _ _
    | true =>
      rw [putDir_of_absent w fuel bput sourceStat sourcePath targetPath e hT hS hnf]
      cases hM : w.MakeDirErr targetPath with
      | some err => exact log_grows _ _ _
      | none =>
        refine Grows.trans ?_ (children _)
        exact Grows.of_same (by simp [FileSystem.MakeDir, hM, AddFile, BputCommand.log])
          (by simp [FileSystem.MakeDir, hM, AddFile, BputCommand.log])
  | ok targetEntry =>
    cases hD : targetEntry.IsDir with
    | true =>
      rw [putDir_of_dir w fuel bput sourceStat sourcePath targetPath targetEntry hT hS hD]
      exact children _
    | false =>
      rw [putDir_of_file w fuel bput sourceStat sourcePath targetPath targetEntry hT hS hD]
      cases hSy : bput.Sync with
      | false => exact Grows.refl _ _
      | true =>
        cases hFo : bput.Force with
        | true => exact putDirReplaceFile_grows w _ h _ _ _
        | false =>
          have hask : Grows w (afterStat w bput sourcePath targetPath)
              (InputYN w (afterStat w bput sourcePath targetPath)
                "overwriting a directory, but file exists. Overwrite?" targetPath).2 :=
            Grows.of_same (by simp [InputYN, BputCommand.log]) rfl
          cases hY : w.InputYN bput.asked with
          | true => exact hask.trans (putDirReplaceFile_grows w _ h _ _ _)
          | false => exact hask

/-- However `putDir` ends, the command it leaves is a later state of the
command it was called on. -/
theorem putDir_grows (w : World) :
    ∀ (fuel : Nat) (bput : BputCommand) (sourceStat : FileInfo) (sourcePath : Path),
      Grows w bput (putDir w fuel bput sourceStat sourcePath).2 := by
  intro fuel
  induction fuel with
  | zero =>
    intro bput sourceStat sourcePath
    exact Grows.refl _ _
  | succ fuel ih =>
    intro bput sourceStat sourcePath
    cases hT : w.GetTargetPath sourcePath with
    | error e =>
      rw [putDir]
      simp only [GetTargetPath, hT]
      exact log_grows _ _ _
    | ok targetPath =>
      exact (afterStat_grows w bput sourcePath targetPath).trans
        (putDir_after_stat w fuel ih bput sourceStat sourcePath targetPath hT)

theorem bputOne_grows (w : World) (fuel : Nat) (bput : BputCommand) (sourcePath : String) :
    Grows w bput (bputOne w fuel bput sourcePath).2 := by
  simp only [bputOne, OsStat]
  cases hO : w.OsStat (w.MakeLocalPath sourcePath) with
  | error err =>
    cases hne : IsNotExist err <;> simp only [hne, Bool.false_eq_true, if_true, if_false] <;>
      exact log_grows _ _ _
  | ok sourceStat =>
    cases hd : sourceStat.IsDir with
    | true =>
      simp only [hd, if_true]
      exact (log_grows _ _ _).trans (putDir_grows w fuel _ _ _)
    | false =>
      simp only [hd, Bool.false_eq_true, if_false]
      exact (log_grows _ _ _).trans (putFile_grows w _ _ _)

/-- C14. Let `MarkPathMap` insert the path it is given and keep the others.
For every `putFile` call and every `putDir` call whose target-path mapping
succeeds, the first three calls are `GetTargetPath`, `MarkPathMap` on the
mapped path and `Stat` on it, in this order; the command on which `Stat` is
called already holds the mapped path in `updatedPathMap`; and the mapped path
is in `updatedPathMap` when the call returns, however it ends.  Every path
that is in `updatedPathMap` before a `putFile`, `putDir` or `bputOne` call is
still in it afterwards. -/
theorem walker_marks (w : World) (hmark : MarkPathMapInserts w) (fuel : Nat)
    (bput : BputCommand) (sourceStat : FileInfo) (sourcePath : Path) :
    (∀ targetPath, w.GetTargetPath sourcePath = .ok targetPath →
      targetPath ∈
        (MarkPathMap w (bput.log (.getTargetPath sourcePath)) targetPath).updatedPathMap ∧
      (bput.trace ++ [.getTargetPath sourcePath, .markPathMap targetPath, .stat targetPath] <+:
          (putFile w bput sourceStat sourcePath).2.trace ∧
        targetPath ∈ (putFile w bput sourceStat sourcePath).2.updatedPathMap) ∧
      (bput.trace ++ [.getTargetPath sourcePath, .markPathMap targetPath, .stat targetPath] <+:
          (putDir w (fuel + 1) bput sourceStat sourcePath).2.trace ∧
        targetPath ∈ (putDir w (fuel + 1) bput sourceStat sourcePath).2.updatedPathMap)) ∧
    (∀ q ∈ bput.updatedPathMap,
      q ∈ (putFile w bput sourceStat sourcePath).2.updatedPathMap ∧
      q ∈ (putDir w fuel bput sourceStat sourcePath).2.updatedPathMap) ∧
    (∀ source, ∀ q ∈ bput.updatedPathMap, q ∈ (bputOne w fuel bput source).2.updatedPathMap) := by
  refine ⟨?_, ?_, ?_⟩
  · intro targetPath hT
    have hin : targetPath ∈ (afterStat w bput sourcePath targetPath).updatedPathMap :=
      (hmark bput.updatedPathMap targetPath).1
    have hf := putFile_after_stat w bput sourceStat sourcePath targetPath hT
    have hd := putDir_after_stat w fuel (putDir_grows w fuel) bput sourceStat sourcePath
      targetPath hT
    have htr := afterStat_trace w bput sourcePath targetPath
    refine ⟨(hmark bput.updatedPathMap targetPath).1, ⟨?_, hf.marks hmark _ hin⟩,
      ⟨?_, hd.marks hmark _ hin⟩⟩
    · rw [← htr]
      exact hf.trace
    · rw [← htr]
      exact hd.trace
  · intro q hq
    exact ⟨(putFile_grows w bput sourceStat sourcePath).marks hmark q hq,
      (putDir_grows w fuel bput sourceStat sourcePath).marks hmark q hq⟩
  · intro source q hq
    exact (bputOne_grows w fuel bput source).marks hmark q hq

/-- C14, witness: the walk of the local directory `d` ends in a conflict at
`/t/d/C`, and `/t/d` is touched all the same. -/
theorem walker_marks_witness :
    (putDir quietWorld 2 walkCommand sourceD ["d"]).1 = .error (.NotFile ["t", "d", "C"]) ∧
    ([.getTargetPath ["d"], .markPathMap ["t", "d"], .stat ["t", "d"]] <+:
        (putDir quietWorld 2 walkCommand sourceD ["d"]).2.trace ∧
      ["t", "d"] ∈ (putDir quietWorld 2 walkCommand sourceD ["d"]).2.updatedPathMap) :=
  ⟨by decide,
    ((walker_marks quietWorld
      (fun _ _ => ⟨List.mem_cons_self _ _, fun _ hq => List.mem_cons_of_mem _ hq⟩)
      1 walkCommand sourceD ["d"]).1 ["t", "d"] rfl).2.2⟩

/-! ### The walker: children in listing order, first failure ends the walk -/

/-- The loop stops at the first entry whose body does not return nil, with the
result and the command that this body left. -/
theorem forEachPath_first_failure (body : BputCommand → Path → Return × BputCommand) :
    ∀ (before : List Path) (c : Path) (after : List Path) (s s1 s2 : BputCommand) (r : Return),
      forEachPath body s before = (.nil, s1) → body s1 c = (r, s2) → r ≠ .nil →
      forEachPath body s (before ++ c :: after) = (r, s2) := by
  intro before
  induction before with
  | nil =>
    intro c after s s1 s2 r hb hc hr
    simp only [forEachPath, Prod.mk.injEq, true_and] at hb
    subst hb
    simp only [List.nil_append, forEachPath, hc]
  | cons b before ih =>
    intro c after s s1 s2 r hb hc hr
    simp only [List.cons_append, forEachPath] at hb ⊢
    cases hrun : body s b with
    | mk rb sb =>
      rw [hrun] at hb
      cases rb with
      | nil =>
        simp only at hb ⊢
        exact ih c after sb s1 s2 r hb hc hr
      | error err => simp at hb
      | exhausted => simp at hb

theorem putFile_starts (w : World) (bput : BputCommand) (sourceStat : FileInfo)
    (sourcePath : Path) :
    bput.trace ++ [.getTargetPath sourcePath] <+: (putFile w bput sourceStat sourcePath).2.trace := by
  cases hT : w.GetTargetPath sourcePath with
  | error e => simp [putFile, GetTargetPath, hT, BputCommand.log]
  | ok targetPath =>
    refine List.IsPrefix.trans ?_
      (putFile_after_stat w bput sourceStat sourcePath targetPath hT).trace
    rw [afterStat_trace]
    exact (List.prefix_append_right_inj _).mpr ⟨_, rfl⟩

theorem putDir_starts (w : World) (fuel : Nat) (bput : BputCommand) (sourceStat : FileInfo)
    (sourcePath : Path) :
    bput.trace ++ [.getTargetPath sourcePath] <+:
      (putDir w (fuel + 1) bput sourceStat sourcePath).2.trace := by
  cases hT : w.GetTargetPath sourcePath with
  | error e =>
    rw [putDir]
    simp [GetTargetPath, hT, BputCommand.log]
  | ok targetPath =>
    refine List.IsPrefix.trans ?_
      (putDir_after_stat w fuel (putDir_grows w fuel) bput sourceStat sourcePath targetPath
        hT).trace
    rw [afterStat_trace]
    exact (List.prefix_append_right_inj _).mpr ⟨_, rfl⟩

/-- An entry whose body returns nil was looked at by `os.Stat` and then handed
to `putDir` or `putFile`, which began with `GetTargetPath`. -/
theorem putDirEntry_nil (w : World) (fuel : Nat) (bput : BputCommand) (entryPath : Path)
    (h : (putDirEntry w (putDir w fuel) bput entryPath).1 = .nil) :
    bput.trace ++ [.osStat entryPath, .getTargetPath entryPath] <+:
      (putDirEntry w (putDir w fuel) bput entryPath).2.trace := by
  unfold putDirEntry OsStat at h ⊢
  cases hO : w.OsStat entryPath with
  | error err =>
    rw [hO] at h
    cases hne : IsNotExist err <;> simp [hne] at h
  | ok entryStat =>
    rw [hO] at h
    have hlog : bput.trace ++ [.osStat entryPath, .getTargetPath entryPath] =
        (bput.log (.osStat entryPath)).trace ++ [.getTargetPath entryPath] := by
      simp [BputCommand.log]
    rw [hlog]
    cases hd : entryStat.IsDir with
    | true =>
      simp only [hd, if_true] at h ⊢
      cases fuel with
      | zero => simp [putDir] at h
      | succ k => exact putDir_starts w k _ _ _
    | false =>
      simp only [hd, Bool.false_eq_true, if_false]
      exact putFile_starts w _ _ _

theorem mem_newCalls {a b : BputCommand} {l : List Event} (h : a.trace ++ l <+: b.trace) :
    ∀ e ∈ l, e ∈ newCalls a b := by
  obtain ⟨t, ht⟩ := h
  intro e he
  simp only [newCalls, ← ht, List.append_assoc, List.drop_left]
  exact List.mem_append_left _ he

theorem newCalls_mono {a s b : BputCommand} (h1 : a.trace <+: s.trace)
    (h2 : s.trace <+: b.trace) : ∀ e ∈ newCalls s b, e ∈ newCalls a b := by
  obtain ⟨t1, ht1⟩ := h1
  obtain ⟨t2, ht2⟩ := h2
  intro e he
  have hs : newCalls s b = t2 := by simp [newCalls, ← ht2]
  have ha : newCalls a b = t1 ++ t2 := by simp [newCalls, ← ht2, ← ht1]
  rw [hs] at he
  rw [ha]
  exact List.mem_append_right _ he

/-- When the loop over the entries returns nil, every entry was decided: it
was looked at by `os.Stat` and handed to `putDir` or `putFile`. -/
theorem forEachPath_all_entries (w : World) (fuel : Nat) :
    ∀ (cs : List Path) (bput : BputCommand),
      (forEachPath (putDirEntry w (putDir w fuel)) bput cs).1 = .nil →
      ∀ c ∈ cs,
        .osStat c ∈ newCalls bput (forEachPath (putDirEntry w (putDir w fuel)) bput cs).2 ∧
        .getTargetPath c ∈
          newCalls bput (forEachPath (putDirEntry w (putDir w fuel)) bput cs).2 := by
  intro cs
  induction cs with
  | nil =>
    intro bput _ c hc
    simp at hc
  | cons b rest ih =>
    intro bput h c hc
    rw [forEachPath] at h ⊢
    have hstart := putDirEntry_nil w fuel bput b
    have hgrow := (log_grows w bput (.osStat b)).trans
      (putDirEntry_grows w (putDir w fuel) (putDir_grows w fuel) bput b)
    cases hrun : putDirEntry w (putDir w fuel) bput b with
    | mk rb sb =>
      rw [hrun] at h hstart hgrow
      cases rb with
      | error err => simp at h
      | exhausted => simp at h
      | nil =>
        simp only at h ⊢
        have hrest := (forEachPath_grows w _
          (fun s p => (log_grows w s (.osStat p)).trans
            (putDirEntry_grows w (putDir w fuel) (putDir_grows w fuel) s p))
          rest sb).trace
        rcases List.mem_cons.mp hc with rfl | hin
        · have hmem := mem_newCalls ((hstart rfl).trans hrest)
          exact ⟨hmem _ (by simp), hmem _ (by simp)⟩
        · have hih := ih sb h c hin
          exact ⟨newCalls_mono hgrow.trace hrest _ hih.1,
            newCalls_mono hgrow.trace hrest _ hih.2⟩

/-! ### `putDir`: a data object in the way of the collection -/

/-- When the children loop of a directory returns nil, every listed entry was
looked at by `os.Stat` and handed to `putDir` or `putFile`. -/
theorem putDirChildren_all_entries (w : World) (fuel : Nat) (bput : BputCommand)
    (sourcePath : Path) (names : List String) (hR : w.ReadDir sourcePath = .ok names)
    (hnil : (putDirChildren w (putDir w fuel) bput sourcePath).1 = .nil) :
    ∀ n ∈ names,
      .osStat (sourcePath ++ [n]) ∈
        newCalls bput (putDirChildren w (putDir w fuel) bput sourcePath).2 ∧
      .getTargetPath (sourcePath ++ [n]) ∈
        newCalls bput (putDirChildren w (putDir w fuel) bput sourcePath).2 := by
  have hgrow := (putDirChildren_grows w (putDir w fuel) (putDir_grows w fuel) bput
    sourcePath).trace
  have hlog := (log_grows w bput (.osReadDir sourcePath)).trace
  unfold putDirChildren ReadDir at hnil hgrow ⊢
  rw [hR] at hnil hgrow ⊢
  simp only at hnil hgrow ⊢
  intro n hn
  have h := forEachPath_all_entries w fuel _ _ hnil (sourcePath ++ [n])
    (List.mem_map.mpr ⟨n, hn, rfl⟩)
  exact ⟨newCalls_mono hlog hgrow _ h.1, newCalls_mono hlog hgrow _ h.2⟩

theorem putDirRemoved_calls (w : World) (bput : BputCommand) (sourcePath targetPath : Path) :
    newCalls bput (putDirRemoved w bput sourcePath targetPath) =
      [.getTargetPath sourcePath, .markPathMap targetPath, .stat targetPath] ++
        (if bput.Force then []
          else [.inputYN "overwriting a directory, but file exists. Overwrite?" targetPath]) ++
        [.removeFile targetPath true,
          .addFile { Method := .TransferMethodDelete, SourcePath := targetPath,
                     Error := w.RemoveFileErr targetPath, Notes := ["overwrite", "put"] }] := by
  apply newCalls_eq
  cases hFo : bput.Force <;> cases hR : w.RemoveFileErr targetPath <;>
    simp [putDirRemoved, hFo, hR, FileSystem.RemoveFile, AddFile, InputYN, afterStat,
      MarkPathMap, BputCommand.log]

theorem putDirRemoved_filesystem (w : World) (bput : BputCommand)
    (sourcePath targetPath : Path) :
    (putDirRemoved w bput sourcePath targetPath).filesystem =
      match w.RemoveFileErr targetPath with
      | some _ => bput.filesystem
      | none => fsRemoveFile bput.filesystem targetPath := by
  cases hFo : bput.Force <;> cases hR : w.RemoveFileErr targetPath <;>
    simp [putDirRemoved, hFo, hR, FileSystem.RemoveFile, AddFile, InputYN, afterStat,
      MarkPathMap, BputCommand.log]

theorem putDir_of_file_removed (w : World) (fuel : Nat) (bput : BputCommand)
    (sourceStat : FileInfo) (sourcePath targetPath : Path) (targetEntry : Entry)
    (hT : w.GetTargetPath sourcePath = .ok targetPath)
    (hS : statResult w bput.filesystem targetPath = .ok targetEntry)
    (hF : targetEntry.IsDir = false) (hSy : bput.Sync = true)
    (hgo : bput.Force = true ∨ w.InputYN bput.asked = true) :
    putDir w (fuel + 1) bput sourceStat sourcePath =
      match w.RemoveFileErr targetPath with
      | some err => (.error err, putDirRemoved w bput sourcePath targetPath)
      | none =>
        putDirChildren w (putDir w fuel) (putDirRemoved w bput sourcePath targetPath)
          sourcePath := by
  rw [putDir_of_file w fuel bput sourceStat sourcePath targetPath targetEntry hT hS hF]
  cases hFo : bput.Force with
  | true =>
    cases hR : w.RemoveFileErr targetPath <;>
      simp [hSy, putDirReplaceFile, putDirRemoved, hFo, hR, FileSystem.RemoveFile, AddFile]
  | false =>
    have hY : w.InputYN bput.asked = true := by
      rcases hgo with h | h
      · rw [hFo] at h
        cases h
      · exact h
    cases hR : w.RemoveFileErr targetPath <;>
      simp [hSy, hY, putDirReplaceFile, putDirRemoved, hFo, hR, FileSystem.RemoveFile,
        AddFile]

/-- C15. `putDir` walks the entries of the source directory in listing order,
each one to its end before the next, and stops at the first entry that fails.
(1) If the entries before `name` return nil one after the other and the entry
`name` then returns `r ≠ nil`, the children loop returns `r` as it is, and the
command it leaves is the command that the failing entry left: no entry after
`name` is stat'ed, decided or scheduled.  (2) On each of its three ways into
the children loop a `putDir` call returns what the loop returns: when the
destination is an existing collection (from the command after `Stat`), when
the destination was missing and `MakeDir` succeeded (from the command after
the `MakeDir` and its report), and when a data object in the way was removed
(from the command after the `RemoveFile` and its report).  (3) For an entry
that is a directory the loop body returns what the nested `putDir` returns, so
a failure deep in the tree travels up unchanged; and `bputOne` returns what
the top-level `putDir` returns. -/
theorem putDir_fail_fast (w : World) (fuel : Nat) (bput : BputCommand) (sourcePath : Path) :
    (∀ (before : List String) (name : String) (after : List String) (s1 s2 : BputCommand)
        (r : Return),
      w.ReadDir sourcePath = .ok (before ++ name :: after) →
      forEachPath (putDirEntry w (putDir w fuel)) (bput.log (.osReadDir sourcePath))
        (before.map (fun n => sourcePath ++ [n])) = (.nil, s1) →
      putDirEntry w (putDir w fuel) s1 (sourcePath ++ [name]) = (r, s2) → r ≠ .nil →
      putDirChildren w (putDir w fuel) bput sourcePath = (r, s2)) ∧
    (∀ (sourceStat : FileInfo) (targetPath : Path),
      w.GetTargetPath sourcePath = .ok targetPath →
      (∀ targetEntry, statResult w bput.filesystem targetPath = .ok targetEntry →
        targetEntry.IsDir = true →
        putDir w (fuel + 1) bput sourceStat sourcePath =
          putDirChildren w (putDir w fuel) (afterStat w bput sourcePath targetPath)
            sourcePath) ∧
      (∀ e, statResult w bput.filesystem targetPath = .error e →
        IsFileNotFoundError e = true → w.MakeDirErr targetPath = none →
        putDir w (fuel + 1) bput sourceStat sourcePath =
          putDirChildren w (putDir w fuel) (putDirCreated w bput sourcePath targetPath)
            sourcePath) ∧
      (∀ targetEntry, statResult w bput.filesystem targetPath = .ok targetEntry →
        targetEntry.IsDir = false → bput.Sync = true →
        bput.Force = true ∨ w.InputYN bput.asked = true →
        w.RemoveFileErr targetPath = none →
        putDir w (fuel + 1) bput sourceStat sourcePath =
          putDirChildren w (putDir w fuel) (putDirRemoved w bput sourcePath targetPath)
            sourcePath)) ∧
    (∀ (entryStat : FileInfo), w.OsStat sourcePath = .ok entryStat → entryStat.IsDir = true →
      putDirEntry w (putDir w fuel) bput sourcePath =
        putDir w fuel (bput.log (.osStat sourcePath)) entryStat sourcePath) ∧
    (∀ (source : String) (sourceStat : FileInfo),
      w.OsStat (w.MakeLocalPath source) = .ok sourceStat → sourceStat.IsDir = true →
      bputOne w fuel bput source =
        putDir w fuel (bput.log (.osStat (w.MakeLocalPath source))) sourceStat
          (w.MakeLocalPath source)) := by
  refine ⟨?_, ?_, ?_, ?_⟩
  · intro before name after s1 s2 r hR hb hc hr
    unfold putDirChildren ReadDir
    rw [hR]
    simp only [List.map_append, List.map_cons]
    exact forEachPath_first_failure _ _ _ _ _ s1 s2 r hb hc hr
  · intro sourceStat targetPath hT
    refine ⟨?_, ?_, ?_⟩
    · intro targetEntry hS hD
      exact putDir_of_dir w fuel bput sourceStat sourcePath targetPath targetEntry hT hS hD
    · intro e hS hnf hM
      rw [putDir_of_absent w fuel bput sourceStat sourcePath targetPath e hT hS hnf, hM]
      rfl
    · intro targetEntry hS hF hSy hgo hR
      rw [putDir_of_file_removed w fuel bput sourceStat sourcePath targetPath targetEntry hT hS
        hF hSy hgo, hR]
  · intro entryStat hO hd
    simp [putDirEntry, OsStat, hO, hd]
  · intro source sourceStat hO hd
    simp [bputOne, OsStat, hO, hd]

/-- C15, witness.  In the local directory `d` with the entries `B`, `C`, `E`
the entry `C` runs into the collection `/t/d/C`; the loop returns that
conflict and `E` is never looked at.  When `/t/d` is missing, `putDir` creates
it and returns what the loop returns from there. -/
theorem putDir_fail_fast_witness :
    ((putDirChildren quietWorld (putDir quietWorld 1)
        (afterStat quietWorld walkCommand ["d"] ["t", "d"]) ["d"]).1 =
      .error (.NotFile ["t", "d", "C"]) ∧
    Event.osStat ["d", "B"] ∈ (putDirChildren quietWorld (putDir quietWorld 1)
        (afterStat quietWorld walkCommand ["d"] ["t", "d"]) ["d"]).2.trace ∧
    Event.osStat ["d", "E"] ∉ (putDirChildren quietWorld (putDir quietWorld 1)
        (afterStat quietWorld walkCommand ["d"] ["t", "d"]) ["d"]).2.trace) ∧
    putDir quietWorld 2 plainCommand sourceD ["d"] =
      putDirChildren quietWorld (putDir quietWorld 1)
        (putDirCreated quietWorld plainCommand ["d"] ["t", "d"]) ["d"] :=
  ⟨⟨congrArg Prod.fst
      ((putDir_fail_fast quietWorld 1 (afterStat quietWorld walkCommand ["d"] ["t", "d"])
        ["d"]).1 ["B"] "C" ["E"]
        (forEachPath (putDirEntry quietWorld (putDir quietWorld 1))
          ((afterStat quietWorld walkCommand ["d"] ["t", "d"]).log (.osReadDir ["d"]))
          [["d", "B"]]).2
        (putDirEntry quietWorld (putDir quietWorld 1)
          (forEachPath (putDirEntry quietWorld (putDir quietWorld 1))
            ((afterStat quietWorld walkCommand ["d"] ["t", "d"]).log (.osReadDir ["d"]))
            [["d", "B"]]).2 ["d", "C"]).2
        (.error (.NotFile ["t", "d", "C"])) rfl rfl rfl (by decide)),
    by decide, by decide⟩,
    ((putDir_fail_fast quietWorld 1 plainCommand ["d"]).2.1 sourceD ["t", "d"] rfl).2.1
      (.FileNotFound ["t", "d"]) rfl rfl rfl⟩

/-- C16. A directory source whose destination exists as a data object.
(1) Without sync `putDir` returns the NotDirError after `GetTargetPath`,
`MarkPathMap` and `Stat` alone: nothing is removed and no entry of the
directory is read.  (2) With sync, without force, and the prompt answered no,
the same holds with the prompt as the only further call.  (3) With sync and
force, or with sync and the prompt answered yes, it calls
`RemoveFile(targetPath, true)` and reports the removal (the calls up to there
are those of `putDirRemoved`); if the removal fails it returns that error with
the remote tree as it was and no entry read; if the removal succeeds the data
object is gone from the remote tree and `putDir` returns what its children
loop returns from there, and when that is nil every listed entry was looked
at by `os.Stat` and handed to `putDir` or `putFile`. -/
theorem putDir_type_conflict (w : World) (fuel : Nat) (bput : BputCommand)
    (sourceStat : FileInfo) (sourcePath targetPath : Path) (targetEntry : Entry)
    (hT : w.GetTargetPath sourcePath = .ok targetPath)
    (hS : statResult w bput.filesystem targetPath = .ok targetEntry)
    (hF : targetEntry.IsDir = false) :
    (bput.Sync = false →
      (putDir w (fuel + 1) bput sourceStat sourcePath).1 = .error (.NotDir targetPath) ∧
      newCalls bput (putDir w (fuel + 1) bput sourceStat sourcePath).2 =
        [.getTargetPath sourcePath, .markPathMap targetPath, .stat targetPath] ∧
      (putDir w (fuel + 1) bput sourceStat sourcePath).2.filesystem = bput.filesystem) ∧
    (bput.Sync = true → bput.Force = false → w.InputYN bput.asked = false →
      (putDir w (fuel + 1) bput sourceStat sourcePath).1 = .error (.NotDir targetPath) ∧
      newCalls bput (putDir w (fuel + 1) bput sourceStat sourcePath).2 =
        [.getTargetPath sourcePath, .markPathMap targetPath, .stat targetPath,
          .inputYN "overwriting a directory, but file exists. Overwrite?" targetPath] ∧
      (putDir w (fuel + 1) bput sourceStat sourcePath).2.filesystem = bput.filesystem) ∧
    (bput.Sync = true → (bput.Force = true ∨ w.InputYN bput.asked = true) →
      newCalls bput (putDirRemoved w bput sourcePath targetPath) =
        [.getTargetPath sourcePath, .markPathMap targetPath, .stat targetPath] ++
          (if bput.Force then []
            else [.inputYN "overwriting a directory, but file exists. Overwrite?"
              targetPath]) ++
          [.removeFile targetPath true,
            .addFile { Method := .TransferMethodDelete, SourcePath := targetPath,
                       Error := w.RemoveFileErr targetPath,
                       Notes := ["overwrite", "put"] }] ∧
      (∀ err, w.RemoveFileErr targetPath = some err →
        putDir w (fuel + 1) bput sourceStat sourcePath =
          (.error err, putDirRemoved w bput sourcePath targetPath) ∧
        (putDirRemoved w bput sourcePath targetPath).filesystem = bput.filesystem) ∧
      (w.RemoveFileErr targetPath = none →
        (putDirRemoved w bput sourcePath targetPath).filesystem =
          fsRemoveFile bput.filesystem targetPath ∧
        putDir w (fuel + 1) bput sourceStat sourcePath =
          putDirChildren w (putDir w fuel) (putDirRemoved w bput sourcePath targetPath)
            sourcePath ∧
        ∀ names, w.ReadDir sourcePath = .ok names →
          (putDir w (fuel + 1) bput sourceStat sourcePath).1 = .nil →
          ∀ n ∈ names,
            .osStat (sourcePath ++ [n]) ∈
              newCalls (putDirRemoved w bput sourcePath targetPath)
                (putDir w (fuel + 1) bput sourceStat sourcePath).2 ∧
            .getTargetPath (sourcePath ++ [n]) ∈
              newCalls (putDirRemoved w bput sourcePath targetPath)
                (putDir w (fuel + 1) bput sourceStat sourcePath).2)) := by
  refine ⟨?_, ?_, ?_⟩
  · intro hSy
    rw [putDir_of_file w fuel bput sourceStat sourcePath targetPath targetEntry hT hS hF]
    simp only [hSy, Bool.false_eq_true, if_false]
    refine ⟨trivial, newCalls_eq (afterStat_trace w bput sourcePath targetPath), ?_⟩
    simp [afterStat, MarkPathMap, BputCommand.log]
  · intro hSy hFo hY
    rw [putDir_of_file w fuel bput sourceStat sourcePath targetPath targetEntry hT hS hF]
    simp only [hSy, hFo, hY, Bool.false_eq_true, if_false, if_true]
    refine ⟨trivial, newCalls_eq ?_, ?_⟩ <;>
      simp [InputYN, afterStat, MarkPathMap, BputCommand.log]
  · intro hSy hgo
    have hrun := putDir_of_file_removed w fuel bput sourceStat sourcePath targetPath
      targetEntry hT hS hF hSy hgo
    have hfs := putDirRemoved_filesystem w bput sourcePath targetPath
    refine ⟨putDirRemoved_calls w bput sourcePath targetPath, ?_, ?_⟩
    · intro err hR
      rw [hR] at hrun hfs
      exact ⟨hrun, hfs⟩
    · intro hR
      rw [hR] at hrun hfs
      refine ⟨hfs, hrun, ?_⟩
      intro names hN hnil
      rw [hrun] at hnil ⊢
      exact putDirChildren_all_entries w fuel _ sourcePath names hN hnil

/-- C16, witness: with sync and force, and `/t/d` a data object, `putDir` of
the local directory `d` removes `/t/d` and then decides `B`, `C` and `E`. -/
theorem putDir_type_conflict_witness :
    (putDir quietWorld 2 clashCommand sourceD ["d"]).1 = .nil ∧
    (putDirRemoved quietWorld clashCommand ["d"] ["t", "d"]).filesystem =
      fsRemoveFile clashCommand.filesystem ["t", "d"] ∧
    Event.osStat ["d", "E"] ∈
      newCalls (putDirRemoved quietWorld clashCommand ["d"] ["t", "d"])
        (putDir quietWorld 2 clashCommand sourceD ["d"]).2 :=
  ⟨by decide,
    ((putDir_type_conflict quietWorld 1 clashCommand sourceD ["d"] ["t", "d"]
      (dataObject ["t", "d"] 9 "" []) rfl rfl rfl).2.2 rfl (Or.inl rfl)).2.2 rfl |>.1,
    (((putDir_type_conflict quietWorld 1 clashCommand sourceD ["d"] ["t", "d"]
      (dataObject ["t", "d"] 9 "" []) rfl rfl rfl).2.2 rfl (Or.inl rfl)).2.2 rfl).2.2
      ["B", "C", "E"] rfl (by decide) "E" (by decide) |>.1⟩

/-! ### The walker lists no collection and removes no local source -/

theorem walkOnly_of_calls {a b : BputCommand} (l : List Event) (h : b.trace = a.trace ++ l)
    (hl : ∀ ev ∈ l, ev.reconciles = false) : WalkOnly a b := by
  have hn := newCalls_eq h
  exact ⟨by rw [hn]; exact h, by rw [hn]; exact hl⟩

theorem walkOnly_refl (a : BputCommand) : WalkOnly a a :=
  walkOnly_of_calls [] (by simp) (by simp)

theorem walkOnly_trans {a b c : BputCommand} (h1 : WalkOnly a b) (h2 : WalkOnly b c) :
    WalkOnly a c := by
  refine walkOnly_of_calls (newCalls a b ++ newCalls b c) ?_ ?_
  · rw [h2.1, h1.1, List.append_assoc]
  · intro ev hev
    rcases List.mem_append.mp hev with h | h
    · exact h1.2 ev h
    · exact h2.2 ev h

theorem walkOnly_log (a : BputCommand) (ev : Event) (h : ev.reconciles = false) :
    WalkOnly a (a.log ev) :=
  walkOnly_of_calls [ev] rfl (by simpa using h)

theorem afterStat_walkOnly (w : World) (bput : BputCommand) (sourcePath targetPath : Path) :
    WalkOnly bput (afterStat w bput sourcePath targetPath) :=
  walkOnly_of_calls _ (afterStat_trace w bput sourcePath targetPath)
    (by simp [Event.reconciles])

theorem putFileTransfer_walkOnly (w : World) (bput : BputCommand) (sourceStat : FileInfo)
    (sourcePath targetPath : Path) (targetEntry : Entry) :
    WalkOnly bput (putFileTransfer w bput sourceStat sourcePath targetPath targetEntry).2 := by
  unfold WalkOnly putFileTransfer
  cases hD : bput.DifferentialTransfer with
  | true =>
    cases hN : bput.NoHash with
    | true =>
      by_cases hSz : targetEntry.Size = sourceStat.Size
      · simp [hSz, AddFile, BputCommand.log, newCalls, Event.reconciles]
      · simp [hSz, schedulePut_eq, BputCommand.log, newCalls, Event.reconciles]
    | false =>
      by_cases hSz : targetEntry.Size = sourceStat.Size
      · by_cases hC : 0 < targetEntry.CheckSum.length
        · cases hH : w.HashLocalFile sourcePath targetEntry.CheckSumAlgorithm with
          | error e =>
            simp [hSz, hC, HashLocalFile, hH, BputCommand.log, newCalls, Event.reconciles]
          | ok localChecksum =>
            by_cases heq : localChecksum = targetEntry.CheckSum
            · simp [hSz, hC, HashLocalFile, hH, heq, AddFile, BputCommand.log, newCalls,
                Event.reconciles]
            · simp [hSz, hC, HashLocalFile, hH, heq, schedulePut_eq, BputCommand.log, newCalls,
                Event.reconciles]
        · simp [hSz, hC, schedulePut_eq, BputCommand.log, newCalls, Event.reconciles]
      · simp [hSz, schedulePut_eq, BputCommand.log, newCalls, Event.reconciles]
  | false =>
    cases hF : bput.Force with
    | true => simp [schedulePut_eq, BputCommand.log, newCalls, Event.reconciles]
    | false =>
      cases hY : w.InputYN bput.asked with
      | true => simp [InputYN, hY, schedulePut_eq, BputCommand.log, newCalls, Event.reconciles]
      | false => simp [InputYN, hY, AddFile, BputCommand.log, newCalls, Event.reconciles]

theorem putFileReplaceDir_walkOnly (w : World) (bput : BputCommand) (sourceStat : FileInfo)
    (sourcePath targetPath : Path) (targetEntry : Entry) :
    WalkOnly bput
      (putFileReplaceDir w bput sourceStat sourcePath targetPath targetEntry).2 := by
  unfold putFileReplaceDir
  cases hR : w.RemoveDirErr targetPath with
  | some err =>
    refine walkOnly_of_calls
      [.removeDir targetPath true true,
        .addFile { Method := .TransferMethodDelete, SourcePath := targetPath,
                   Error := some err, Notes := ["overwrite", "put", "dir"] }] ?_ ?_
    · simp [FileSystem.RemoveDir, hR, AddFile, BputCommand.log]
    · simp [Event.reconciles]
  | none =>
    simp only [FileSystem.RemoveDir, hR, AddFile]
    refine walkOnly_trans ?_ (putFileTransfer_walkOnly w _ _ _ _ _)
    refine walkOnly_of_calls
      [.removeDir targetPath true true,
        .addFile { Method := .TransferMethodDelete, SourcePath := targetPath,
                   Error := none, Notes := ["overwrite", "put", "dir"] }] ?_ ?_
    · simp [BputCommand.log]
    · simp [Event.reconciles]

theorem putFile_walkOnly (w : World) (bput : BputCommand) (sourceStat : FileInfo)
    (sourcePath : Path) : WalkOnly bput (putFile w bput sourceStat sourcePath).2 := by
  cases hT : w.GetTargetPath sourcePath with
  | error e =>
    refine walkOnly_of_calls [.getTargetPath sourcePath] ?_ (by simp [Event.reconciles])
    simp [putFile, GetTargetPath, hT, BputCommand.log]
  | ok targetPath =>
    refine walkOnly_trans (afterStat_walkOnly w bput sourcePath targetPath) ?_
    cases hS : statResult w bput.filesystem targetPath with
    | error e =>
      cases hnf : IsFileNotFoundError e
      · refine walkOnly_of_calls [] ?_ (by simp)
        simp [putFile, GetTargetPath, MarkPathMap, FileSystem.Stat, BputCommand.log, hT, hS,
          hnf, afterStat]
      · refine walkOnly_of_calls [.schedule sourceStat sourcePath] ?_
          (by simp [Event.reconciles])
        simp [putFile, GetTargetPath, MarkPathMap, FileSystem.Stat, BputCommand.log, hT, hS,
          hnf, schedulePut_eq, afterStat]
    | ok targetEntry =>
      cases hD : targetEntry.IsDir with
      | false =>
        rw [putFile_of_file w bput sourceStat sourcePath targetPath targetEntry hT hS hD]
        exact putFileTransfer_walkOnly _ _ _ _ _ _
      | true =>
        rw [putFile_of_dir w bput sourceStat sourcePath targetPath targetEntry hT hS hD]
        cases hSy : bput.Sync with
        | false => exact walkOnly_refl _
        | true =>
          cases hFo : bput.Force with
          | true => exact putFileReplaceDir_walkOnly _ _ _ _ _ _
          | false =>
            have hask : WalkOnly (afterStat w bput sourcePath targetPath)
                (InputYN w (afterStat w bput sourcePath targetPath)
                  "overwriting a file, but directory exists. Overwrite?" targetPath).2 :=
              walkOnly_of_calls
                [.inputYN "overwriting a file, but directory exists. Overwrite?" targetPath]
                (by simp [InputYN, BputCommand.log]) (by simp [Event.reconciles])
            cases hY : w.InputYN bput.asked with
            | true => exact walkOnly_trans hask (putFileReplaceDir_walkOnly _ _ _ _ _ _)
            | false => exact hask

theorem forEachPath_walkOnly (body : BputCommand → Path → Return × BputCommand)
    (h : ∀ b c, WalkOnly b (body b c).2) :
    ∀ (cs : List Path) (bput : BputCommand), WalkOnly bput (forEachPath body bput cs).2 := by
  intro cs
  induction cs with
  | nil => exact fun bput => walkOnly_refl bput
  | cons c rest ih =>
    intro bput
    have hc := h bput c
    rw [forEachPath]
    cases hrun : body bput c with
    | mk r s1 =>
      rw [hrun] at hc
      cases r with
      | nil => exact walkOnly_trans hc (ih s1)
      | error err => exact hc
      | exhausted => exact hc

theorem putDirEntry_walkOnly (w : World)
    (putDir : BputCommand → FileInfo → Path → Return × BputCommand)
    (h : ∀ b st p, WalkOnly b (putDir b st p).2) (bput : BputCommand) (entryPath : Path) :
    WalkOnly bput (putDirEntry w putDir bput entryPath).2 := by
  refine walkOnly_trans (walkOnly_log bput (.osStat entryPath) rfl) ?_
  unfold putDirEntry OsStat
  cases hO : w.OsStat entryPath with
  | error err =>
    cases hne : IsNotExist err <;> simp [hne] <;> exact walkOnly_refl _
  | ok entryStat =>
    cases hd : entryStat.IsDir with
    | true =>
      simp only [hd, if_true]
      exact h _ _ _
    | false =>
      simp only [hd, Bool.false_eq_true, if_false]
      exact putFile_walkOnly _ _ _ _

theorem putDirChildren_walkOnly (w : World)
    (putDir : BputCommand → FileInfo → Path → Return × BputCommand)
    (h : ∀ b st p, WalkOnly b (putDir b st p).2) (bput : BputCommand) (sourcePath : Path) :
    WalkOnly bput (putDirChildren w putDir bput sourcePath).2 := by
  refine walkOnly_trans (walkOnly_log bput (.osReadDir sourcePath) rfl) ?_
  unfold putDirChildren ReadDir
  cases hR : w.ReadDir sourcePath with
  | error err => exact walkOnly_refl _
  | ok entries => exact forEachPath_walkOnly _ (putDirEntry_walkOnly w putDir h) _ _

theorem putDirReplaceFile_walkOnly (w : World)
    (putDir : BputCommand → FileInfo → Path → Return × BputCommand)
    (h : ∀ b st p, WalkOnly b (putDir b st p).2) (bput : BputCommand)
    (sourcePath targetPath : Path) :
    WalkOnly bput (putDirReplaceFile w putDir bput sourcePath targetPath).2 := by
  unfold putDirReplaceFile
  cases hR : w.RemoveFileErr targetPath with
  | some err =>
    refine walkOnly_of_calls
      [.removeFile targetPath true,
        .addFile { Method := .TransferMethodDelete, SourcePath := targetPath,
                   Error := some err, Notes := ["overwrite", "put"] }] ?_ ?_
    · simp [FileSystem.RemoveFile, hR, AddFile, BputCommand.log]
    · simp [Event.reconciles]
  | none =>
    simp only [FileSystem.RemoveFile, hR, AddFile]
    refine walkOnly_trans ?_ (putDirChildren_walkOnly w putDir h _ sourcePath)
    refine walkOnly_of_calls
      [.removeFile targetPath true,
        .addFile { Method := .TransferMethodDelete, SourcePath := targetPath,
                   Error := none, Notes := ["overwrite", "put"] }] ?_ ?_
    · simp [BputCommand.log]
    · simp [Event.reconciles]

theorem putDir_walkOnly (w : World) :
    ∀ (fuel : Nat) (bput : BputCommand) (sourceStat : FileInfo) (sourcePath : Path),
      WalkOnly bput (putDir w fuel bput sourceStat sourcePath).2 := by
  intro fuel
  induction fuel with
  | zero =>
    intro bput sourceStat sourcePath
    exact walkOnly_refl _
  | succ fuel ih =>
    intro bput sourceStat sourcePath
    cases hT : w.GetTargetPath sourcePath with
    | error e =>
      rw [putDir]
      simp only [GetTargetPath, hT]
      exact walkOnly_log _ _ rfl
    | ok targetPath =>
      refine walkOnly_trans (afterStat_walkOnly w bput sourcePath targetPath) ?_
      cases hS : statResult w bput.filesystem targetPath with
      | error e =>
        cases hnf : IsFileNotFoundError e with
        | false =>
          rw [putDir_of_stat_error w fuel bput sourceStat sourcePath targetPath e hT hS hnf]
          exact walkOnly_refl _
        | true =>
          rw [putDir_of_absent w fuel bput sourceStat sourcePath targetPath e hT hS hnf]
          cases hM : w.MakeDirErr targetPath with
          | some err => exact walkOnly_log _ _ rfl
          | none =>
            refine walkOnly_trans ?_ (putDirChildren_walkOnly w _ ih _ sourcePath)
            refine walkOnly_of_calls
              [.makeDir targetPath true,
                .addFile { Method := .TransferMethodPut, SourcePath := sourcePath,
                           DestPath := targetPath, Notes := ["directory"] }] ?_ ?_
            · simp [FileSystem.MakeDir, hM, AddFile, BputCommand.log]
            · simp [Event.reconciles]
      | ok targetEntry =>
        cases hD : targetEntry.IsDir with
        | true =>
          rw [putDir_of_dir w fuel bput sourceStat sourcePath targetPath targetEntry hT hS hD]
          exact putDirChildren_walkOnly w _ ih _ sourcePath
        | false =>
          rw [putDir_of_file w fuel bput sourceStat sourcePath targetPath targetEntry hT hS hD]
          cases hSy : bput.Sync with
          | false => exact walkOnly_refl _
          | true =>
            cases hFo : bput.Force with
            | true => exact putDirReplaceFile_walkOnly w _ ih _ _ _
            | false =>
              have hask : WalkOnly (afterStat w bput sourcePath targetPath)
                  (InputYN w (afterStat w bput sourcePath targetPath)
                    "overwriting a directory, but file exists. Overwrite?" targetPath).2 :=
                walkOnly_of_calls
                  [.inputYN "overwriting a directory, but file exists. Overwrite?" targetPath]
                  (by simp [InputYN, BputCommand.log]) (by simp [Event.reconciles])
              cases hY : w.InputYN bput.asked with
              | true => exact walkOnly_trans hask (putDirReplaceFile_walkOnly w _ ih _ _ _)
              | false => exact hask

theorem bputOne_walkOnly (w : World) (fuel : Nat) (bput : BputCommand) (sourcePath : String) :
    WalkOnly bput (bputOne w fuel bput sourcePath).2 := by
  simp only [bputOne, OsStat]
  cases hO : w.OsStat (w.MakeLocalPath sourcePath) with
  | error err =>
    cases hne : IsNotExist err <;> simp only [hne, Bool.false_eq_true, if_true, if_false] <;>
      exact walkOnly_log _ _ rfl
  | ok sourceStat =>
    cases hd : sourceStat.IsDir with
    | true =>
      simp only [hd, if_true]
      exact walkOnly_trans (walkOnly_log _ (.osStat (w.MakeLocalPath sourcePath)) rfl) (putDir_walkOnly w fuel _ _ _)
    | false =>
      simp only [hd, Bool.false_eq_true, if_false]
      exact walkOnly_trans (walkOnly_log _ (.osStat (w.MakeLocalPath sourcePath)) rfl) (putFile_walkOnly w _ _ _)

/-- The walk over the sources lists no collection and removes no local
source. -/
theorem bputSources_walkOnly (w : World) (fuel : Nat) (targetPath : String) :
    ∀ (sources : List String) (bput : BputCommand),
      WalkOnly bput (bputSources w fuel targetPath bput sources).2 := by
  intro sources
  induction sources with
  | nil => exact fun bput => walkOnly_refl bput
  | cons c rest ih =>
    intro bput
    have hc := bputOne_walkOnly w fuel bput c
    rw [bputSources]
    cases hrun : bputOne w fuel bput c with
    | mk r s1 =>
      rw [hrun] at hc
      cases r with
      | nil => exact walkOnly_trans hc (ih s1)
      | error err => exact hc
      | exhausted => exact hc

/-- The deletion of the sources only adds calls to the trace, none of them a
`List` on a collection. -/
theorem deleteSources_calls (w : World) :
    ∀ (sources : List String) (bput : BputCommand),
      ∃ evs, (deleteSources w bput sources).2.trace = bput.trace ++ evs ∧
        ∀ p, Event.list p ∉ evs := by
  intro sources
  induction sources with
  | nil => exact fun bput => ⟨[], by simp [deleteSources], by simp⟩
  | cons c rest ih =>
    intro bput
    have hc : ∃ evs, (deleteOnSuccess w bput c).2.trace = bput.trace ++ evs ∧
        ∀ p, Event.list p ∉ evs := by
      unfold deleteOnSuccess OsStat
      cases hO : w.OsStat (w.OsPath c) with
      | error err => exact ⟨[.osStat (w.OsPath c)], by simp [BputCommand.log], by simp⟩
      | ok sourceStat =>
        cases hd : sourceStat.IsDir
        · exact ⟨[.osStat (w.OsPath c), .osRemove (w.OsPath c)],
            by simp [hd, BputCommand.log], by simp⟩
        · exact ⟨[.osStat (w.OsPath c), .osRemoveAll (w.OsPath c)],
            by simp [hd, BputCommand.log], by simp⟩
    rw [deleteSources]
    cases hrun : deleteOnSuccess w bput c with
    | mk r s1 =>
      rw [hrun] at hc
      obtain ⟨evs1, h1, hl1⟩ := hc
      cases r with
      | some err => exact ⟨evs1, h1, hl1⟩
      | none =>
        obtain ⟨evs2, h2, hl2⟩ := ih s1
        refine ⟨evs1 ++ evs2, ?_, ?_⟩
        · rw [h2, h1, List.append_assoc]
        · intro p hp
          rcases List.mem_append.mp hp with h | h
          · exact hl1 p h
          · exact hl2 p h

theorem deleteOnSuccessPhase_calls (w : World) (bput waited : BputCommand) :
    ∃ evs, (deleteOnSuccessPhase w bput waited).2.trace = waited.trace ++ evs ∧
      ∀ p, Event.list p ∉ evs := by
  unfold deleteOnSuccessPhase
  cases hD : bput.DeleteOnSuccess with
  | true => simpa using deleteSources_calls w bput.sourcePaths waited
  | false => exact ⟨[], by simp, by simp⟩

theorem afterWait_trace (w : World) (walked : BputCommand) :
    (afterWait w walked).trace = walked.trace ++ [.doneScheduling, .wait] := by
  simp [afterWait, Wait, BputCommand.log]

/-- The calls from the start of the walk to the end of the source deletion:
those of the walk, then `DoneScheduling` and `Wait`, then those of the
deletion; none before `Wait` lists a collection or removes a local source, and
none after it lists a collection. -/
theorem deleteOnSuccessPhase_after_wait (w : World) (fuel : Nat) (s0 : BputCommand) :
    ∃ delCalls,
      (deleteOnSuccessPhase w s0
        (afterWait w (bputSources w fuel s0.targetPath s0 s0.sourcePaths).2)).2.trace =
        s0.trace ++ (newCalls s0 (bputSources w fuel s0.targetPath s0 s0.sourcePaths).2 ++
          [.doneScheduling, .wait] ++ delCalls) ∧
      (∀ ev ∈ newCalls s0 (bputSources w fuel s0.targetPath s0 s0.sourcePaths).2,
        ev.reconciles = false) ∧
      ∀ p, Event.list p ∉ delCalls := by
  obtain ⟨hwt, hwc⟩ := bputSources_walkOnly w fuel s0.targetPath s0.sourcePaths s0
  obtain ⟨delCalls, hdt, hdc⟩ := deleteOnSuccessPhase_calls w s0
    (afterWait w (bputSources w fuel s0.targetPath s0 s0.sourcePaths).2)
  refine ⟨delCalls, ?_, hwc, hdc⟩
  rw [hdt, afterWait_trace, hwt]
  simp [newCalls, List.append_assoc]

theorem Process_of_setup (w : World) (fuel : Nat) (bput s0 : BputCommand)
    (hsetup : ProcessSetup w bput = (none, s0)) :
    Process w fuel bput =
      (.returned (ProcessTransfer w fuel s0).1, (ProcessTransfer w fuel s0).2) := by
  simp [Process, hsetup]

theorem ProcessTransfer_of_walk (w : World) (fuel : Nat) (s0 : BputCommand)
    (hwalk : (walkPhase w fuel s0).1 = .nil) :
    ProcessTransfer w fuel s0 =
      match w.Wait with
      | some err =>
        (.error (.Wrap "failed to bundle-put" [] err), afterWait w (walkPhase w fuel s0).2)
      | none =>
        match (deletePhase w fuel s0).1 with
        | some err => (.error err, (deletePhase w fuel s0).2)
        | none =>
          if s0.Delete then
            match deleteExtra w fuel (deletePhase w fuel s0).2 s0.targetPath with
            | (.nil, final) => (.nil, final)
            | (.error err, final) =>
              (.error (.Wrap "failed to delete extra files" [] err), final)
            | (.exhausted, final) => (.exhausted, final)
          else (.nil, (deletePhase w fuel s0).2) := by
  unfold ProcessTransfer deletePhase
  unfold walkPhase at hwalk ⊢
  cases hrun : bputSources w fuel s0.targetPath s0 s0.sourcePaths with
  | mk r walked =>
    rw [hrun] at hwalk
    simp only at hwalk
    subst hwalk
    have hwait : Wait w (walked.log .doneScheduling) = (w.Wait, afterWait w walked) := rfl
    simp only [hwait]
    cases hW : w.Wait with
    | some err => rfl
    | none =>
      simp only
      cases hdel : deleteOnSuccessPhase w s0 (afterWait w walked) with
      | mk d deleted =>
        cases d <;> rfl

/-- C18. Let the setup of `Process` leave the command `s0` and start the
walk.  (A) If the walk over the sources does not return nil, `Process` returns
that non-nil result on the command the walk left: `Wait`, the deletion of the
sources and `deleteExtra` are not called.  (B) If the walk returns nil and
`Wait` returns an error, `Process` returns that error, wrapped, on the command
that `Wait` left.  In both cases no call since the setup lists a collection
(as `deleteExtraInternal` does) or removes a local source.  (C) If the
deletion of the sources fails, `Process` returns that error and no call since
the setup lists a collection.  (D) If the delete flag is not set, `Process`
returns nil after the deletion phase and no call since the setup lists a
collection.  (E) If the delete flag is set, `Process` ends on the command that
`deleteExtra` leaves, called on the command of the deletion phase; the calls
since the setup are those of the walk, `DoneScheduling`, `Wait`, those of the
deletion phase and those of `deleteExtra`, in this order, and neither the walk
nor the deletion phase lists a collection; `Process` returns nil exactly when
`deleteExtra` does. -/
theorem Process_reconciles_after_wait (w : World) (fuel : Nat) (bput s0 : BputCommand)
    (hsetup : ProcessSetup w bput = (none, s0)) :
    ((walkPhase w fuel s0).1 ≠ .nil →
      Process w fuel bput = (.returned (walkPhase w fuel s0).1, (walkPhase w fuel s0).2) ∧
      ∀ ev ∈ newCalls s0 (Process w fuel bput).2, ev.reconciles = false) ∧
    ((walkPhase w fuel s0).1 = .nil → ∀ err, w.Wait = some err →
      Process w fuel bput =
        (.returned (.error (.Wrap "failed to bundle-put" [] err)),
          afterWait w (walkPhase w fuel s0).2) ∧
      newCalls s0 (Process w fuel bput).2 =
        newCalls s0 (walkPhase w fuel s0).2 ++ [.doneScheduling, .wait] ∧
      ∀ ev ∈ newCalls s0 (Process w fuel bput).2, ev.reconciles = false) ∧
    ((walkPhase w fuel s0).1 = .nil → w.Wait = none →
      ∀ err, (deletePhase w fuel s0).1 = some err →
      Process w fuel bput = (.returned (.error err), (deletePhase w fuel s0).2) ∧
      ∀ p, Event.list p ∉ newCalls s0 (Process w fuel bput).2) ∧
    ((walkPhase w fuel s0).1 = .nil → w.Wait = none → (deletePhase w fuel s0).1 = none →
      s0.Delete = false →
      Process w fuel bput = (.returned .nil, (deletePhase w fuel s0).2) ∧
      ∀ p, Event.list p ∉ newCalls s0 (Process w fuel bput).2) ∧
    ((walkPhase w fuel s0).1 = .nil → w.Wait = none → (deletePhase w fuel s0).1 = none →
      s0.Delete = true →
      (Process w fuel bput).2 =
        (deleteExtra w fuel (deletePhase w fuel s0).2 s0.targetPath).2 ∧
      ((Process w fuel bput).1 = .returned .nil ↔
        (deleteExtra w fuel (deletePhase w fuel s0).2 s0.targetPath).1 = .nil) ∧
      ∃ delCalls,
        newCalls s0 (Process w fuel bput).2 =
          newCalls s0 (walkPhase w fuel s0).2 ++ [.doneScheduling, .wait] ++ delCalls ++
            newCalls (deletePhase w fuel s0).2
              (deleteExtra w fuel (deletePhase w fuel s0).2 s0.targetPath).2 ∧
        (∀ ev ∈ newCalls s0 (walkPhase w fuel s0).2, ev.reconciles = false) ∧
        ∀ p, Event.list p ∉ delCalls) := by
  have hP := Process_of_setup w fuel bput s0 hsetup
  have hwalkOnly : WalkOnly s0 (walkPhase w fuel s0).2 :=
    bputSources_walkOnly w fuel s0.targetPath s0.sourcePaths s0
  obtain ⟨delCalls, hdt, hwc, hdc⟩ := deleteOnSuccessPhase_after_wait w fuel s0
  have hdel : newCalls s0 (deletePhase w fuel s0).2 =
      newCalls s0 (walkPhase w fuel s0).2 ++ [.doneScheduling, .wait] ++ delCalls :=
    newCalls_eq hdt
  have hnolist : ∀ p, Event.list p ∉ newCalls s0 (deletePhase w fuel s0).2 := by
    intro p hp
    rw [hdel] at hp
    rcases List.mem_append.mp hp with h | h
    · rcases List.mem_append.mp h with h | h
      · have := hwc _ h
        simp [Event.reconciles] at this
      · simp at h
    · exact hdc p h
  refine ⟨?_, ?_, ?_, ?_, ?_⟩
  · intro hne
    have hT : ProcessTransfer w fuel s0 = walkPhase w fuel s0 := by
      unfold ProcessTransfer walkPhase at *
      cases hrun : bputSources w fuel s0.targetPath s0 s0.sourcePaths with
      | mk r walked =>
        rw [hrun] at hne
        cases r with
        | nil => exact absurd rfl hne
        | error err => rfl
        | exhausted => rfl
    rw [hP, hT]
    exact ⟨rfl, hwalkOnly.2⟩
  · intro hnil err hW
    have hT := ProcessTransfer_of_walk w fuel s0 hnil
    rw [hW] at hT
    have hcalls : newCalls s0 (afterWait w (walkPhase w fuel s0).2) =
        newCalls s0 (walkPhase w fuel s0).2 ++ [.doneScheduling, .wait] :=
      newCalls_eq (by rw [afterWait_trace, hwalkOnly.1]; simp [newCalls])
    rw [hP, hT]
    refine ⟨rfl, hcalls, ?_⟩
    intro ev hev
    simp only [hcalls] at hev
    rcases List.mem_append.mp hev with h | h
    · exact hwalkOnly.2 ev h
    · rcases List.mem_cons.mp h with rfl | h
      · rfl
      · rcases List.mem_cons.mp h with rfl | h
        · rfl
        · simp at h
  · intro hnil hW err hD
    have hT := ProcessTransfer_of_walk w fuel s0 hnil
    rw [hW, hD] at hT
    rw [hP, hT]
    exact ⟨rfl, hnolist⟩
  · intro hnil hW hD hflag
    have hT := ProcessTransfer_of_walk w fuel s0 hnil
    rw [hW, hD] at hT
    simp only [hflag, Bool.false_eq_true, if_false] at hT
    rw [hP, hT]
    exact ⟨rfl, hnolist⟩
  · intro hnil hW hD hflag
    have hT := ProcessTransfer_of_walk w fuel s0 hnil
    rw [hW, hD] at hT
    simp only [hflag, if_true] at hT
    have hfin : (ProcessTransfer w fuel s0).2 =
          (deleteExtra w fuel (deletePhase w fuel s0).2 s0.targetPath).2 ∧
        ((ProcessTransfer w fuel s0).1 = .nil ↔
          (deleteExtra w fuel (deletePhase w fuel s0).2 s0.targetPath).1 = .nil) := by
      rw [hT]
      cases hx : deleteExtra w fuel (deletePhase w fuel s0).2 s0.targetPath with
      | mk r final => cases r <;> simp
    obtain ⟨evs, hsound⟩ := deleteExtraInternal_sound w fuel (deletePhase w fuel s0).2
      (w.MakeIRODSPath s0.targetPath)
    have hextra : (deleteExtra w fuel (deletePhase w fuel s0).2 s0.targetPath).2.trace =
        (deletePhase w fuel s0).2.trace ++ evs := hsound.trace
    rw [hP]
    refine ⟨hfin.1, ?_, delCalls, ?_, hwc, hdc⟩
    · simp only [ProcessReturn.returned.injEq]
      exact hfin.2
    · have hdt' : (deletePhase w fuel s0).2.trace =
          s0.trace ++ (newCalls s0 (walkPhase w fuel s0).2 ++ [.doneScheduling, .wait] ++
            delCalls) := hdt
      have hrest : (deleteExtra w fuel (deletePhase w fuel s0).2 s0.targetPath).2.trace =
          (deletePhase w fuel s0).2.trace ++
            newCalls (deletePhase w fuel s0).2
              (deleteExtra w fuel (deletePhase w fuel s0).2 s0.targetPath).2 := by
        rw [newCalls_eq hextra]
        exact hextra
      simp only [hfin.1]
      exact newCalls_trans hdt' hrest

/-- C18, witness: the walk over the local directory `d` returns nil and `Wait`
fails; `Process` returns the wrapped error and its last call is `Wait`. -/
theorem Process_reconciles_after_wait_witness :
    (walkPhase stallWorld 4 (ProcessSetup stallWorld plainCommand).2).1 = .nil ∧
    Process stallWorld 4 plainCommand =
      (.returned (.error (.Wrap "failed to bundle-put" [] (.Remote 5))),
        afterWait stallWorld
          (walkPhase stallWorld 4 (ProcessSetup stallWorld plainCommand).2).2) ∧
    ∀ ev ∈ newCalls (ProcessSetup stallWorld plainCommand).2
        (Process stallWorld 4 plainCommand).2, ev.reconciles = false :=
  ⟨by decide,
    ((Process_reconciles_after_wait stallWorld 4 plainCommand
      (ProcessSetup stallWorld plainCommand).2 rfl).2.1 (by decide) (.Remote 5) rfl).1,
    ((Process_reconciles_after_wait stallWorld 4 plainCommand
      (ProcessSetup stallWorld plainCommand).2 rfl).2.1 (by decide) (.Remote 5) rfl).2.2⟩

/-! ### `getStagingDir`: a data object at the user path, and the default path -/

/-- C21. When the user-supplied staging path exists and is not a collection,
`getStagingDir` returns the empty path and the error "staging path is a
file".  Its only call is the `Stat` on the user path: no safety check, no
resource check, no removal, no `GetDefaultStagingDir` fallback; the remote
catalog is as it was. -/
theorem getStagingDir_user_path_is_file (w : World) (bput : BputCommand) (targetPath : String)
    (tempEntry : Entry)
    (hU : bput.IRODSTempPath.length > 0)
    (hS : statResult w bput.filesystem (w.MakeIRODSPath bput.IRODSTempPath) = .ok tempEntry)
    (hF : tempEntry.IsDir = false) :
    (getStagingDir w bput targetPath).1 =
      .ret none (some (.Errorf "staging path is a file" (w.MakeIRODSPath bput.IRODSTempPath))) ∧
    newCalls bput (getStagingDir w bput targetPath).2 =
      [.stat (w.MakeIRODSPath bput.IRODSTempPath)] ∧
    (getStagingDir w bput targetPath).2.filesystem = bput.filesystem := by
  refine ⟨?_, newCalls_eq ?_, ?_⟩ <;>
    simp [getStagingDir, hU, FileSystem.Stat, hS, getStagingDirUser, hF, BputCommand.log]

/-- C21, witness: `/zone/home/u/stage` is a data object. -/
theorem getStagingDir_user_path_is_file_witness :
    (getStagingDir quietWorld fileStagingCommand "/zone/home/u/data").1 =
      .ret none (some (.Errorf "staging path is a file" ["zone", "home", "u", "stage"])) ∧
    newCalls fileStagingCommand
        (getStagingDir quietWorld fileStagingCommand "/zone/home/u/data").2 =
      [.stat ["zone", "home", "u", "stage"]] ∧
    (getStagingDir quietWorld fileStagingCommand "/zone/home/u/data").2.filesystem =
      fileStagingCommand.filesystem :=
  getStagingDir_user_path_is_file quietWorld fileStagingCommand "/zone/home/u/data"
    (dataObject ["zone", "home", "u", "stage"] 5 "" []) (by decide) rfl rfl

/-- C22. Without a user staging path `getStagingDir` works on
`GetDefaultStagingDir(target)`.  (1) If the safety check on it fails, the call
returns the empty path and an error wrapping the safety error; the safety
check is its only call and nothing is created.  (2) If the path is safe and
`MakeDir(path, true)` fails, the call returns the empty path and an error
wrapping the `MakeDir` error, the catalog unchanged.  (3) If the path is safe
and `MakeDir(path, true)` succeeds, the call returns exactly that path with a
nil error, and the catalog is the one `MakeDir` left. -/
theorem getStagingDir_default_path (w : World) (bput : BputCommand) (targetPath : String)
    (hU : bput.IRODSTempPath.length = 0) :
    (∀ err, w.IsSafeStagingDir (w.GetDefaultStagingDir (w.MakeIRODSPath targetPath)) = some err →
      (getStagingDir w bput targetPath).1 =
        .ret none (some (.Wrap "staging path is not safe"
          (w.GetDefaultStagingDir (w.MakeIRODSPath targetPath)) err)) ∧
      newCalls bput (getStagingDir w bput targetPath).2 =
        [.isSafeStagingDir (w.GetDefaultStagingDir (w.MakeIRODSPath targetPath))] ∧
      (getStagingDir w bput targetPath).2.filesystem = bput.filesystem) ∧
    (w.IsSafeStagingDir (w.GetDefaultStagingDir (w.MakeIRODSPath targetPath)) = none →
      (∀ err, w.MakeDirErr (w.GetDefaultStagingDir (w.MakeIRODSPath targetPath)) = some err →
        (getStagingDir w bput targetPath).1 =
          .ret none (some (.Wrap "failed to make a collection"
            (w.GetDefaultStagingDir (w.MakeIRODSPath targetPath)) err)) ∧
        newCalls bput (getStagingDir w bput targetPath).2 =
          [.isSafeStagingDir (w.GetDefaultStagingDir (w.MakeIRODSPath targetPath)),
            .makeDir (w.GetDefaultStagingDir (w.MakeIRODSPath targetPath)) true] ∧
        (getStagingDir w bput targetPath).2.filesystem = bput.filesystem) ∧
      (w.MakeDirErr (w.GetDefaultStagingDir (w.MakeIRODSPath targetPath)) = none →
        (getStagingDir w bput targetPath).1 =
          .ret (some (w.GetDefaultStagingDir (w.MakeIRODSPath targetPath))) none ∧
        newCalls bput (getStagingDir w bput targetPath).2 =
          [.isSafeStagingDir (w.GetDefaultStagingDir (w.MakeIRODSPath targetPath)),
            .makeDir (w.GetDefaultStagingDir (w.MakeIRODSPath targetPath)) true] ∧
        (getStagingDir w bput targetPath).2.filesystem =
          fsMakeDir bput.filesystem (w.GetDefaultStagingDir (w.MakeIRODSPath targetPath))
            true)) := by
  refine ⟨?_, ?_⟩
  · intro err hSafe
    refine ⟨?_, newCalls_eq ?_, ?_⟩ <;>
      simp [getStagingDir, hU, IsSafeStagingDir, hSafe, BputCommand.log]
  · intro hSafe
    refine ⟨?_, ?_⟩
    · intro err hM
      refine ⟨?_, newCalls_eq ?_, ?_⟩ <;>
        simp [getStagingDir, hU, IsSafeStagingDir, hSafe, FileSystem.MakeDir, hM,
          BputCommand.log]
    · intro hM
      refine ⟨?_, newCalls_eq ?_, ?_⟩ <;>
        simp [getStagingDir, hU, IsSafeStagingDir, hSafe, FileSystem.MakeDir, hM,
          BputCommand.log]

/-- C22, witness: for the target `/zone/home/u/data` the default path
`/zone/home/u/data/.gocmd_staging` is safe, is created and is returned. -/
theorem getStagingDir_default_path_witness :
    (getStagingDir quietWorld defaultStagingCommand "/zone/home/u/data").1 =
      .ret (some ["zone", "home", "u", "data", ".gocmd_staging"]) none ∧
    newCalls defaultStagingCommand
        (getStagingDir quietWorld defaultStagingCommand "/zone/home/u/data").2 =
      [.isSafeStagingDir ["zone", "home", "u", "data", ".gocmd_staging"],
        .makeDir ["zone", "home", "u", "data", ".gocmd_staging"] true] ∧
    (getStagingDir quietWorld defaultStagingCommand "/zone/home/u/data").2.filesystem =
      fsMakeDir defaultStagingCommand.filesystem
        ["zone", "home", "u", "data", ".gocmd_staging"] true :=
  ((getStagingDir_default_path quietWorld defaultStagingCommand "/zone/home/u/data"
    (by decide)).2 (by decide)).2 (by decide)

/-! ### `putFile`: when the source is hashed -/

/-- Calls that are neither `HashLocalFile` nor `Schedule` in front of a run do
not change its hashing rule. -/
theorem hashRule_prepend (w : World) (diff noHash : Bool) (sourceStat : FileInfo)
    (sourcePath : Path) (targetEntry : Entry) (pre evs : List Event) (r : Return)
    (hpre : ∀ ev ∈ pre, ev.isHash = false ∧ ev.isSchedule = false)
    (h : HashRule w diff noHash sourceStat sourcePath targetEntry evs r) :
    HashRule w diff noHash sourceStat sourcePath targetEntry (pre ++ evs) r := by
  refine ⟨?_, ?_⟩
  · intro ev hev hh
    rcases List.mem_append.mp hev with hp | he
    · rw [(hpre ev hp).1] at hh
      cases hh
    · exact h.1 ev he hh
  · intro err herr hex
    obtain ⟨ev, hev, hh⟩ := hex
    have hin : ev ∈ evs := by
      rcases List.mem_append.mp hev with hp | he
      · rw [(hpre ev hp).1] at hh
        cases hh
      · exact he
    obtain ⟨hr, hs⟩ := h.2 err herr ⟨ev, hin, hh⟩
    refine ⟨hr, ?_⟩
    intro ev' hev'
    rcases List.mem_append.mp hev' with hp | he
    · exact (hpre ev' hp).2
    · exact hs ev' he

/-- A run without a `HashLocalFile` call keeps the hashing rule. -/
theorem hashRule_of_no_hash (w : World) (diff noHash : Bool) (sourceStat : FileInfo)
    (sourcePath : Path) (targetEntry : Entry) (evs : List Event) (r : Return)
    (h : ∀ ev ∈ evs, ev.isHash = false) :
    HashRule w diff noHash sourceStat sourcePath targetEntry evs r := by
  refine ⟨?_, ?_⟩
  · intro ev hev hh
    rw [h ev hev] at hh
    cases hh
  · intro err _ hex
    obtain ⟨ev, hev, hh⟩ := hex
    rw [h ev hev] at hh
    cases hh

theorem putFileTransfer_hash (w : World) (bput : BputCommand) (sourceStat : FileInfo)
    (sourcePath targetPath : Path) (targetEntry : Entry) :
    HashRule w bput.DifferentialTransfer bput.NoHash sourceStat sourcePath targetEntry
      (newCalls bput (putFileTransfer w bput sourceStat sourcePath targetPath targetEntry).2)
      (putFileTransfer w bput sourceStat sourcePath targetPath targetEntry).1 := by
  unfold putFileTransfer
  cases hD : bput.DifferentialTransfer with
  | true =>
    cases hN : bput.NoHash with
    | true =>
      apply hashRule_of_no_hash
      by_cases hSz : targetEntry.Size = sourceStat.Size
      · simp [hSz, AddFile, BputCommand.log, newCalls, Event.isHash]
      · simp [hSz, schedulePut_eq, BputCommand.log, newCalls, Event.isHash]
    | false =>
      by_cases hSz : targetEntry.Size = sourceStat.Size
      · by_cases hC : 0 < targetEntry.CheckSum.length
        · cases hH : w.HashLocalFile sourcePath targetEntry.CheckSumAlgorithm with
          | error e =>
            simp [HashRule, hSz, hC, HashLocalFile, hH, BputCommand.log, newCalls,
              Event.isHash, Event.isSchedule]
          | ok localChecksum =>
            by_cases heq : localChecksum = targetEntry.CheckSum
            · simp [HashRule, hSz, hC, HashLocalFile, hH, heq, AddFile, BputCommand.log,
                newCalls, Event.isHash]
            · simp [HashRule, hSz, hC, HashLocalFile, hH, heq, schedulePut_eq,
                BputCommand.log, newCalls, Event.isHash]
        · apply hashRule_of_no_hash
          simp [hSz, hC, schedulePut_eq, BputCommand.log, newCalls, Event.isHash]
      · apply hashRule_of_no_hash
        simp [hSz, schedulePut_eq, BputCommand.log, newCalls, Event.isHash]
  | false =>
    apply hashRule_of_no_hash
    cases hF : bput.Force with
    | true => simp [schedulePut_eq, BputCommand.log, newCalls, Event.isHash]
    | false =>
      cases hY : w.InputYN bput.asked with
      | true => simp [InputYN, hY, schedulePut_eq, BputCommand.log, newCalls, Event.isHash]
      | false => simp [InputYN, hY, AddFile, BputCommand.log, newCalls, Event.isHash]

theorem putFileReplaceDir_hash (w : World) (bput : BputCommand) (sourceStat : FileInfo)
    (sourcePath targetPath : Path) (targetEntry : Entry) :
    HashRule w bput.DifferentialTransfer bput.NoHash sourceStat sourcePath targetEntry
      (newCalls bput (putFileReplaceDir w bput sourceStat sourcePath targetPath targetEntry).2)
      (putFileReplaceDir w bput sourceStat sourcePath targetPath targetEntry).1 := by
  unfold putFileReplaceDir
  cases hR : w.RemoveDirErr targetPath with
  | some err =>
    apply hashRule_of_no_hash
    simp [FileSystem.RemoveDir, hR, AddFile, BputCommand.log, newCalls, Event.isHash]
  | none =>
    simp only [FileSystem.RemoveDir, hR, AddFile]
    have hrule := putFileTransfer_hash w
      (({ bput.log (.removeDir targetPath true true) with
          filesystem := fsRemoveDir (bput.log (.removeDir targetPath true true)).filesystem
            targetPath } : BputCommand).log
        (.addFile { Method := .TransferMethodDelete, SourcePath := targetPath,
                    Error := none, Notes := ["overwrite", "put", "dir"] }))
      sourceStat sourcePath targetPath targetEntry
    obtain ⟨htr, -⟩ := putFileTransfer_calls w
      (({ bput.log (.removeDir targetPath true true) with
          filesystem := fsRemoveDir (bput.log (.removeDir targetPath true true)).filesystem
            targetPath } : BputCommand).log
        (.addFile { Method := .TransferMethodDelete, SourcePath := targetPath,
                    Error := none, Notes := ["overwrite", "put", "dir"] }))
      sourceStat sourcePath targetPath targetEntry
    have h2 : (({ bput.log (.removeDir targetPath true true) with
          filesystem := fsRemoveDir (bput.log (.removeDir targetPath true true)).filesystem
            targetPath } : BputCommand).log
        (.addFile { Method := .TransferMethodDelete, SourcePath := targetPath,
                    Error := none, Notes := ["overwrite", "put", "dir"] })).trace =
        bput.trace ++ [.removeDir targetPath true true,
          .addFile { Method := .TransferMethodDelete, SourcePath := targetPath,
                     Error := none, Notes := ["overwrite", "put", "dir"] }] := by
      simp [BputCommand.log]
    have hpre2 : ∀ ev ∈ [Event.removeDir targetPath true true,
        .addFile { Method := .TransferMethodDelete, SourcePath := targetPath,
                   Error := none, Notes := ["overwrite", "put", "dir"] }],
        ev.isHash = false ∧ ev.isSchedule = false := by
      simp [Event.isHash, Event.isSchedule]
    rw [newCalls_trans h2 htr]
    exact hashRule_prepend w _ _ _ _ _ _ _ _ hpre2 hrule

/-- The hashing rule holds of every run of `putFile` in which `Stat` returned
an entry. -/
theorem putFile_hashRule (w : World) (bput : BputCommand) (sourceStat : FileInfo)
    (sourcePath targetPath : Path) (targetEntry : Entry)
    (hT : w.GetTargetPath sourcePath = .ok targetPath)
    (hS : statResult w bput.filesystem targetPath = .ok targetEntry) :
    HashRule w bput.DifferentialTransfer bput.NoHash sourceStat sourcePath targetEntry
      (newCalls bput (putFile w bput sourceStat sourcePath).2)
      (putFile w bput sourceStat sourcePath).1 := by
  have h3 := afterStat_trace w bput sourcePath targetPath
  have hpre3 : ∀ ev ∈ [Event.getTargetPath sourcePath, .markPathMap targetPath,
      .stat targetPath], ev.isHash = false ∧ ev.isSchedule = false := by
    simp [Event.isHash, Event.isSchedule]
  cases hD : targetEntry.IsDir with
  | false =>
    rw [putFile_of_file w bput sourceStat sourcePath targetPath targetEntry hT hS hD]
    obtain ⟨htr, -⟩ := putFileTransfer_calls w
      (afterStat w bput sourcePath targetPath) sourceStat sourcePath targetPath targetEntry
    rw [newCalls_trans h3 htr]
    exact hashRule_prepend w _ _ _ _ _ _ _ _ hpre3
      (putFileTransfer_hash w (afterStat w bput sourcePath targetPath) sourceStat sourcePath
        targetPath targetEntry)
  | true =>
    rw [putFile_of_dir w bput sourceStat sourcePath targetPath targetEntry hT hS hD]
    cases hSy : bput.Sync with
    | false =>
      apply hashRule_of_no_hash
      simp [newCalls, h3, Event.isHash]
    | true =>
      cases hFo : bput.Force with
      | true =>
        simp only [if_true]
        obtain ⟨htr, -⟩ := putFileReplaceDir_calls w
          (afterStat w bput sourcePath targetPath) sourceStat sourcePath targetPath targetEntry
        rw [newCalls_trans h3 htr]
        exact hashRule_prepend w _ _ _ _ _ _ _ _ hpre3
          (putFileReplaceDir_hash w (afterStat w bput sourcePath targetPath) sourceStat
            sourcePath targetPath targetEntry)
      | false =>
        cases hY : w.InputYN bput.asked with
        | false =>
          apply hashRule_of_no_hash
          simp [InputYN, BputCommand.log, h3, newCalls, Event.isHash]
        | true =>
          simp only [if_true, Bool.false_eq_true, if_false]
          have h4 : (InputYN w (afterStat w bput sourcePath targetPath)
              "overwriting a file, but directory exists. Overwrite?" targetPath).2.trace =
              bput.trace ++ [.getTargetPath sourcePath, .markPathMap targetPath,
                .stat targetPath,
                .inputYN "overwriting a file, but directory exists. Overwrite?"
                  targetPath] := by
            simp [InputYN, BputCommand.log, h3]
          obtain ⟨htr, -⟩ := putFileReplaceDir_calls w
            (InputYN w (afterStat w bput sourcePath targetPath)
              "overwriting a file, but directory exists. Overwrite?" targetPath).2
            sourceStat sourcePath targetPath targetEntry
          have hpre4 : ∀ ev ∈ [Event.getTargetPath sourcePath, .markPathMap targetPath,
              .stat targetPath,
              .inputYN "overwriting a file, but directory exists. Overwrite?" targetPath],
              ev.isHash = false ∧ ev.isSchedule = false := by
            simp [Event.isHash, Event.isSchedule]
          have hrule := putFileReplaceDir_hash w
            (InputYN w (afterStat w bput sourcePath targetPath)
              "overwriting a file, but directory exists. Overwrite?" targetPath).2
            sourceStat sourcePath targetPath targetEntry
          have hd : (InputYN w (afterStat w bput sourcePath targetPath)
              "overwriting a file, but directory exists. Overwrite?"
              targetPath).2.DifferentialTransfer = bput.DifferentialTransfer := by
            simp [InputYN, afterStat, MarkPathMap, BputCommand.log]
          have hn : (InputYN w (afterStat w bput sourcePath targetPath)
              "overwriting a file, but directory exists. Overwrite?"
              targetPath).2.NoHash = bput.NoHash := by
            simp [InputYN, afterStat, MarkPathMap, BputCommand.log]
          rw [hd, hn] at hrule
          rw [newCalls_trans h4 htr]
          exact hashRule_prepend w bput.DifferentialTransfer bput.NoHash sourceStat sourcePath
            targetEntry _ _ _ hpre4 hrule

/-- A run of `putFile` in which `GetTargetPath` or `Stat` fails hashes
nothing. -/
theorem putFile_no_hash_without_entry (w : World) (bput : BputCommand) (sourceStat : FileInfo)
    (sourcePath : Path)
    (h : ∀ targetPath, w.GetTargetPath sourcePath = .ok targetPath →
      ∃ e, statResult w bput.filesystem targetPath = .error e) :
    ∀ ev ∈ newCalls bput (putFile w bput sourceStat sourcePath).2, ev.isHash = false := by
  cases hT : w.GetTargetPath sourcePath with
  | error e => simp [putFile, GetTargetPath, hT, BputCommand.log, newCalls, Event.isHash]
  | ok targetPath =>
    obtain ⟨e, hS⟩ := h targetPath hT
    cases hnf : IsFileNotFoundError e <;>
      simp [putFile, GetTargetPath, MarkPathMap, FileSystem.Stat, BputCommand.log, hT, hS,
        hnf, schedulePut_eq, newCalls, Event.isHash]

/-- C23. For every run of `putFile`: (1) a `HashLocalFile` call is made only
when differential transfer is on, no-hash is off, and `Stat` returned an entry
whose size equals the source size and whose checksum is not empty; the call is
on the source, with the algorithm of that entry.  (2) When `Stat` returned an
entry whose size differs from the source size, nothing is hashed.  (3) When a
`HashLocalFile` call of the run fails, the run returns that error, wrapped as
"failed to get hash", and has not called `Schedule`. -/
theorem putFile_hash_guard (w : World) (bput : BputCommand) (sourceStat : FileInfo)
    (sourcePath : Path) :
    (∀ ev ∈ newCalls bput (putFile w bput sourceStat sourcePath).2, ev.isHash = true →
      bput.DifferentialTransfer = true ∧ bput.NoHash = false ∧
      ∃ targetPath targetEntry,
        w.GetTargetPath sourcePath = .ok targetPath ∧
        statResult w bput.filesystem targetPath = .ok targetEntry ∧
        targetEntry.Size = sourceStat.Size ∧ 0 < targetEntry.CheckSum.length ∧
        ev = .hashLocalFile sourcePath targetEntry.CheckSumAlgorithm) ∧
    (∀ targetPath targetEntry, w.GetTargetPath sourcePath = .ok targetPath →
      statResult w bput.filesystem targetPath = .ok targetEntry →
      targetEntry.Size ≠ sourceStat.Size →
      ∀ ev ∈ newCalls bput (putFile w bput sourceStat sourcePath).2, ev.isHash = false) ∧
    (∀ algorithm err,
      Event.hashLocalFile sourcePath algorithm ∈
        newCalls bput (putFile w bput sourceStat sourcePath).2 →
      w.HashLocalFile sourcePath algorithm = .error err →
      (putFile w bput sourceStat sourcePath).1 =
        .error (.Wrap "failed to get hash" sourcePath err) ∧
      ∀ ev ∈ newCalls bput (putFile w bput sourceStat sourcePath).2,
        ev.isSchedule = false) := by
  have key : ∀ ev ∈ newCalls bput (putFile w bput sourceStat sourcePath).2,
      ev.isHash = true →
      ∃ targetPath targetEntry,
        w.GetTargetPath sourcePath = .ok targetPath ∧
        statResult w bput.filesystem targetPath = .ok targetEntry ∧
        HashRule w bput.DifferentialTransfer bput.NoHash sourceStat sourcePath targetEntry
          (newCalls bput (putFile w bput sourceStat sourcePath).2)
          (putFile w bput sourceStat sourcePath).1 := by
    intro ev hev hh
    cases hT : w.GetTargetPath sourcePath with
    | error e =>
      have := putFile_no_hash_without_entry w bput sourceStat sourcePath
        (fun tp htp => by rw [hT] at htp; cases htp) ev hev
      rw [this] at hh
      cases hh
    | ok targetPath =>
      cases hS : statResult w bput.filesystem targetPath with
      | error e =>
        have := putFile_no_hash_without_entry w bput sourceStat sourcePath
          (fun tp htp => by
            rw [hT] at htp
            cases htp
            exact ⟨e, hS⟩) ev hev
        rw [this] at hh
        cases hh
      | ok targetEntry =>
        exact ⟨targetPath, targetEntry, rfl, hS,
          putFile_hashRule w bput sourceStat sourcePath targetPath targetEntry hT hS⟩
  refine ⟨?_, ?_, ?_⟩
  · intro ev hev hh
    obtain ⟨targetPath, targetEntry, hT, hS, hrule⟩ := key ev hev hh
    obtain ⟨hd, hn, hsz, hc, he⟩ := hrule.1 ev hev hh
    exact ⟨hd, hn, targetPath, targetEntry, hT, hS, hsz, hc, he⟩
  · intro targetPath targetEntry hT hS hne ev hev
    cases hh : ev.isHash with
    | false => rfl
    | true =>
      have hrule := putFile_hashRule w bput sourceStat sourcePath targetPath targetEntry hT hS
      exact absurd (hrule.1 ev hev hh).2.2.1 hne
  · intro algorithm err hev herr
    obtain ⟨targetPath, targetEntry, hT, hS, hrule⟩ := key _ hev rfl
    have he := (hrule.1 _ hev rfl).2.2.2.2
    have halg : algorithm = targetEntry.CheckSumAlgorithm := by
      injection he
    subst halg
    exact hrule.2 err herr ⟨_, hev, rfl⟩

/-- C23, witness: `/t/B` has the size of the local file `B` and carries a
checksum, differential transfer is on, and hashing `B` fails; `putFile`
returns the hashing error and does not schedule `B`. -/
theorem putFile_hash_guard_witness :
    Event.hashLocalFile ["B"] "SHA-256" ∈
      newCalls diffCommand (putFile hashFailWorld diffCommand sourceB ["B"]).2 ∧
    (putFile hashFailWorld diffCommand sourceB ["B"]).1 =
      .error (.Wrap "failed to get hash" ["B"] (.Remote 7)) ∧
    ∀ ev ∈ newCalls diffCommand (putFile hashFailWorld diffCommand sourceB ["B"]).2,
      ev.isSchedule = false :=
  ⟨by decide,
    (putFile_hash_guard hashFailWorld diffCommand sourceB ["B"]).2.2 "SHA-256" (.Remote 7)
      (by decide) rfl⟩

/-! ### `EncryptionManager`: bytes, headers and padding -/

theorem toByte_val (n : Nat) : (toByte n).val = n % 256 := rfl

theorem Uint32_PutUint32 (v : Nat) (h : v < 4294967296) : Uint32 (PutUint32 v) = v := by
  simp only [Uint32, PutUint32, List.getD_cons_zero, List.getD_cons_succ, toByte_val]
  omega

theorem PutUint32_length (v : Nat) : (PutUint32 v).length = 4 := rfl

theorem TrimSuffix_append (b ext : List Byte) : TrimSuffix (b ++ ext) ext = b := by
  have h : ext.isSuffixOf (b ++ ext) = true :=
    List.isSuffixOf_iff_suffix.mpr (List.suffix_append b ext)
  simp [TrimSuffix, h]

theorem padPkcs7_length (data : List Byte) :
    (EncryptionManager.padPkcs7 data 16).length % 16 = 0 ∧
    data.length ≤ (EncryptionManager.padPkcs7 data 16).length := by
  simp only [EncryptionManager.padPkcs7, List.length_append, List.length_replicate]
  omega

theorem padPkcs7_take (data : List Byte) :
    (EncryptionManager.padPkcs7 data 16).take data.length = data := by
  simp [EncryptionManager.padPkcs7]

theorem padAesKey_of_long (lib : Library) (key : List Byte)
    (h : 16 ≤ (key ++ lib.aesPadding).length) :
    ∃ padded, EncryptionManager.padAesKey lib key = some padded ∧ padded.length = 16 := by
  refine ⟨(key ++ lib.aesPadding).take 16, ?_, ?_⟩
  · simp only [EncryptionManager.padAesKey]
    rw [if_neg (by omega)]
  · rw [List.length_take]
    omega

/-! ### `EncryptionManager`: `encryptAES` and `decryptAES` -/

theorem encryptAES_of_key (lib : Library) (manager : EncryptionManager) (data key : List Byte)
    (hk : EncryptionManager.padAesKey lib manager.password = some key)
    (hlen : key.length = 16) (hiv : lib.aesIV.length = 16) :
    EncryptionManager.encryptAES lib manager data =
      .ret (PutUint32 (data.length % 4294967296) ++
        lib.cbcEncrypt key lib.aesIV (EncryptionManager.padPkcs7 data 16)) none := by
  simp [EncryptionManager.encryptAES, hk, aesNewCipher, hlen, hiv]

theorem decryptAES_of_key (lib : Library) (manager : EncryptionManager) (data key : List Byte)
    (hk : EncryptionManager.padAesKey lib manager.password = some key)
    (hlen : key.length = 16) (hiv : lib.aesIV.length = 16) :
    EncryptionManager.decryptAES lib manager data =
      if data.length < 4 then .panic
      else if (data.drop 4).length % 16 ≠ 0 then .panic
      else if Uint32 (data.take 4) > (data.drop 4).length then .panic
      else .ret ((lib.cbcDecrypt key lib.aesIV (data.drop 4)).take (Uint32 (data.take 4)))
        none := by
  simp [EncryptionManager.decryptAES, hk, aesNewCipher, hlen, hiv]

/-- With a lawful library, `decryptAES` gives back of the bytes that
`encryptAES` was given as many as the 32-bit length header counts. -/
theorem decryptAES_encryptAES (lib : Library) (hlaw : lib.Lawful)
    (manager : EncryptionManager) (data key : List Byte)
    (hk : EncryptionManager.padAesKey lib manager.password = some key)
    (hlen : key.length = 16) (hiv : lib.aesIV.length = 16) :
    EncryptionManager.decryptAES lib manager
        (PutUint32 (data.length % 4294967296) ++
          lib.cbcEncrypt key lib.aesIV (EncryptionManager.padPkcs7 data 16)) =
      .ret (data.take (data.length % 4294967296)) none := by
  have hpad := padPkcs7_length data
  have hcl := hlaw.cbcLength key lib.aesIV (EncryptionManager.padPkcs7 data 16)
  have hmod : data.length % 4294967296 ≤ data.length := Nat.mod_le _ _
  have htake : (PutUint32 (data.length % 4294967296) ++
      lib.cbcEncrypt key lib.aesIV (EncryptionManager.padPkcs7 data 16)).take 4 =
      PutUint32 (data.length % 4294967296) :=
    List.take_left' (PutUint32_length _)
  have hdrop : (PutUint32 (data.length % 4294967296) ++
      lib.cbcEncrypt key lib.aesIV (EncryptionManager.padPkcs7 data 16)).drop 4 =
      lib.cbcEncrypt key lib.aesIV (EncryptionManager.padPkcs7 data 16) :=
    List.drop_left' (PutUint32_length _)
  rw [decryptAES_of_key lib manager _ key hk hlen hiv, htake, hdrop,
    Uint32_PutUint32 _ (Nat.mod_lt _ (by decide)), hcl,
    hlaw.cbc key lib.aesIV _ hlen hiv hpad.1]
  rw [if_neg (by simp [PutUint32_length]), if_neg (by omega), if_neg (by omega)]
  congr 1
  simp only [EncryptionManager.padPkcs7]
  exact List.take_append_of_le_length hmod

/-! ### `EncryptionManager`: the example library keeps the contract -/

theorem rotate_back (b : Byte) : toByte ((toByte (b.val + 1)).val + 255) = b := by
  apply Fin.ext
  have := b.isLt
  simp only [toByte_val]
  omega

theorem rotate_back_map (bs : List Byte) :
    (bs.map (fun b => toByte (b.val + 1))).map (fun b => toByte (b.val + 255)) = bs := by
  rw [List.map_map]
  conv_rhs => rw [← List.map_id bs]
  apply List.map_congr_left
  intro b _
  exact rotate_back b

theorem pairDecode_pairEncode (bs : List Byte) : pairDecode (pairEncode bs) = (bs, none) := by
  induction bs with
  | nil => rfl
  | cons b rest ih =>
    have hb := b.isLt
    have hhi : (toByte (48 + b.val / 16)).val = 48 + b.val / 16 := by
      simp only [toByte_val]
      omega
    have hlo : (toByte (48 + b.val % 16)).val = 48 + b.val % 16 := by
      simp only [toByte_val]
      omega
    have hval : toByte ((48 + b.val / 16 - 48) * 16 + (48 + b.val % 16 - 48)) = b := by
      apply Fin.ext
      simp only [toByte_val]
      omega
    have hcond : 48 ≤ 48 + b.val / 16 ∧ 48 + b.val / 16 < 64 ∧ 48 ≤ 48 + b.val % 16 ∧
        48 + b.val % 16 < 64 := by
      omega
    simp only [pairEncode, pairDecode, hhi, hlo, hcond, and_self, if_true, ih, hval]

theorem exampleLibrary_lawful : exampleLibrary.Lawful where
  base62 := pairDecode_pairEncode
  cbcLength := fun _ _ src => by simp [exampleLibrary]
  cbc := fun _ _ src _ _ _ => rotate_back_map src
  pgp := by
    intro passphrase plaintext prompt h
    simp only [exampleLibrary, h]
    rw [rotate_back_map]

/-! ### `EncryptionManager`: the filename round trip -/

/-- What the filename round trip of the tests returns in PGP mode with a
lawful library: the name itself when filenames are not encrypted, and
otherwise as many bytes of the name as its length modulo `2^32` counts. -/
theorem filenameRoundTrip_eq (lib : Library) (hlaw : lib.Lawful) (manager : EncryptionManager)
    (name : List Byte) (hmode : manager.mode = .EncryptionModePGP)
    (hkey : 16 ≤ (manager.password ++ lib.aesPadding).length)
    (hiv : lib.aesIV.length = 16) :
    (∃ enc, EncryptionManager.EncryptFilename lib manager name = .ret enc none ∧
      EncryptionManager.DecryptFilename lib manager enc =
        .ret (if manager.encryptFilename then name.take (name.length % 4294967296) else name)
          none) ∧
    filenameRoundTrip lib manager name =
      .ret (if manager.encryptFilename then name.take (name.length % 4294967296) else name)
        none := by
  cases hE : manager.encryptFilename with
  | false =>
    have henc : EncryptionManager.EncryptFilename lib manager name = .ret name none := by
      simp [EncryptionManager.EncryptFilename, hmode, EncryptionManager.encryptFilenamePGP, hE]
    have hdec : EncryptionManager.DecryptFilename lib manager name = .ret name none := by
      simp [EncryptionManager.DecryptFilename, hmode, EncryptionManager.decryptFilenamePGP, hE]
    refine ⟨⟨name, henc, by simpa using hdec⟩, ?_⟩
    simp only [filenameRoundTrip, henc, hdec]
    simp
  | true =>
    obtain ⟨key, hk, hlen⟩ := padAesKey_of_long lib manager.password hkey
    have henc : EncryptionManager.EncryptFilename lib manager name =
        .ret (lib.EncodeToString (PutUint32 (name.length % 4294967296) ++
          lib.cbcEncrypt key lib.aesIV (EncryptionManager.padPkcs7 name 16)) ++
          PgpEncryptedFileExt) none := by
      simp [EncryptionManager.EncryptFilename, hmode, EncryptionManager.encryptFilenamePGP, hE,
        encryptAES_of_key lib manager name key hk hlen hiv]
    have hdec : EncryptionManager.DecryptFilename lib manager
        (lib.EncodeToString (PutUint32 (name.length % 4294967296) ++
          lib.cbcEncrypt key lib.aesIV (EncryptionManager.padPkcs7 name 16)) ++
          PgpEncryptedFileExt) =
        .ret (name.take (name.length % 4294967296)) none := by
      simp only [EncryptionManager.DecryptFilename, hmode,
        EncryptionManager.decryptFilenamePGP, hE, Bool.not_true, Bool.false_eq_true, if_false,
        TrimSuffix_append, hlaw.base62,
        decryptAES_encryptAES lib hlaw manager name key hk hlen hiv]
    refine ⟨⟨_, henc, by simpa using hdec⟩, ?_⟩
    simp only [filenameRoundTrip, henc, hdec]
    simp

/-- C24, counterexample.  A name of `2^32` bytes `'a'`, filename encryption on:
`encryptAES` writes the length header `uint32(len(data)) = 0`, so the name that
comes back from `DecryptFilename` is empty, with a nil error. -/
theorem filenameRoundTrip_long_name :
    filenameRoundTrip exampleLibrary exampleManager (List.replicate 4294967296 97) =
      .ret [] none ∧
    List.replicate 4294967296 (97 : Byte) ≠ [] := by
  refine ⟨?_, ?_⟩
  · have h := (filenameRoundTrip_eq exampleLibrary exampleLibrary_lawful exampleManager
      (List.replicate 4294967296 97) rfl (by decide) (by decide)).2
    have hE : exampleManager.encryptFilename = true := rfl
    rw [hE, if_pos rfl, List.length_replicate, Nat.mod_self, List.take_zero] at h
    exact h
  · intro h
    have hl := congrArg List.length h
    rw [List.length_replicate, List.length_nil] at hl
    exact absurd hl (by decide)

/-- C24, as amended.  Let the library be lawful, the IV 16 bytes long and the
password with the padding at least 16 bytes long.  For a manager in PGP mode
and every name, `EncryptFilename` returns a name `enc` with a nil error, and:
(1) when filenames are not encrypted, `enc` is the name unchanged and
`DecryptFilename` returns it unchanged with a nil error, whatever its length;
(2) when filenames are encrypted, `DecryptFilename` on `enc` returns, with a
nil error, the first `len(name) mod 2^32` bytes of the name, the number that
the four-byte length header holds; (3) so for either setting and every name
shorter than `2^32` bytes `DecryptFilename` on `enc` returns the name itself
with a nil error. -/
theorem filename_round_trip (lib : Library) (hlaw : lib.Lawful) (manager : EncryptionManager)
    (name : List Byte) (hmode : manager.mode = .EncryptionModePGP)
    (hkey : 16 ≤ (manager.password ++ lib.aesPadding).length)
    (hiv : lib.aesIV.length = 16) :
    ∃ enc, EncryptionManager.EncryptFilename lib manager name = .ret enc none ∧
      (manager.encryptFilename = false →
        enc = name ∧ EncryptionManager.DecryptFilename lib manager enc = .ret name none) ∧
      (manager.encryptFilename = true →
        EncryptionManager.DecryptFilename lib manager enc =
          .ret (name.take (name.length % 4294967296)) none) ∧
      (name.length < 4294967296 →
        EncryptionManager.DecryptFilename lib manager enc = .ret name none) := by
  obtain ⟨enc, henc, hdec⟩ := (filenameRoundTrip_eq lib hlaw manager name hmode hkey hiv).1
  have hplain : manager.encryptFilename = false →
      enc = name ∧ EncryptionManager.DecryptFilename lib manager enc = .ret name none := by
    intro hE
    have h : EncryptionManager.EncryptFilename lib manager name = .ret name none := by
      simp [EncryptionManager.EncryptFilename, hmode, EncryptionManager.encryptFilenamePGP, hE]
    rw [h] at henc
    injection henc with h1 _
    rw [hE] at hdec
    exact ⟨h1.symm, by simpa using hdec⟩
  have hcut : manager.encryptFilename = true →
      EncryptionManager.DecryptFilename lib manager enc =
        .ret (name.take (name.length % 4294967296)) none := by
    intro hE
    rw [hE, if_pos rfl] at hdec
    exact hdec
  refine ⟨enc, henc, hplain, hcut, ?_⟩
  intro hshort
  cases hE : manager.encryptFilename with
  | false => exact (hplain hE).2
  | true =>
    have h := hcut hE
    rw [Nat.mod_eq_of_lt hshort, List.take_length] at h
    exact h

/-- C24, witness: the two-byte name `ab` with the password `pw`, filenames
encrypted. -/
theorem filename_round_trip_witness :
    ∃ enc, EncryptionManager.EncryptFilename exampleLibrary exampleManager [97, 98] =
        .ret enc none ∧
      (exampleManager.encryptFilename = false →
        enc = [97, 98] ∧
        EncryptionManager.DecryptFilename exampleLibrary exampleManager enc =
          .ret [97, 98] none) ∧
      (exampleManager.encryptFilename = true →
        EncryptionManager.DecryptFilename exampleLibrary exampleManager enc =
          .ret (([97, 98] : List Byte).take (([97, 98] : List Byte).length % 4294967296))
            none) ∧
      ((([97, 98] : List Byte).length < 4294967296) →
        EncryptionManager.DecryptFilename exampleLibrary exampleManager enc =
          .ret [97, 98] none) :=
  filename_round_trip exampleLibrary exampleLibrary_lawful exampleManager [97, 98] rfl
    (by decide) (by decide)

/-! ### `EncryptionManager`: the file round trip -/

theorem Disk.read_write_same (disk : Disk) (path : String) (content : List Byte) :
    Disk.read (Disk.write disk path content) path = some content := by
  simp [Disk.read, Disk.write, List.lookup]

theorem lookup_filter_other (path other : String) (h : other ≠ path) :
    ∀ (disk : Disk),
      List.lookup other (disk.filter (fun f => !(f.1 == path))) = List.lookup other disk := by
  intro disk
  induction disk with
  | nil => rfl
  | cons f rest ih =>
    obtain ⟨name, bytes⟩ := f
    by_cases hn : name = path
    · have hb : (name == path) = true := by simpa using hn
      have ho : (other == name) = false := by
        simpa using fun hon => h (hon.trans hn)
      rw [List.filter_cons_of_neg (by simp [hb]), ih, List.lookup_cons, ho]
    · have hb : (name == path) = false := by simpa using hn
      rw [List.filter_cons_of_pos (by simp [hb]), List.lookup_cons, List.lookup_cons, ih]

theorem Disk.read_write_other (disk : Disk) (path other : String) (content : List Byte)
    (h : other ≠ path) :
    Disk.read (Disk.write disk path content) other = Disk.read disk other := by
  have hb : (other == path) = false := by simpa using h
  unfold Disk.read Disk.write
  rw [List.lookup_cons, hb]
  exact lookup_filter_other path other h disk

theorem osOpen_of_file (lib : Library) (disk : Disk) (path : String) (content : List Byte)
    (hopen : lib.OpenErr path = none) (hfile : Disk.read disk path = some content) :
    osOpen lib disk path = none := by
  simp [osOpen, hopen, hfile]

/-- `encryptFilePGP` on a source that can be read and a different target that
can be written. -/
theorem encryptFilePGP_of_file (lib : Library) (manager : EncryptionManager) (disk : Disk)
    (source target : String) (content : List Byte)
    (hfile : Disk.read disk source = some content)
    (hopen : lib.OpenErr source = none) (hcreate : lib.CreateErr target = none)
    (hwriter : lib.SymmetricallyEncryptErr manager.password = none)
    (hcopy : lib.EncryptCopyErr content = none) (hne : target ≠ source) :
    EncryptionManager.encryptFilePGP lib manager disk source target =
      (none, Disk.write (Disk.write disk target []) target
        (lib.SymmetricallyEncrypt manager.password content)) := by
  have hread : Disk.read (Disk.write disk target []) source = some content := by
    rw [Disk.read_write_other disk target source [] (Ne.symm hne), hfile]
  simp [EncryptionManager.encryptFilePGP, osOpen_of_file lib disk source content hopen hfile,
    hcreate, hwriter, hread, hcopy]

/-- `decryptFilePGP` on a message of `SymmetricallyEncrypt` under the manager's
password and a different target that can be written. -/
theorem decryptFilePGP_of_message (lib : Library) (hlaw : lib.Lawful)
    (manager : EncryptionManager) (disk : Disk) (source target : String)
    (content : List Byte)
    (hfile : Disk.read disk source =
      some (lib.SymmetricallyEncrypt manager.password content))
    (hopen : lib.OpenErr source = none) (hcreate : lib.CreateErr target = none)
    (hne : target ≠ source) :
    EncryptionManager.decryptFilePGP lib manager disk source target =
      (none, Disk.write (Disk.write disk target []) target content) := by
  have hread : Disk.read (Disk.write disk target []) source =
      some (lib.SymmetricallyEncrypt manager.password content) := by
    rw [Disk.read_write_other disk target source [] (Ne.symm hne), hfile]
  have hmsg := hlaw.pgp manager.password content
    (fun n => if n = 0 then .ok manager.password else .error (.Errorf "decryption failed" []))
    rfl
  simp [EncryptionManager.decryptFilePGP, osOpen_of_file lib disk source _ hopen hfile,
    hcreate, hread, hmsg]

/-- C25. Let the library be lawful and the file system work (the source can
be opened, `enc` and `dec` can be created, `enc` can be opened, the encrypting
writer is set up and fed without an error), and let `enc` differ from the
source and from `dec`.  For a PGP-mode manager with any password and a source
of any content: `EncryptFile(source, enc)` returns nil, `DecryptFile(enc, dec)`
on the disk it leaves returns nil, and afterwards `dec` holds exactly the
bytes the source held; when `dec` is not the source itself, the source still
holds them too. -/
theorem file_round_trip (lib : Library) (hlaw : lib.Lawful) (manager : EncryptionManager)
    (disk : Disk) (source enc dec : String) (content : List Byte)
    (hmode : manager.mode = .EncryptionModePGP)
    (hfile : Disk.read disk source = some content)
    (hworks : lib.Works manager source enc dec content)
    (hne : enc ≠ source) (hdec : dec ≠ enc) :
    (EncryptionManager.EncryptFile lib manager disk source enc).1 = none ∧
    (EncryptionManager.DecryptFile lib manager
      (EncryptionManager.EncryptFile lib manager disk source enc).2 enc dec).1 = none ∧
    Disk.read (EncryptionManager.DecryptFile lib manager
      (EncryptionManager.EncryptFile lib manager disk source enc).2 enc dec).2 dec =
        some content ∧
    (dec ≠ source →
      Disk.read (EncryptionManager.DecryptFile lib manager
        (EncryptionManager.EncryptFile lib manager disk source enc).2 enc dec).2 source =
          some content) := by
  have henc : EncryptionManager.EncryptFile lib manager disk source enc =
      (none, Disk.write (Disk.write disk enc []) enc
        (lib.SymmetricallyEncrypt manager.password content)) := by
    simp only [EncryptionManager.EncryptFile, hmode]
    exact encryptFilePGP_of_file lib manager disk source enc content hfile hworks.openSource
      hworks.createEnc hworks.writer hworks.copy hne
  have hdecrypt : EncryptionManager.DecryptFile lib manager
      (Disk.write (Disk.write disk enc []) enc
        (lib.SymmetricallyEncrypt manager.password content)) enc dec =
      (none, Disk.write
        (Disk.write (Disk.write (Disk.write disk enc []) enc
          (lib.SymmetricallyEncrypt manager.password content)) dec []) dec content) := by
    simp only [EncryptionManager.DecryptFile, hmode]
    exact decryptFilePGP_of_message lib hlaw manager _ enc dec content
      (Disk.read_write_same _ enc _) hworks.openEnc hworks.createDec hdec
  rw [henc, hdecrypt]
  refine ⟨rfl, rfl, Disk.read_write_same _ dec content, ?_⟩
  intro hsrc
  rw [Disk.read_write_other _ dec source content (Ne.symm hsrc),
    Disk.read_write_other _ dec source [] (Ne.symm hsrc),
    Disk.read_write_other _ enc source _ (Ne.symm hne),
    Disk.read_write_other _ enc source [] (Ne.symm hne), hfile]

/-- C25, witness: the file `f.bin` goes through `f.enc` to `f.dec`. -/
theorem file_round_trip_witness :
    (EncryptionManager.EncryptFile exampleLibrary plainNameManager exampleDisk
      "f.bin" "f.enc").1 = none ∧
    (EncryptionManager.DecryptFile exampleLibrary plainNameManager
      (EncryptionManager.EncryptFile exampleLibrary plainNameManager exampleDisk
        "f.bin" "f.enc").2 "f.enc" "f.dec").1 = none ∧
    Disk.read (EncryptionManager.DecryptFile exampleLibrary plainNameManager
      (EncryptionManager.EncryptFile exampleLibrary plainNameManager exampleDisk
        "f.bin" "f.enc").2 "f.enc" "f.dec").2 "f.dec" = some [1, 2, 3, 255] ∧
    ("f.dec" ≠ "f.bin" →
      Disk.read (EncryptionManager.DecryptFile exampleLibrary plainNameManager
        (EncryptionManager.EncryptFile exampleLibrary plainNameManager exampleDisk
          "f.bin" "f.enc").2 "f.enc" "f.dec").2 "f.bin" = some [1, 2, 3, 255]) :=
  file_round_trip exampleLibrary exampleLibrary_lawful plainNameManager exampleDisk
    "f.bin" "f.enc" "f.dec" [1, 2, 3, 255] rfl (by decide)
    ⟨rfl, rfl, rfl, rfl, rfl, rfl⟩ (by decide) (by decide)

/-! ### `EncryptionManager`: `DecryptFilename` on a name that is not an encrypted name -/

/-- C26, failing input, in general.  A PGP-mode manager with filename
encryption on; `payload` is what `base62.DecodeString` returns for the name
without its extension.  (1) Whatever the input, `DecryptFilename` never returns
a non-nil error: the errors of `DecodeString` and `decryptAES` are dropped.
(2) With a 16-byte IV and a password that pads to 16 bytes, `DecryptFilename`
panics when the payload has fewer than four bytes (as it has when
`DecodeString` fails and returns no bytes), when the bytes after the four-byte
header are not a whole number of 16-byte blocks, and when the header counts
more bytes than follow it. -/
theorem DecryptFilename_malformed_input (lib : Library) (manager : EncryptionManager)
    (filename : List Byte) (hmode : manager.mode = .EncryptionModePGP)
    (hE : manager.encryptFilename = true) :
    (∀ value err, EncryptionManager.DecryptFilename lib manager filename = .ret value err →
      err = none) ∧
    (16 ≤ (manager.password ++ lib.aesPadding).length → lib.aesIV.length = 16 →
      ((lib.DecodeString (TrimSuffix filename PgpEncryptedFileExt)).1.length < 4 →
        EncryptionManager.DecryptFilename lib manager filename = .panic) ∧
      (∀ err, lib.DecodeString (TrimSuffix filename PgpEncryptedFileExt) = ([], some err) →
        EncryptionManager.DecryptFilename lib manager filename = .panic) ∧
      (4 ≤ (lib.DecodeString (TrimSuffix filename PgpEncryptedFileExt)).1.length →
        ((lib.DecodeString (TrimSuffix filename PgpEncryptedFileExt)).1.length - 4) % 16 ≠ 0 →
        EncryptionManager.DecryptFilename lib manager filename = .panic) ∧
      (4 ≤ (lib.DecodeString (TrimSuffix filename PgpEncryptedFileExt)).1.length →
        (lib.DecodeString (TrimSuffix filename PgpEncryptedFileExt)).1.length - 4 <
          Uint32 ((lib.DecodeString (TrimSuffix filename PgpEncryptedFileExt)).1.take 4) →
        EncryptionManager.DecryptFilename lib manager filename = .panic)) := by
  have hrun : EncryptionManager.DecryptFilename lib manager filename =
      match EncryptionManager.decryptAES lib manager
          (lib.DecodeString (TrimSuffix filename PgpEncryptedFileExt)).1 with
      | .panic => .panic
      | .ret decryptedFilename _ => .ret decryptedFilename none := by
    simp [EncryptionManager.DecryptFilename, hmode, EncryptionManager.decryptFilenamePGP, hE]
  refine ⟨?_, ?_⟩
  · intro value err h
    rw [hrun] at h
    cases hA : EncryptionManager.decryptAES lib manager
        (lib.DecodeString (TrimSuffix filename PgpEncryptedFileExt)).1 with
    | panic =>
      rw [hA] at h
      cases h
    | ret v e =>
      rw [hA] at h
      injection h with _ he
      exact he.symm
  · intro hkey hiv
    obtain ⟨key, hk, hlen⟩ := padAesKey_of_long lib manager.password hkey
    have hA := decryptAES_of_key lib manager
      (lib.DecodeString (TrimSuffix filename PgpEncryptedFileExt)).1 key hk hlen hiv
    have hshort : (lib.DecodeString (TrimSuffix filename PgpEncryptedFileExt)).1.length < 4 →
        EncryptionManager.DecryptFilename lib manager filename = .panic := by
      intro h
      rw [hrun, hA, if_pos h]
    refine ⟨hshort, ?_, ?_, ?_⟩
    · intro err hD
      apply hshort
      rw [hD]
      exact Nat.zero_lt_succ 3
    · intro h4 hblocks
      rw [hrun, hA, if_neg (by omega), if_pos (by rw [List.length_drop]; exact hblocks)]
    · intro h4 hhead
      by_cases hblocks : ((lib.DecodeString
          (TrimSuffix filename PgpEncryptedFileExt)).1.drop 4).length % 16 ≠ 0
      · rw [hrun, hA, if_neg (by omega), if_pos hblocks]
      · rw [hrun, hA, if_neg (by omega), if_neg hblocks,
          if_pos (by rw [List.length_drop]; exact hhead)]

/-- C26, witness: the name `!` is not in the alphabet of the example encoding;
`DecodeString` fails, its error is dropped, and `DecryptFilename` panics. -/
theorem DecryptFilename_malformed_input_witness :
    exampleLibrary.DecodeString (TrimSuffix [33] PgpEncryptedFileExt) =
      ([], some (.Errorf "base62: corrupt input" [])) ∧
    EncryptionManager.DecryptFilename exampleLibrary exampleManager [33] = .panic :=
  ⟨by decide,
    ((DecryptFilename_malformed_input exampleLibrary exampleManager [33] rfl rfl).2
      (by decide) (by decide)).2.1 (.Errorf "base62: corrupt input" []) (by decide)⟩

end Bput
